import Mathlib

/-!
# PWMAngband: player state engine (`src/server/player.c`, `src/server/z-quark.c`)

A shallow embedding of the stat and experience operations of `player.c`
(`player_stat_inc`, `player_stat_dec`, `adjust_level`, `player_exp_gain`,
`player_exp_lose`), of the interning registry of `z-quark.c` (`quarks_init`,
`quark_add`, `quark_str`), of the player registry of `player.c`
(`init_players`, `player_get`, `player_set`, `player_from_id`), of the
knowledge grid of `player.c` (`player_cave_new`, `player_cave_free`,
`player_cave_clear`, `player_square_in_bounds`,
`player_square_in_bounds_fully`), of the teardown `cleanup_player` and of
`player_safe_name`, together with the properties the specification states
about them.

Conventions of the embedding.

* C `int` / `int16_t` / `int32_t` values are `Int`.  The stat operations can
  not overflow (they only move a value towards `18+100` or towards `3`), the
  experience operations wrap explicitly through `wrap32`.
* C integer division truncates towards zero: `Int.tdiv`.
* Constants, flag masks and the threshold table `adv_exp` live in headers
  that are not part of the sources at hand; they are the fields of `Consts`
  and every theorem holds for all their values (under the stated
  hypotheses).
* `randint1` is passed as an argument: the function the call
  `randint1(gain)` evaluates at this call.
* Calls to external collaborators (`update_stuff`, `msgt`, `msg_broadcast`,
  `effect_simple`, `history_add_unique`, ...) are recorded, in order, in the
  `trace` field; they change no other field of the embedding.
-/

namespace PWMAngband

/-! ## Data model -/

/-- Primary stats restored on a level gain (`STAT_STR` .. `STAT_CON`). -/
inductive Stat where
  | STAT_STR
  | STAT_INT
  | STAT_WIS
  | STAT_DEX
  | STAT_CON
  deriving DecidableEq

/-- Calls made to external collaborators, in the order the code makes them. -/
inductive Event where
  | update_stuff
  | poly_dragon
  | poly_shape
  | msgt (lev : Int)
  | msg_broadcast (lev : Int)
  | effect_restore_stat (s : Stat)
  | history_add_unique (lev : Int)
  | player_learn_innate
  | set_redraw_equip
  deriving DecidableEq

/-- Constants, flag masks and the experience table used by `player.c`, all
declared in headers outside the sources at hand. -/
structure Consts where
  PY_MAX_EXP : Int
  PY_MAX_LEVEL : Int
  PU_BONUS : Nat
  PU_SPELLS : Nat
  PU_MONSTERS : Nat
  PR_EXP : Nat
  PR_STATS : Nat
  PR_LEV : Nat
  PR_TITLE : Nat
  PR_SPELL : Nat
  PR_PLUSSES : Nat
  adv_exp : Int → Int → Int

/-- The fields of `struct player` (and of `p->upkeep`) that the progression
code reads or writes.  `update` and `redraw` are the two dirty-flag words,
`PF_PERM_SHAPE` / `PF_DRAGON` the results of `player_has`. -/
structure player where
  stat_cur : Nat → Int
  stat_max : Nat → Int
  update : Nat
  redraw : Nat
  exp : Int
  max_exp : Int
  lev : Int
  max_lev : Int
  expfact : Int
  PF_PERM_SHAPE : Bool
  PF_DRAGON : Bool
  trace : List Event

/-- Two's complement reduction of an integer to the range of `int32_t`. -/
def wrap32 (x : Int) : Int := (x + 2147483648) % 4294967296 - 2147483648

/-! ## Stats -/

/-- Embedding of `player_stat_inc`: the returned flag and the new state. -/
def player_stat_inc (c : Consts) (randint1 : Int → Int) (p : player) (stat : Nat) :
    Bool × player :=
  let v := p.stat_cur stat
  -- Cannot go above 18/100
  if v ≥ 18 + 100 then (false, p)
  else
    let p1 : player :=
      -- Increase linearly
      if v < 18 then { p with stat_cur := Function.update p.stat_cur stat (p.stat_cur stat + 1) }
      else if v < 18 + 90 then
        let gain := (((18 + 100) - v).tdiv 2 + 3).tdiv 2
        -- Paranoia
        let gain := if gain < 1 then 1 else gain
        -- Apply the bonus
        let pa : player :=
          { p with stat_cur :=
              Function.update p.stat_cur stat (p.stat_cur stat + (randint1 gain + gain.tdiv 2)) }
        -- Maximal value
        if pa.stat_cur stat > 18 + 99 then
          { pa with stat_cur := Function.update pa.stat_cur stat (18 + 99) }
        else pa
      else { p with stat_cur := Function.update p.stat_cur stat (18 + 100) }
    -- Bring up the maximum too
    let p2 : player :=
      if p1.stat_cur stat > p1.stat_max stat then
        { p1 with stat_max := Function.update p1.stat_max stat (p1.stat_cur stat) }
      else p1
    -- Recalculate bonuses
    (true, { p2 with update := p2.update ||| c.PU_BONUS })

/-- Embedding of `player_stat_dec`: the returned flag and the new state. -/
def player_stat_dec (c : Consts) (p : player) (stat : Nat) (permanent : Bool) :
    Bool × player :=
  let cur := p.stat_cur stat
  let max := p.stat_max stat
  -- Damage "current" value
  let cur := if cur > 18 + 10 then cur - 10 else if cur > 18 then 18
    else if cur > 3 then cur - 1 else cur
  let res := decide (cur ≠ p.stat_cur stat)
  -- Damage "max" value
  let max := if permanent then
      (if max > 18 + 10 then max - 10 else if max > 18 then 18
        else if max > 3 then max - 1 else max)
    else max
  let res := if permanent then decide (max ≠ p.stat_max stat) else res
  -- Apply changes
  if res then
    (res, { p with
      stat_cur := Function.update p.stat_cur stat cur
      stat_max := Function.update p.stat_max stat max
      update := p.update ||| c.PU_BONUS
      redraw := p.redraw ||| c.PR_STATS })
  else (res, p)

/-! ## Experience and levels -/

/-- The external collaborator `update_stuff`, recorded in the trace. -/
def update_stuff (p : player) : player :=
  { p with trace := p.trace ++ [Event.update_stuff] }

/-- The "permanently polymorphed characters" block of both level loops. -/
def perm_shape (p : player) : player :=
  if p.PF_PERM_SHAPE then
    if p.PF_DRAGON then { p with trace := p.trace ++ [Event.poly_dragon] }
    else { p with trace := p.trace ++ [Event.poly_shape] }
  else p

/-- The "lose levels while possible" loop of `adjust_level`, carrying the
local variable `redraw`. -/
def lose_levels (c : Consts) (p : player) (redraw : Bool) : player × Bool :=
  if _h : p.lev > 1 ∧ p.exp < c.adv_exp (p.lev - 1) p.expfact then
    -- Lose a level, permanently polymorphed characters, redraw
    lose_levels c (perm_shape { p with lev := p.lev - 1 }) true
  else (p, redraw)
termination_by (p.lev - 1).toNat
decreasing_by
  have e : (perm_shape { p with lev := p.lev - 1 }).lev = p.lev - 1 := by
    simp only [perm_shape]
    split_ifs <;> rfl
  rw [e]
  omega

/-- The "save the highest level" block of the gain loop. -/
def new_max_lev (p : player) : player :=
  if p.lev > p.max_lev then
    let p1 : player := { p with max_lev := p.lev }
    -- Message
    let p2 : player :=
      { p1 with trace := p1.trace ++ [Event.msgt p1.lev, Event.msg_broadcast p1.lev] }
    -- Restore stats
    let p3 : player :=
      { p2 with trace := p2.trace ++
          [Event.effect_restore_stat Stat.STAT_STR, Event.effect_restore_stat Stat.STAT_INT,
           Event.effect_restore_stat Stat.STAT_WIS, Event.effect_restore_stat Stat.STAT_DEX,
           Event.effect_restore_stat Stat.STAT_CON] }
    -- Record this event in the character history
    let p4 : player :=
      if p3.lev.tmod 5 = 0 then
        { p3 with trace := p3.trace ++ [Event.history_add_unique p3.lev] }
      else p3
    -- Player learns innate runes
    { p4 with trace := p4.trace ++ [Event.player_learn_innate] }
  else p

/-- The "gain levels while possible" loop of `adjust_level`, carrying the
local variable `redraw`. -/
def gain_levels (c : Consts) (p : player) (redraw : Bool) : player × Bool :=
  if _h : p.lev < c.PY_MAX_LEVEL ∧ p.exp ≥ c.adv_exp p.lev p.expfact then
    -- Gain a level, permanently polymorphed characters, highest level, redraw
    gain_levels c (new_max_lev (perm_shape { p with lev := p.lev + 1 })) true
  else (p, redraw)
termination_by (c.PY_MAX_LEVEL - p.lev).toNat
decreasing_by
  have e : (new_max_lev (perm_shape { p with lev := p.lev + 1 })).lev = p.lev + 1 := by
    simp only [new_max_lev, perm_shape]
    split_ifs <;> rfl
  rw [e]
  omega

/-- The five clamping statements that open `adjust_level`. -/
def clamp_exp (c : Consts) (p : player) : player :=
  -- Hack -- lower limit
  let p : player := if p.exp < 0 then { p with exp := 0 } else p
  let p : player := if p.max_exp < 0 then { p with max_exp := 0 } else p
  -- Hack -- upper limit
  let p : player := if p.exp > c.PY_MAX_EXP then { p with exp := c.PY_MAX_EXP } else p
  let p : player := if p.max_exp > c.PY_MAX_EXP then { p with max_exp := c.PY_MAX_EXP } else p
  -- Hack -- maintain "max" experience
  if p.exp > p.max_exp then { p with max_exp := p.exp } else p

/-- Embedding of `adjust_level`. -/
def adjust_level (c : Consts) (p : player) : player :=
  let p := clamp_exp c p
  -- Redraw experience
  let p : player := { p with redraw := p.redraw ||| c.PR_EXP }
  -- Update stuff
  let p := update_stuff p
  -- Lose levels while possible
  let r := lose_levels c p false
  -- Gain levels while possible
  let r := gain_levels c r.1 r.2
  let p := r.1
  -- Redraw - do it only once
  let p : player :=
    if r.2 then
      { p with
        update := p.update ||| (c.PU_BONUS ||| c.PU_SPELLS ||| c.PU_MONSTERS)
        redraw := p.redraw |||
          (c.PR_LEV ||| c.PR_TITLE ||| c.PR_EXP ||| c.PR_STATS ||| c.PR_SPELL ||| c.PR_PLUSSES)
        trace := p.trace ++ [Event.set_redraw_equip] }
    else p
  -- Update stuff
  update_stuff p

/-- The statements of `player_exp_gain` that precede `adjust_level`. -/
def exp_gain_raw (p : player) (amount : Int) : player :=
  -- Gain some experience
  let p : player := { p with exp := wrap32 (p.exp + amount) }
  -- Slowly recover from experience drainage
  if p.exp < p.max_exp then
    -- Gain max experience (10%)
    { p with max_exp := wrap32 (p.max_exp + amount.tdiv 10) }
  else p

/-- Embedding of `player_exp_gain`. -/
def player_exp_gain (c : Consts) (p : player) (amount : Int) : player :=
  adjust_level c (exp_gain_raw p amount)

/-- The statements of `player_exp_lose` that precede `adjust_level`. -/
def exp_lose_raw (p : player) (amount : Int) (permanent : Bool) : player :=
  -- Never drop below zero experience
  let amount := if amount > p.exp then p.exp else amount
  -- Lose some experience
  let p : player := { p with exp := wrap32 (p.exp - amount) }
  if permanent then { p with max_exp := wrap32 (p.max_exp - amount) } else p

/-- Embedding of `player_exp_lose`. -/
def player_exp_lose (c : Consts) (p : player) (amount : Int) (permanent : Bool) : player :=
  adjust_level c (exp_lose_raw p amount permanent)

/-! ## Specification-side definitions -/

/-- The gain of the randomized range as the specification words it: computed
from the remaining headroom, floor-clamped to at least 1. -/
def gain_spec (v : Int) : Int := max 1 (((118 - v) / 2 + 3) / 2)

/-- The new current value of `increase_stat` as the specification words it,
for a value `v` below the ceiling and a roll `r`. -/
def increase_stat_spec (v r : Int) : Int :=
  if v < 18 then v + 1
  else if v < 108 then min (v + r + gain_spec v / 2) 117
  else 118

/-- The temporary-damage step of `decrease_stat` as the specification words
it. -/
def step (v : Int) : Int :=
  if v > 28 then v - 10 else if 18 < v then 18 else if 3 < v then v - 1 else v

/-- The ability-score invariant of one stat slot. -/
def StatInv (p : player) (stat : Nat) : Prop :=
  3 ≤ p.stat_cur stat ∧ p.stat_cur stat ≤ 118 ∧
  3 ≤ p.stat_max stat ∧ p.stat_max stat ≤ 118 ∧
  p.stat_max stat ≥ p.stat_cur stat

/-- The contract of `randint1`: for `m ≥ 1` the result lies in `[1, m]`. -/
def RandOk (randint1 : Int → Int) : Prop :=
  ∀ m : Int, 1 ≤ m → 1 ≤ randint1 m ∧ randint1 m ≤ m

/-- Successive calls `player_stat_inc(p, stat)`, the `k`-th call (counted
from 0) drawing from `rnds k`. -/
def stat_inc_iter (c : Consts) (rnds : Nat → Int → Int) (stat : Nat) : Nat → player → player
  | 0, p => p
  | n + 1, p => (player_stat_inc c (rnds n) (stat_inc_iter c rnds stat n p) stat).2

/-! ## Auxiliary definitions -/

/-- The value `player_stat_inc` leaves in `stat_cur[stat]` when it starts
from `v < 18+100`. -/
def inc_value (randint1 : Int → Int) (v : Int) : Int :=
  if v < 18 then v + 1
  else if v < 18 + 90 then
    let gain := (((18 + 100) - v).tdiv 2 + 3).tdiv 2
    let gain := if gain < 1 then 1 else gain
    if v + (randint1 gain + gain.tdiv 2) > 18 + 99 then 18 + 99
    else v + (randint1 gain + gain.tdiv 2)
  else 18 + 100

/-- Sample constants: distinct single-bit flag masks, a level cap of 50 and a
threshold table that grows linearly with the level. -/
def sample_consts : Consts where
  PY_MAX_EXP := 99999999
  PY_MAX_LEVEL := 50
  PU_BONUS := 0x01
  PU_SPELLS := 0x10
  PU_MONSTERS := 0x80
  PR_EXP := 0x08
  PR_STATS := 0x10
  PR_LEV := 0x04
  PR_TITLE := 0x02
  PR_SPELL := 0x4000
  PR_PLUSSES := 0x8000
  adv_exp := fun lev expfact => lev * expfact

/-- A sample starting character: every stat at 18/18, level 1, no
experience. -/
def sample_player : player where
  stat_cur := fun _ => 18
  stat_max := fun _ => 18
  update := 0
  redraw := 0
  exp := 0
  max_exp := 0
  lev := 1
  max_lev := 1
  expfact := 100
  PF_PERM_SHAPE := false
  PF_DRAGON := false
  trace := []

/-- The condition of the level-losing loop. -/
def lose_cond (c : Consts) (p : player) : Prop :=
  p.lev > 1 ∧ p.exp < c.adv_exp (p.lev - 1) p.expfact

/-- The condition of the level-gaining loop. -/
def gain_cond (c : Consts) (p : player) : Prop :=
  p.lev < c.PY_MAX_LEVEL ∧ p.exp ≥ c.adv_exp p.lev p.expfact

/-- The state on which the two level loops of `adjust_level` start. -/
def adjust_start (c : Consts) (p : player) : player :=
  update_stuff { clamp_exp c p with redraw := (clamp_exp c p).redraw ||| c.PR_EXP }

/-- The state and `redraw` variable with which the two level loops of
`adjust_level` end. -/
def adjust_loops (c : Consts) (p : player) : player × Bool :=
  gain_levels c (lose_levels c (adjust_start c p) false).1
    (lose_levels c (adjust_start c p) false).2

/-- The threshold invariant of the level as the specification words it:
`threshold(L-1) ≤ experience < threshold(L)`, the lower bound being vacuous
for `L = 1`. -/
def LevelInvSpec (c : Consts) (exp expfact L : Int) : Prop :=
  (L = 1 ∨ c.adv_exp (L - 1) expfact ≤ exp) ∧ exp < c.adv_exp L expfact

/-- The threshold invariant of the level with the upper bound vacuous at the
level cap `PY_MAX_LEVEL`. -/
def LevelInv (c : Consts) (exp expfact L : Int) : Prop :=
  (L = 1 ∨ c.adv_exp (L - 1) expfact ≤ exp) ∧
  (L = c.PY_MAX_LEVEL ∨ exp < c.adv_exp L expfact)

/-- The threshold function of an experience factor is strictly increasing on
the levels `1 .. PY_MAX_LEVEL`. -/
def ThresholdIncreasing (c : Consts) (expfact : Int) : Prop :=
  ∀ a b : Int, 1 ≤ a → a < b → b ≤ c.PY_MAX_LEVEL → c.adv_exp a expfact < c.adv_exp b expfact

/-- A sample character at the level cap, with more experience than the
threshold of the last level. -/
def maxed_player : player :=
  { sample_player with exp := 10000, max_exp := 10000, lev := 50, max_lev := 50 }

/-- A sample character of level 31 whose experience was drained from 5000
to 3000. -/
def drained_player : player :=
  { sample_player with exp := 3000, max_exp := 5000, lev := 31, max_lev := 50 }

/-! ## Level reconciliation: auxiliary definitions -/

/-- One pass of the body of the level-losing loop. -/
def lose_body (p : player) : player :=
  perm_shape { p with lev := p.lev - 1 }

/-- One pass of the body of the level-gaining loop. -/
def gain_body (p : player) : player :=
  new_max_lev (perm_shape { p with lev := p.lev + 1 })

/-- The levels announced to the player (`msgt`), in the order of the trace. -/
def msgt_levels (t : List Event) : List Int :=
  t.filterMap (fun e => match e with
    | Event.msgt l => some l
    | _ => none)

/-- The levels broadcast to all players (`msg_broadcast`), in the order of
the trace. -/
def broadcast_levels (t : List Event) : List Int :=
  t.filterMap (fun e => match e with
    | Event.msg_broadcast l => some l
    | _ => none)

/-- The levels recorded in the character history (`history_add_unique`), in
the order of the trace. -/
def history_levels (t : List Event) : List Int :=
  t.filterMap (fun e => match e with
    | Event.history_add_unique l => some l
    | _ => none)

/-- The levels `a + 1, a + 2, ..., b` in increasing order (empty when
`b ≤ a`). -/
def level_range (a b : Int) : List Int :=
  (List.range (b - a).toNat).map (fun (i : Nat) => a + 1 + (i : Int))

/-! ## Interning registry (`src/server/z-quark.c`)

Strings are `String`, `streq` is equality.  A NULL `char *` is `none`.  The
backing array `quarks` is a list whose length is the number of slots the last
`mem_zalloc` / `mem_realloc` gave it.  Operations return `none` when the C
code would read or write outside the array or pass NULL to `streq`.
`size_t` values are `Nat`. -/

/-- The file-scope variables of `z-quark.c`. -/
structure quark_state where
  quarks : List (Option String)
  nr_quarks : Nat
  alloc_quarks : Nat

/-- The constant `QUARKS_INIT`. -/
def QUARKS_INIT : Nat := 16

/-- The static initialisers: `quarks` is NULL, `nr_quarks = 1`,
`alloc_quarks = 0`. -/
def quark_static : quark_state :=
  { quarks := [], nr_quarks := 1, alloc_quarks := 0 }

/-- Resizing an array to `n` slots with `mem_realloc`: the old contents are
kept, new slots hold no string yet. -/
def mem_realloc (a : List (Option String)) (n : Nat) : List (Option String) :=
  a.take n ++ List.replicate (n - a.length) none

/-- Embedding of `quarks_init`. -/
def quarks_init (s : quark_state) : quark_state :=
  { s with alloc_quarks := QUARKS_INIT, quarks := List.replicate QUARKS_INIT none }

/-- The search loop of `quark_add`, with `n` passes left and the loop
variable at `q`: `some (some q)` when `quarks[q]` equals `str`, `some none`
when the loop ends without a match, `none` when a slot read is outside the
array or NULL. -/
def quark_scan (quarks : List (Option String)) (str : String) : Nat → Nat → Option (Option Nat)
  | 0, _ => some none
  | n + 1, q =>
    match quarks[q]? with
    | some (some t) => if t = str then some (some q) else quark_scan quarks str n (q + 1)
    | _ => none

/-- Embedding of `quark_add`: the handle returned and the new state. -/
def quark_add (s : quark_state) (str : String) : Option (Nat × quark_state) :=
  match quark_scan s.quarks str (s.nr_quarks - 1) 1 with
  | none => none
  | some (some q) => some (q, s)
  | some none =>
    let s1 : quark_state :=
      if s.nr_quarks = s.alloc_quarks then
        { s with
          alloc_quarks := s.alloc_quarks * 2
          quarks := mem_realloc s.quarks (s.alloc_quarks * 2) }
      else s
    let q := s1.nr_quarks
    let s2 : quark_state := { s1 with nr_quarks := s1.nr_quarks + 1 }
    if q < s2.quarks.length then some (q, { s2 with quarks := s2.quarks.set q (some str) })
    else none

/-- Embedding of `quark_str`: `some none` is a NULL result, `none` a read
outside the array. -/
def quark_str (s : quark_state) (q : Nat) : Option (Option String) :=
  if q ≥ s.nr_quarks then some none else s.quarks[q]?

/-- Successive calls of `quark_add`: the handles returned, in order, and the
final state. -/
def quark_adds (s : quark_state) : List String → Option (List Nat × quark_state)
  | [] => some ([], s)
  | str :: rest =>
    match quark_add s str with
    | none => none
    | some (q, t) =>
      match quark_adds t rest with
      | none => none
      | some (qs, u) => some (q :: qs, u)

/-- The distinct strings interned so far, in handle order, after interning
`strs` on top of `L`. -/
def intern_list (L : List String) : List String → List String
  | [] => L
  | x :: xs => intern_list (if x ∈ L then L else L ++ [x]) xs

/-- The registry state `s` holds exactly the strings `L`: slot 0 is empty,
slot `i + 1` holds `L[i]`, no string occurs twice, and the capacity is
`16 * 2^k` and not exceeded. -/
def QuarkAbs (s : quark_state) (L : List String) : Prop :=
  s.quarks.length = s.alloc_quarks ∧ (∃ k : Nat, s.alloc_quarks = 16 * 2 ^ k) ∧
  s.nr_quarks = L.length + 1 ∧ s.nr_quarks ≤ s.alloc_quarks ∧
  s.quarks[0]? = some none ∧
  (∀ i, i < L.length → s.quarks[i + 1]? = some L[i]?) ∧
  L.Nodup

/-! ## Player registry (`player.c`: `Players`, `NumPlayers`)

`ρ` is the type of non-null `struct player *` values, `none` is NULL.  The
array `Players` is given by its slot contents; the code reads and writes only
indices `id` with `0 < id < MAX_PLAYERS`.  `MAX_PLAYERS` is declared in a
header outside the sources at hand and is an argument. -/

/-- The file-scope variables `Players` and `NumPlayers`. -/
structure registry (ρ : Type) where
  Players : Int → Option ρ
  NumPlayers : Int

/-- Embedding of `init_players`: a zeroed array. -/
def init_players {ρ : Type} (r : registry ρ) : registry ρ :=
  { r with Players := fun _ => none }

/-- Embedding of `player_get`. -/
def player_get {ρ : Type} (MAX_PLAYERS : Int) (r : registry ρ) (id : Int) : Option ρ :=
  if id > 0 ∧ id < MAX_PLAYERS then r.Players id else none

/-- Embedding of `player_set`. -/
def player_set {ρ : Type} (MAX_PLAYERS : Int) (r : registry ρ) (id : Int) (p : Option ρ) :
    registry ρ :=
  if id > 0 ∧ id < MAX_PLAYERS then { r with Players := Function.update r.Players id p }
  else r

/-- The loop of `player_from_id`, with `n` passes left and the loop variable
at `i`; `id_of p` is `p->id`.  `some (some p)` when a player is returned,
`some none` when the loop ends and NULL is returned, `none` when `p->id` is
read through a NULL `p`. -/
def player_from_id_loop {ρ : Type} (MAX_PLAYERS : Int) (id_of : ρ → Int) (r : registry ρ)
    (id : Int) : Nat → Int → Option (Option ρ)
  | 0, _ => some none
  | n + 1, i =>
    match player_get MAX_PLAYERS r i with
    | none => none
    | some p => if id = id_of p then some (some p) else
        player_from_id_loop MAX_PLAYERS id_of r id n (i + 1)

/-- Embedding of `player_from_id`: the loop runs for `i = 1 .. NumPlayers`. -/
def player_from_id {ρ : Type} (MAX_PLAYERS : Int) (id_of : ρ → Int) (r : registry ρ)
    (id : Int) : Option (Option ρ) :=
  player_from_id_loop MAX_PLAYERS id_of r id r.NumPlayers.toNat 1

/-- Successive calls of `player_set`. -/
def player_sets {ρ : Type} (MAX_PLAYERS : Int) (r : registry ρ) :
    List (Int × Option ρ) → registry ρ
  | [] => r
  | op :: rest => player_sets MAX_PLAYERS (player_set MAX_PLAYERS r op.1 op.2) rest

/-- The number of occupied slots among the `MAX_PLAYERS` slots of `Players`. -/
def occupied {ρ : Type} (MAX_PLAYERS : Int) (r : registry ρ) : Nat :=
  (List.range MAX_PLAYERS.toNat).countP (fun (i : Nat) => (r.Players (i : Int)).isSome)

/-- A sample registry of four slots just after `init_players`; players are
represented by their permanent id. -/
def sample_registry : registry Int :=
  init_players { Players := fun _ => none, NumPlayers := 0 }

/-- A sample registry of four slots holding one player, in slot 1, with
`NumPlayers = 1`. -/
def one_player_registry : registry Int :=
  { Players := Function.update (fun _ => none) 1 (some 42), NumPlayers := 1 }

/-! ## Knowledge grid (`player.c`: `player_cave_new`, `player_cave_free`,
`player_cave_clear`, bounds tests)

The two-dimensional arrays `squares`, `noise.grids` and `scent.grids` are
`none` when the pointer is NULL and otherwise give the contents by row `y`
and column `x`.  An operation returns `none` when the C code would read or
write through a NULL pointer or outside `height × width`, or when an
allocation of negative size is requested.  Calls that release memory are
recorded, in order, in `trace`. -/

/-- A grid coordinate, `struct loc`. -/
structure loc where
  x : Int
  y : Int
  deriving DecidableEq

/-- The square flags named by `player_cave_clear`, declared in a header
outside the sources at hand. -/
structure SquareFlags where
  SQUARE_SEEN : Nat
  SQUARE_VIEW : Nat
  SQUARE_DTRAP : Nat

/-- One cell of the knowledge grid, `struct player_square`: the remembered
terrain (0 when none), the flag set `info` (`none` when NULL, else which
flags are on), the remembered object pile and the remembered trap (`none`
when NULL). -/
structure player_square where
  feat : Nat
  info : Option (Nat → Bool)
  obj : Option Nat
  trap : Option Nat

/-- Calls that release memory owned by the grid. -/
inductive GridEvent where
  | free_info (y x : Int)
  | forget_pile (y x : Int)
  | forget_trap (y x : Int)
  | free_squares_row (y : Int)
  | free_noise_row (y : Int)
  | free_scent_row (y : Int)
  | free_squares
  | free_noise
  | free_scent
  deriving DecidableEq

/-- The knowledge grid, `struct player_cave`. -/
structure player_cave where
  height : Int
  width : Int
  feeling_squares : Int
  squares : Option (Int → Int → player_square)
  noise : Option (Int → Int → Nat)
  scent : Option (Int → Int → Nat)
  allocated : Bool

/-- The fields of `struct player` that the grid code uses: `feeling`, the
grid `*p->cave`, and the record of release calls. -/
structure grid_player where
  feeling : Int
  cave : player_cave
  trace : List GridEvent

/-- A cell as `mem_zalloc` leaves it. -/
def zero_square : player_square :=
  { feat := 0, info := none, obj := none, trap := none }

/-- Writing one element of a two-dimensional array. -/
def grid_set {α : Type} (g : Int → Int → α) (y x : Int) (v : α) : Int → Int → α :=
  fun y' x' => if y' = y ∧ x' = x then v else g y' x'

/-- Replacing one row of a two-dimensional array by a zeroed row. -/
def grid_zero_row {α : Type} (g : Int → Int → α) (y : Int) (z : α) : Int → Int → α :=
  fun y' x' => if y' = y then z else g y' x'

/-- The coordinate `(x, y)` lies inside the allocated extent of the grid. -/
def in_extent (s : grid_player) (y x : Int) : Prop :=
  0 ≤ y ∧ y < s.cave.height ∧ 0 ≤ x ∧ x < s.cave.width

instance (s : grid_player) (y x : Int) : Decidable (in_extent s y x) := by
  unfold in_extent; infer_instance

/-- An update of the cell `*square_p(p, grid)`; `f` returns `none` where the
update reads through a NULL member. -/
def square_modify (s : grid_player) (y x : Int)
    (f : player_square → Option player_square) : Option grid_player :=
  match s.cave.squares with
  | none => none
  | some g =>
    if in_extent s y x then
      match f (g y x) with
      | none => none
      | some c => some { s with cave := { s.cave with squares := some (grid_set g y x c) } }
    else none

/-- Modelled from the spec: `square_forget` (not in the sources at hand)
forgets the remembered terrain of the cell. -/
def square_forget (s : grid_player) (y x : Int) : Option grid_player :=
  square_modify s y x (fun c => some { c with feat := 0 })

/-- Modelled from the spec: `square_forget_pile` (not in the sources at
hand) releases the remembered object pile of the cell and leaves the
reference empty. -/
def square_forget_pile (s : grid_player) (y x : Int) : Option grid_player :=
  (square_modify s y x (fun c => some { c with obj := none })).map
    (fun t => { t with trace := t.trace ++ [GridEvent.forget_pile y x] })

/-- Modelled from the spec: `square_forget_trap` (not in the sources at
hand) releases the remembered trap of the cell and leaves the reference
empty. -/
def square_forget_trap (s : grid_player) (y x : Int) : Option grid_player :=
  (square_modify s y x (fun c => some { c with trap := none })).map
    (fun t => { t with trace := t.trace ++ [GridEvent.forget_trap y x] })

/-- Modelled from the spec: the macro `sqinfo_wipe` (not in the sources at
hand) turns every flag of a flag set off. -/
def sqinfo_wipe (c : player_square) : Option player_square :=
  match c.info with
  | none => none
  | some _ => some { c with info := some (fun _ => false) }

/-- Modelled from the spec: the macro `sqinfo_off` (not in the sources at
hand) turns one flag of a flag set off. -/
def sqinfo_off (flag : Nat) (c : player_square) : Option player_square :=
  match c.info with
  | none => none
  | some fl => some { c with info := some (fun i => if i = flag then false else fl i) }

/-- The body of the inner loop of `player_cave_free`. -/
def cave_free_cell (y : Int) (s : grid_player) (x : Nat) : Option grid_player := do
  -- mem_free(square_p(p, &grid)->info); square_p(p, &grid)->info = NULL;
  let s ← (square_modify s y x (fun c => some { c with info := none })).map
    (fun t => { t with trace := t.trace ++ [GridEvent.free_info y x] })
  let s ← square_forget_pile s y x
  square_forget_trap s y x

/-- The body of the outer loop of `player_cave_free`. -/
def cave_free_row (s : grid_player) (y : Nat) : Option grid_player := do
  let s ← (List.range s.cave.width.toNat).foldlM (cave_free_cell y) s
  match s.cave.squares, s.cave.noise, s.cave.scent with
  | some _, some _, some _ =>
    some { s with trace := s.trace ++
      [GridEvent.free_squares_row y, GridEvent.free_noise_row y, GridEvent.free_scent_row y] }
  | _, _, _ => none

/-- Embedding of `player_cave_free`. -/
def player_cave_free (s : grid_player) : Option grid_player :=
  if ¬ s.cave.allocated then some s
  else do
    let s ← (List.range s.cave.height.toNat).foldlM cave_free_row s
    some { s with
      cave := { s.cave with squares := none, noise := none, scent := none, allocated := false }
      trace := s.trace ++
        [GridEvent.free_squares, GridEvent.free_noise, GridEvent.free_scent] }

/-- The body of the inner loop of `player_cave_new`: the flag set of one cell
is allocated zeroed. -/
def cave_new_cell (y : Int) (s : grid_player) (x : Nat) : Option grid_player :=
  square_modify s y x (fun c => some { c with info := some (fun _ => false) })

/-- The body of the outer loop of `player_cave_new`. -/
def cave_new_row (s : grid_player) (y : Nat) : Option grid_player :=
  match s.cave.squares, s.cave.noise, s.cave.scent with
  | some g, some n, some sc =>
    if s.cave.width < 0 then none
    else do
      -- p->cave->squares[grid.y] = mem_zalloc(...)
      let s : grid_player :=
        { s with cave := { s.cave with squares := some (grid_zero_row g y zero_square) } }
      let s ← (List.range s.cave.width.toNat).foldlM (cave_new_cell y) s
      -- noise.grids[grid.y] and scent.grids[grid.y]
      some { s with cave := { s.cave with
        noise := some (grid_zero_row n y 0)
        scent := some (grid_zero_row sc y 0) } }
  | _, _, _ => none

/-- Embedding of `player_cave_new`. -/
def player_cave_new (s : grid_player) (height width : Int) : Option grid_player := do
  let s ← if s.cave.allocated then player_cave_free s else some s
  if height < 0 then none
  else
    let s : grid_player :=
      { s with cave := { s.cave with
        height := height
        width := width
        squares := some (fun _ _ => zero_square)
        noise := some (fun _ _ => 0)
        scent := some (fun _ _ => 0) } }
    let s ← (List.range s.cave.height.toNat).foldlM cave_new_row s
    some { s with cave := { s.cave with allocated := true } }

/-- The coordinates of the box `[0, w) × [0, h)` in row-major order, as pairs
`(y, x)`. -/
def box_cells (w h : Int) : List (Int × Int) :=
  (List.range h.toNat).flatMap
    (fun (y : Nat) => (List.range w.toNat).map (fun (x : Nat) => ((y : Int), (x : Int))))

/-- Modelled from the spec: the `loc_iterator` helpers (not in the sources
at hand) walk every coordinate of the box from `(0, 0)` to `(w, h)`
exclusive; the `do ... while` loop of `player_cave_clear` runs its body at
the first coordinate `(0, 0)` before the first test, also when the box is
empty. -/
def loc_iterator_cells (w h : Int) : List (Int × Int) :=
  match box_cells w h with
  | [] => [(0, 0)]
  | c :: cs => c :: cs

/-- An update of `noise.grids[y][x]` and `scent.grids[y][x]` to 0. -/
def erase_flow (s : grid_player) (y x : Int) : Option grid_player :=
  match s.cave.noise, s.cave.scent with
  | some n, some sc =>
    if in_extent s y x then
      some { s with cave := { s.cave with
        noise := some (grid_set n y x 0)
        scent := some (grid_set sc y x 0) } }
    else none
  | _, _ => none

/-- The body of the loop of `player_cave_clear` at the coordinate `(x, y)`. -/
def cave_clear_cell (F : SquareFlags) (full : Bool) (s : grid_player) (yx : Int × Int) :
    Option grid_player := do
  -- Erase feat, object, trap
  let s ← square_forget s yx.1 yx.2
  let s ← square_forget_pile s yx.1 yx.2
  let s ← square_forget_trap s yx.1 yx.2
  -- Erase flags
  let s ←
    if full then square_modify s yx.1 yx.2 sqinfo_wipe
    else do
      let s ← square_modify s yx.1 yx.2 (sqinfo_off F.SQUARE_SEEN)
      let s ← square_modify s yx.1 yx.2 (sqinfo_off F.SQUARE_VIEW)
      square_modify s yx.1 yx.2 (sqinfo_off F.SQUARE_DTRAP)
  -- Erase flow
  if full then erase_flow s yx.1 yx.2 else some s

/-- Embedding of `player_cave_clear` up to, and without, the final call of
the collaborator `memorize_houses`. -/
def player_cave_clear_walk (F : SquareFlags) (full : Bool) (s : grid_player) :
    Option grid_player :=
  -- Assume no feeling
  let s : grid_player := if full then { s with feeling := -1 } else s
  -- Reset number of feeling squares
  let s : grid_player :=
    if full then { s with cave := { s.cave with feeling_squares := 0 } } else s
  (loc_iterator_cells s.cave.width s.cave.height).foldlM (cave_clear_cell F full) s

/-- Embedding of `player_cave_clear`; `memorize_houses` is the external
collaborator that runs last. -/
def player_cave_clear (memorize_houses : grid_player → grid_player) (F : SquareFlags)
    (full : Bool) (s : grid_player) : Option grid_player :=
  (player_cave_clear_walk F full s).map memorize_houses

/-- Embedding of `player_square_in_bounds`. -/
def player_square_in_bounds (s : grid_player) (grid : loc) : Bool :=
  decide (grid.x ≥ 0 ∧ grid.x < s.cave.width ∧ grid.y ≥ 0 ∧ grid.y < s.cave.height)

/-- Embedding of `player_square_in_bounds_fully`. -/
def player_square_in_bounds_fully (s : grid_player) (grid : loc) : Bool :=
  decide (grid.x > 0 ∧ grid.x < s.cave.width - 1 ∧ grid.y > 0 ∧ grid.y < s.cave.height - 1)

/-- The data-model invariant of an allocated grid: the three arrays are
present. -/
def CaveWF (s : grid_player) : Prop :=
  s.cave.allocated = true →
    s.cave.squares.isSome = true ∧ s.cave.noise.isSome = true ∧ s.cave.scent.isSome = true

/-- A sample player whose grid has never been allocated. -/
def fresh_grid_player : grid_player :=
  { feeling := 0
    cave := { height := 0, width := 0, feeling_squares := 0, squares := none, noise := none,
              scent := none, allocated := false }
    trace := [] }

/-- Sample square flags: three distinct flag indices. -/
def sample_flags : SquareFlags :=
  { SQUARE_SEEN := 3, SQUARE_VIEW := 4, SQUARE_DTRAP := 11 }

/-- The state `s` with the cell array replaced by `g`. -/
def with_squares (s : grid_player) (g : Int → Int → player_square) : grid_player :=
  { s with cave := { s.cave with squares := some g } }

/-- The state `s` with the calls `ev` appended to the trace. -/
def add_trace (s : grid_player) (ev : List GridEvent) : grid_player :=
  { s with trace := s.trace ++ ev }

/-- What one pass of the inner loop of `player_cave_free` does to a cell. -/
def free_square (c : player_square) : player_square :=
  { c with info := none, obj := none, trap := none }

/-- What one pass of the loop of `player_cave_clear` does to a cell whose
flag set is present. -/
def clear_square (F : SquareFlags) (full : Bool) (c : player_square) : player_square :=
  { feat := 0
    info := c.info.map (fun fl =>
      if full then (fun _ => false)
      else (fun i => if i = F.SQUARE_DTRAP then false else if i = F.SQUARE_VIEW then false
        else if i = F.SQUARE_SEEN then false else fl i))
    obj := none
    trap := none }

/-- The release calls one pass of the inner loop of `player_cave_free`
makes. -/
def free_cell_events (y : Int) (x : Nat) : List GridEvent :=
  [GridEvent.free_info y x, GridEvent.forget_pile y x, GridEvent.forget_trap y x]

/-- The release calls one pass of the outer loop of `player_cave_free` makes
for a grid of width `w`. -/
def free_row_events (w : Int) (y : Nat) : List GridEvent :=
  (List.range w.toNat).flatMap (free_cell_events y) ++
    [GridEvent.free_squares_row y, GridEvent.free_noise_row y, GridEvent.free_scent_row y]

/-- The release calls `player_cave_free` makes for an allocated grid of
height `h` and width `w`. -/
def free_events (h w : Int) : List GridEvent :=
  (List.range h.toNat).flatMap (free_row_events w) ++
    [GridEvent.free_squares, GridEvent.free_noise, GridEvent.free_scent]

/-- The fields a loop over the cells of the grid leaves alone: `t` differs
from `s` at most in the cell array and the trace. -/
def grid_frame (s t : grid_player) : Prop :=
  t.feeling = s.feeling ∧ t.cave.height = s.cave.height ∧ t.cave.width = s.cave.width ∧
    t.cave.feeling_squares = s.cave.feeling_squares ∧ t.cave.noise = s.cave.noise ∧
    t.cave.scent = s.cave.scent ∧ t.cave.allocated = s.cave.allocated

/-- A sample allocated grid of height 2 and width 3 with remembered terrain,
flags, objects and traps, and non-zero noise and scent. -/
def sample_grid_player : grid_player :=
  { feeling := 7
    cave :=
      { height := 2
        width := 3
        feeling_squares := 9
        squares := some (fun y x =>
          { feat := (y + x + 5).toNat
            info := some (fun i => i % 2 = 1)
            obj := some 8
            trap := some 2 })
        noise := some (fun _ _ => 77)
        scent := some (fun _ _ => 5)
        allocated := true }
    trace := [] }

/-- The scalar fields of the grid that its loops leave alone. -/
def cave_frame (s t : grid_player) : Prop :=
  t.feeling = s.feeling ∧ t.cave.height = s.cave.height ∧ t.cave.width = s.cave.width ∧
    t.cave.feeling_squares = s.cave.feeling_squares ∧ t.cave.allocated = s.cave.allocated

/-- A cell as `player_cave_new` leaves it: no terrain, an empty flag set, no
object pile and no trap. -/
def new_square : player_square :=
  { feat := 0, info := some (fun _ => false), obj := none, trap := none }

/-- The state `s` with the noise and scent arrays replaced by `n` and `sc`. -/
def with_flow (s : grid_player) (n sc : Int → Int → Nat) : grid_player :=
  { s with cave := { s.cave with noise := some n, scent := some sc } }

/-- The state of `player_cave_new` after the dimensions are stored and the
three arrays of row pointers are allocated zeroed. -/
def new_init (s : grid_player) (height width : Int) : grid_player :=
  { s with cave := { s.cave with
      height := height
      width := width
      squares := some (fun _ _ => zero_square)
      noise := some (fun _ _ => 0)
      scent := some (fun _ _ => 0) } }

/-- The cell array `player_cave_new` builds: a fresh cell at every coordinate
in range (outside the range nothing is allocated). -/
def new_squares (height width : Int) : Int → Int → player_square :=
  fun y x => if 0 ≤ y ∧ y < height ∧ 0 ≤ x ∧ x < width then new_square else zero_square

/-- The release calls one pass of the loop of `player_cave_clear` makes. -/
def clear_cell_events (c : Int × Int) : List GridEvent :=
  [GridEvent.forget_pile c.1 c.2, GridEvent.forget_trap c.1 c.2]

/-- The invariant of the loop of `player_cave_clear` started in `s`: the
scalar fields are those of `s`, the three arrays are present, every cell in
range has its flag set, and without `full` noise and scent are untouched. -/
def clear_inv (full : Bool) (s u : grid_player) : Prop :=
  cave_frame s u ∧
    (∃ g, u.cave.squares = some g ∧
      ∀ y x, in_extent s y x → (g y x).info.isSome = true) ∧
    u.cave.noise.isSome = true ∧ u.cave.scent.isSome = true ∧
    (full = false → u.cave.noise = s.cave.noise ∧ u.cave.scent = s.cave.scent)

/-! ## Teardown (`player.c`: `cleanup_player`)

Each pointer member of `struct player` that `cleanup_player` releases is a
`Field`; the element pointers of an array (`scr_info[i]`, `lore[i].blows`,
...) are taken together as one field.  A pointer is NULL, points to live
memory, or dangles after its memory was released.  An operation returns
`none` when the C code would release a dangling pointer again or read
through a NULL or dangling pointer. -/

/-- The state of a pointer. -/
inductive pointer where
  | NULL
  | live
  | freed
  deriving DecidableEq

/-- The pointers `cleanup_player` handles, named after the members of
`struct player`; `_rows` and `lore_blows`, `lore_blow_known` stand for the
element pointers of the array of the same name. -/
inductive Field where
  | obj_k | timed | upkeep | upkeep_inven | upkeep_quiver | gear | interactive_file
  | scr_info | scr_info_rows | trn_info | trn_info_rows | hist_flags
  | lore | lore_blows | lore_blow_known | current_lore_blows | current_lore_blow_known
  | art_info | randart_info | randart_created
  | kind_aware | note_aware | kind_tried | kind_ignore | kind_everseen
  | ego_ignore_types | ego_ignore_types_rows | ego_everseen
  | f_attr | f_char | t_attr | t_char | pr_attr | pr_char | k_attr | k_char
  | d_attr | d_char | r_attr | r_char | mflag | mon_det
  | wild_map | wild_map_rows | home | home_stock | cave
  deriving DecidableEq

/-- The functions `cleanup_player` calls that are not in the sources at
hand. -/
inductive Helper where
  | player_spells_free | free_body | history_clear
  | monmsg_cleanup | monster_list_finalize | object_list_finalize
  deriving DecidableEq

/-- The part of `struct player` that `cleanup_player` uses: the state of
each pointer, the knowledge grid `*p->cave`, the releases made so far and
the helper calls made so far. -/
structure player_mem where
  heap : Field → pointer
  grid : grid_player
  released : List Field
  calls : List Helper

/-- The functions `mem_free`, `string_free`, `object_free` and
`object_pile_free` applied to the pointer `f`, passed by value: nothing
happens on NULL, live memory is released and the pointer dangles, and a
dangling pointer is a double free. -/
def mem_free (f : Field) (m : player_mem) : Option player_mem :=
  match m.heap f with
  | pointer.NULL => some m
  | pointer.live =>
    some { m with
      heap := fun g => if g = f then pointer.freed else m.heap g
      released := m.released ++ [f] }
  | pointer.freed => none

/-- The assignment `p->f = NULL`. -/
def set_NULL (f : Field) (m : player_mem) : player_mem :=
  { m with heap := fun g => if g = f then pointer.NULL else m.heap g }

/-- The call `mem_free(p->owner[i])` or `mem_free(p->owner->member)`: the
element pointers are read through `owner`, which must point to live
memory. -/
def mem_free_through (owner elems : Field) (m : player_mem) : Option player_mem :=
  match m.heap owner with
  | pointer.live => mem_free elems m
  | _ => none

/-- Modelled from the spec: `player_spells_free`, `free_body`,
`history_clear`, `monmsg_cleanup`, `monster_list_finalize` and
`object_list_finalize` (not in the sources at hand) release sub-structures
of their own, none of which is a field listed here; the call is recorded. -/
def helper_call (h : Helper) (m : player_mem) : Option player_mem :=
  some { m with calls := m.calls ++ [h] }

/-- The statement pair `mem_free(p->f); p->f = NULL;`. -/
def free_and_NULL (f : Field) (m : player_mem) : Option player_mem :=
  (mem_free f m).map (set_NULL f)

/-- The part of `cleanup_player` under "Free the things that are always
initialised". -/
def cleanup_always (m : player_mem) : Option player_mem := do
  let m ←
    if m.heap Field.obj_k ≠ pointer.NULL then
      (mem_free Field.obj_k m).map (set_NULL Field.obj_k)
    else some m
  let m ← free_and_NULL Field.timed m
  let m ←
    if m.heap Field.upkeep ≠ pointer.NULL then do
      let m ← mem_free_through Field.upkeep Field.upkeep_inven m
      mem_free_through Field.upkeep Field.upkeep_quiver m
    else some m
  free_and_NULL Field.upkeep m

/-- The part of `cleanup_player` under "Free the things that are only
sometimes initialised" and "Stop all file perusal and interactivity". -/
def cleanup_sometimes (m : player_mem) : Option player_mem := do
  let m ← helper_call Helper.player_spells_free m
  -- object_pile_free(p->gear);
  let m ← mem_free Field.gear m
  let m ← helper_call Helper.free_body m
  free_and_NULL Field.interactive_file m

/-- The part of `cleanup_player` from `scr_info` to `current_lore`. -/
def cleanup_screen_lore (m : player_mem) : Option player_mem := do
  let m ←
    if m.heap Field.scr_info ≠ pointer.NULL then do
      let m ← mem_free_through Field.scr_info Field.scr_info_rows m
      mem_free_through Field.trn_info Field.trn_info_rows m
    else some m
  let m ← free_and_NULL Field.scr_info m
  let m ← free_and_NULL Field.trn_info m
  let m ← free_and_NULL Field.hist_flags m
  let m ←
    if m.heap Field.lore ≠ pointer.NULL then do
      let m ← mem_free_through Field.lore Field.lore_blows m
      mem_free_through Field.lore Field.lore_blow_known m
    else some m
  let m ← free_and_NULL Field.lore m
  let m ← free_and_NULL Field.current_lore_blows m
  free_and_NULL Field.current_lore_blow_known m

/-- The statement pairs `mem_free(p->f); p->f = NULL;` for the fields `fs`
in order. -/
def free_and_NULL_all (fs : List Field) (m : player_mem) : Option player_mem :=
  fs.foldlM (fun m f => free_and_NULL f m) m

/-- The part of `cleanup_player` from `art_info` to `ego_everseen`. -/
def cleanup_knowledge (m : player_mem) : Option player_mem := do
  let m ← free_and_NULL_all
    [Field.art_info, Field.randart_info, Field.randart_created, Field.kind_aware,
      Field.note_aware, Field.kind_tried, Field.kind_ignore, Field.kind_everseen] m
  let m ←
    if m.heap Field.ego_ignore_types ≠ pointer.NULL then
      mem_free_through Field.ego_ignore_types Field.ego_ignore_types_rows m
    else some m
  let m ← free_and_NULL Field.ego_ignore_types m
  free_and_NULL Field.ego_everseen m

/-- The part of `cleanup_player` from `f_attr` to `mon_det`. -/
def cleanup_visuals (m : player_mem) : Option player_mem :=
  free_and_NULL_all
    [Field.f_attr, Field.f_char, Field.t_attr, Field.t_char, Field.pr_attr, Field.pr_char,
      Field.k_attr, Field.k_char, Field.d_attr, Field.d_char, Field.r_attr, Field.r_char,
      Field.mflag, Field.mon_det] m

/-- The part of `cleanup_player` from `wild_map` to the end. -/
def cleanup_world (m : player_mem) : Option player_mem := do
  let m ←
    if m.heap Field.wild_map ≠ pointer.NULL then
      mem_free_through Field.wild_map Field.wild_map_rows m
    else some m
  let m ← free_and_NULL Field.wild_map m
  -- if (p->home) object_pile_free(p->home->stock);
  let m ←
    if m.heap Field.home ≠ pointer.NULL then
      mem_free_through Field.home Field.home_stock m
    else some m
  let m ← free_and_NULL Field.home m
  -- Free the history
  let m ← helper_call Helper.history_clear m
  -- Free the cave
  let m ←
    if m.heap Field.cave ≠ pointer.NULL then
      match m.heap Field.cave with
      | pointer.live => do
        let g ← player_cave_free m.grid
        free_and_NULL Field.cave { m with grid := g }
      | _ => none
    else some m
  let m ← helper_call Helper.monmsg_cleanup m
  let m ← helper_call Helper.monster_list_finalize m
  helper_call Helper.object_list_finalize m

/-- Embedding of the body of `cleanup_player` for a player that is not
NULL. -/
def cleanup_player_body (m : player_mem) : Option player_mem := do
  let m ← cleanup_always m
  let m ← cleanup_sometimes m
  let m ← cleanup_screen_lore m
  let m ← cleanup_knowledge m
  let m ← cleanup_visuals m
  cleanup_world m

/-- Embedding of `cleanup_player`; the argument is `none` when `p` is NULL,
and the outer `Option` of the result is `none` on a double free or a read
through a NULL or dangling pointer. -/
def cleanup_player (p : Option player_mem) : Option (Option player_mem) :=
  match p with
  | none => some none
  | some m => (cleanup_player_body m).map some

/-- A fully constructed player: every pointer points to live memory, the
knowledge grid is not allocated, nothing has been released. -/
def sample_player_mem : player_mem :=
  { heap := fun _ => pointer.live, grid := fresh_grid_player, released := [], calls := [] }

/-! ## Safe names (`player.c`: `player_safe_name`)

The buffer `safe` is the memory starting at the pointer: `mem i` is the
character at `safe[i]`, also for `i` at or past `safelen`, so that a write
outside the buffer is visible.  Every write is recorded, in order, in
`writes`.  A name is `none` when the pointer is NULL and otherwise the
characters before its terminator. -/

/-- The terminator character of a C string. -/
def NUL : Char := Char.ofNat 0

/-- The memory at the pointer `safe` and the indexes written so far. -/
structure safe_buffer where
  mem : Nat → Char
  writes : List Nat

/-- The assignment `safe[i] = c`. -/
def buf_write (b : safe_buffer) (i : Nat) (c : Char) : safe_buffer :=
  { mem := fun j => if j = i then c else b.mem j, writes := b.writes ++ [i] }

/-- A sequence of assignments `safe[i] = c`, in order. -/
def apply_writes (b : safe_buffer) (ws : List (Nat × Char)) : safe_buffer :=
  ws.foldl (fun b w => buf_write b w.1 w.2) b

/-- The C library test `isalpha` in the "C" locale. -/
def isalpha (c : Char) : Bool := c.isAlpha

/-- The C library test `isdigit`. -/
def isdigit (c : Char) : Bool := c.isDigit

/-- The literal `"PLAYER"`. -/
def PLAYER : List Char := ['P', 'L', 'A', 'Y', 'E', 'R']

/-- The C string at the pointer, read over at most `n` characters: the
characters before the first terminator. -/
def c_string (mem : Nat → Char) (n : Nat) : List Char :=
  ((List.range n).map mem).takeWhile (fun c => decide (c ≠ NUL))

/-- The body of the loop of `player_safe_name` at index `i`. -/
def safe_name_body (name : List Char) (safe : safe_buffer) (i : Nat) : safe_buffer :=
  let c := name.getD i NUL
  -- Convert all non-alphanumeric symbols
  let c := if !isalpha c && !isdigit c then '_' else c
  -- Build "base_name"
  buf_write safe i c

/-- Embedding of `player_safe_name`.  The helper `my_strcpy` is not in the
sources at hand: `my_strcpy src bufsize` is the sequence of assignments the
call `my_strcpy(safe, src, bufsize)` makes to the buffer. -/
def player_safe_name (my_strcpy : List Char → Nat → List (Nat × Char)) (safe : safe_buffer)
    (safelen : Nat) (name : Option (List Char)) : safe_buffer :=
  -- if (name) limit = strlen(name);
  let limit := match name with
    | none => 0
    | some n => n.length
  -- Limit to maximum size of safename buffer
  let limit := min limit safelen
  let safe := (List.range limit).foldl (safe_name_body (name.getD [])) safe
  -- Terminate: the loop leaves i = limit
  let safe := buf_write safe limit NUL
  -- Require a "base" name
  if safe.mem 0 = NUL then apply_writes safe (my_strcpy PLAYER safelen) else safe

/-- What the loop of `player_safe_name` stores for the character `c`. -/
def safe_char (c : Char) : Char :=
  if !isalpha c && !isdigit c then '_' else c

/-- The contract of a bounded string copy: for `bufsize > 0` the call
`my_strcpy(buf, src, bufsize)` writes only indexes below `bufsize` and
leaves in the buffer the string `src` cut to at most `bufsize - 1`
characters. -/
def StrcpyOk (my_strcpy : List Char → Nat → List (Nat × Char)) : Prop :=
  ∀ (src : List Char) (bufsize : Nat), 0 < bufsize → NUL ∉ src →
    (∀ w, w ∈ my_strcpy src bufsize → w.1 < bufsize) ∧
    ∀ b : safe_buffer,
      c_string (apply_writes b (my_strcpy src bufsize)).mem bufsize = src.take (bufsize - 1)

/-- A bounded string copy: at most `bufsize - 1` characters of `src`, then
the terminator; nothing when `bufsize = 0`. -/
def my_strcpy_bounded (src : List Char) (bufsize : Nat) : List (Nat × Char) :=
  if bufsize = 0 then []
  else
    (List.range (min src.length (bufsize - 1))).map (fun (i : Nat) => (i, src.getD i NUL)) ++
      [(min src.length (bufsize - 1), NUL)]

/-- A buffer filled with the character `x`, nothing written yet. -/
def sample_safe_buffer : safe_buffer := { mem := fun _ => 'x', writes := [] }

/-! ## Stats: auxiliary lemmas -/

theorem player_stat_inc_eq (c : Consts) (rnd : Int → Int) (p : player) (stat : Nat) :
    player_stat_inc c rnd p stat =
      if p.stat_cur stat ≥ 18 + 100 then (false, p)
      else
        (true, { p with
          stat_cur := Function.update p.stat_cur stat (inc_value rnd (p.stat_cur stat))
          stat_max :=
            if inc_value rnd (p.stat_cur stat) > p.stat_max stat then
              Function.update p.stat_max stat (inc_value rnd (p.stat_cur stat))
            else p.stat_max
          update := p.update ||| c.PU_BONUS }) := by
  unfold player_stat_inc inc_value
  by_cases h1 : p.stat_cur stat ≥ 18 + 100
  · simp only [h1, if_true]
  simp only [h1, if_false]
  by_cases h2 : p.stat_cur stat < 18
  · simp only [h2, if_true, Function.update_same]
    split_ifs <;> rfl
  simp only [h2, if_false]
  by_cases h3 : p.stat_cur stat < 18 + 90
  · simp only [h3, if_true, Function.update_same]
    split_ifs <;> simp only [Function.update_same, Function.update_idem] at * <;>
      first | rfl | (exfalso; omega)
  · simp only [h3, if_false, Function.update_same]
    split_ifs <;> rfl

theorem tdiv_two (a : Int) (h : 0 ≤ a) : a.tdiv 2 = a / 2 :=
  Int.tdiv_eq_ediv h (by decide)

theorem gain_code_eq (v : Int) (h : v ≤ 118) :
    (((18 + 100) - v).tdiv 2 + 3).tdiv 2 = ((118 - v) / 2 + 3) / 2 := by
  rw [tdiv_two (18 + 100 - v) (by omega), tdiv_two _ (by omega)]
  norm_num

theorem gain_spec_mid (v : Int) (h1 : 18 ≤ v) (h2 : v < 108) :
    gain_spec v = ((118 - v) / 2 + 3) / 2 ∧ 4 ≤ gain_spec v ∧ gain_spec v ≤ 26 := by
  unfold gain_spec
  omega

theorem inc_value_low (rnd : Int → Int) (v : Int) (h : v < 18) : inc_value rnd v = v + 1 := by
  unfold inc_value; rw [if_pos h]

theorem inc_value_high (rnd : Int → Int) (v : Int) (h : 108 ≤ v) : inc_value rnd v = 118 := by
  unfold inc_value; rw [if_neg (by omega), if_neg (by omega)]; rfl

theorem inc_value_mid (rnd : Int → Int) (v : Int) (h1 : 18 ≤ v) (h2 : v < 108) :
    inc_value rnd v = min (v + rnd (gain_spec v) + gain_spec v / 2) 117 := by
  obtain ⟨e, g4, _⟩ := gain_spec_mid v h1 h2
  unfold inc_value
  rw [if_neg (by omega), if_pos (by omega)]
  simp only [gain_code_eq v (by omega), ← e, if_neg (show ¬ gain_spec v < 1 by omega),
    tdiv_two (gain_spec v) (by omega)]
  split_ifs <;> omega

theorem inc_value_spec (rnd : Int → Int) (v : Int) :
    inc_value rnd v = increase_stat_spec v (rnd (gain_spec v)) := by
  unfold increase_stat_spec
  by_cases h1 : v < 18
  · rw [if_pos h1, inc_value_low rnd v h1]
  by_cases h2 : v < 108
  · rw [if_neg h1, if_pos h2, inc_value_mid rnd v (by omega) h2]
  · rw [if_neg h1, if_neg h2, inc_value_high rnd v (by omega)]

theorem inc_value_bounds (rnd : Int → Int) (v : Int) (hr : RandOk rnd) (hv : v < 118) :
    v < inc_value rnd v ∧ inc_value rnd v ≤ 118 := by
  by_cases h1 : v < 18
  · rw [inc_value_low rnd v h1]; omega
  by_cases h2 : v < 108
  · obtain ⟨_, g4, _⟩ := gain_spec_mid v (by omega) h2
    have := hr (gain_spec v) (by omega)
    rw [inc_value_mid rnd v (by omega) h2]
    omega
  · rw [inc_value_high rnd v (by omega)]; omega

theorem player_stat_dec_eq (c : Consts) (p : player) (stat : Nat) (permanent : Bool) :
    player_stat_dec c p stat permanent =
      if step (if permanent then p.stat_max stat else p.stat_cur stat) ≠
          (if permanent then p.stat_max stat else p.stat_cur stat) then
        (true, { p with
          stat_cur := Function.update p.stat_cur stat (step (p.stat_cur stat))
          stat_max := Function.update p.stat_max stat
            (if permanent then step (p.stat_max stat) else p.stat_max stat)
          update := p.update ||| c.PU_BONUS
          redraw := p.redraw ||| c.PR_STATS })
      else (false, p) := by
  unfold player_stat_dec step
  cases permanent <;> simp <;> split_ifs <;> simp_all

theorem stat_inc_of_ge (c : Consts) (rnd : Int → Int) (p : player) (stat : Nat)
    (h : p.stat_cur stat ≥ 118) : player_stat_inc c rnd p stat = (false, p) := by
  rw [player_stat_inc_eq, if_pos (by omega)]

theorem stat_inc_of_lt (c : Consts) (rnd : Int → Int) (p : player) (stat : Nat)
    (h : p.stat_cur stat < 118) :
    (player_stat_inc c rnd p stat).1 = true ∧
    (player_stat_inc c rnd p stat).2.stat_cur =
      Function.update p.stat_cur stat (inc_value rnd (p.stat_cur stat)) ∧
    (player_stat_inc c rnd p stat).2.stat_max stat =
      max (p.stat_max stat) (inc_value rnd (p.stat_cur stat)) ∧
    (player_stat_inc c rnd p stat).2.update = p.update ||| c.PU_BONUS ∧
    (player_stat_inc c rnd p stat).2.redraw = p.redraw := by
  rw [player_stat_inc_eq, if_neg (by omega)]
  refine ⟨rfl, rfl, ?_, rfl, rfl⟩
  dsimp only
  split_ifs with h1
  · rw [Function.update_same]; omega
  · omega

theorem stat_inc_inv (c : Consts) (rnd : Int → Int) (p : player) (stat : Nat)
    (hr : RandOk rnd) (h : StatInv p stat) :
    StatInv (player_stat_inc c rnd p stat).2 stat := by
  obtain ⟨h1, h2, h3, h4, h5⟩ := h
  by_cases hc : p.stat_cur stat ≥ 118
  · rw [stat_inc_of_ge c rnd p stat hc]; exact ⟨h1, h2, h3, h4, h5⟩
  · have hb := inc_value_bounds rnd (p.stat_cur stat) hr (by omega)
    obtain ⟨_, e1, e2, _, _⟩ := stat_inc_of_lt c rnd p stat (by omega)
    unfold StatInv
    rw [e1, e2, Function.update_same]
    omega

theorem step_mono (a b : Int) (h : a ≤ b) : step a ≤ step b := by
  unfold step; split_ifs <;> omega

theorem step_le (a : Int) : step a ≤ a := by
  unfold step; split_ifs <;> omega

theorem step_ge_three (a : Int) (h : 3 ≤ a) : 3 ≤ step a := by
  unfold step; split_ifs <;> omega

theorem stat_dec_inv (c : Consts) (p : player) (stat : Nat) (permanent : Bool)
    (h : StatInv p stat) : StatInv (player_stat_dec c p stat permanent).2 stat := by
  obtain ⟨h1, h2, h3, h4, h5⟩ := h
  have a1 := step_mono _ _ h5
  have a2 := step_le (p.stat_cur stat)
  have a3 := step_le (p.stat_max stat)
  have a4 := step_ge_three _ h1
  have a5 := step_ge_three _ h3
  rw [player_stat_dec_eq]
  cases permanent <;> simp only [Bool.false_eq_true, if_false, if_true] <;>
    split_ifs <;> simp only [StatInv, Function.update_same] <;> omega

theorem stat_inc_iter_inv (c : Consts) (rnds : Nat → Int → Int) (stat : Nat) (p : player)
    (hr : ∀ k, RandOk (rnds k)) (h : StatInv p stat) (n : Nat) :
    StatInv (stat_inc_iter c rnds stat n p) stat ∧
      p.stat_cur stat ≤ (stat_inc_iter c rnds stat n p).stat_cur stat := by
  induction n with
  | zero => exact ⟨h, le_refl _⟩
  | succ n ih =>
    obtain ⟨ih1, ih2⟩ := ih
    refine ⟨stat_inc_inv c (rnds n) _ stat (hr n) ih1, ?_⟩
    show p.stat_cur stat ≤
      (player_stat_inc c (rnds n) (stat_inc_iter c rnds stat n p) stat).2.stat_cur stat
    by_cases hc : (stat_inc_iter c rnds stat n p).stat_cur stat ≥ 118
    · rw [stat_inc_of_ge c _ _ stat hc]; exact ih2
    · have hb := inc_value_bounds (rnds n) ((stat_inc_iter c rnds stat n p).stat_cur stat)
        (hr n) (by omega)
      obtain ⟨_, e1, _⟩ := stat_inc_of_lt c (rnds n) _ stat (not_le.mp hc)
      rw [e1, Function.update_same]
      omega

theorem sample_player_inv (stat : Nat) : StatInv sample_player stat := by
  simp [StatInv, sample_player]

theorem randOk_id : RandOk (fun m => m) := fun _ h => ⟨h, le_refl _⟩

/-! ## Stats: the claims -/

/-- C2: the ability-score invariant `3 ≤ current ≤ maximum ≤ 118` of a stat
slot is preserved by `player_stat_inc` (for every `randint1` that honours its
range), by `player_stat_dec` with `permanent = false` and with
`permanent = true`; and starting from `current = maximum = 18` it holds, with
the current value in `[18, 118]`, after each of 50 successive increases. -/
theorem stat_invariant_preserved (c : Consts) (p : player) (stat : Nat)
    (h : StatInv p stat) :
    (∀ rnd, RandOk rnd → StatInv (player_stat_inc c rnd p stat).2 stat) ∧
    StatInv (player_stat_dec c p stat false).2 stat ∧
    StatInv (player_stat_dec c p stat true).2 stat ∧
    (p.stat_cur stat = 18 → p.stat_max stat = 18 →
      ∀ rnds : Nat → Int → Int, (∀ k, RandOk (rnds k)) → ∀ n, n ≤ 50 →
        StatInv (stat_inc_iter c rnds stat n p) stat ∧
        18 ≤ (stat_inc_iter c rnds stat n p).stat_cur stat ∧
        (stat_inc_iter c rnds stat n p).stat_cur stat ≤ 118) := by
  refine ⟨fun rnd hr => stat_inc_inv c rnd p stat hr h, stat_dec_inv c p stat false h,
    stat_dec_inv c p stat true h, ?_⟩
  intro hc _ rnds hr n _
  obtain ⟨i1, i2⟩ := stat_inc_iter_inv c rnds stat p hr h n
  exact ⟨i1, by omega, i1.2.1⟩

/-- Witness of C2 on the sample character. -/
theorem stat_invariant_preserved_witness :
    StatInv sample_player 0 ∧
    StatInv (player_stat_dec sample_consts sample_player 0 true).2 0 :=
  ⟨sample_player_inv 0,
    (stat_invariant_preserved sample_consts sample_player 0 (sample_player_inv 0)).2.2.1⟩

/-- C3: for a stat whose current value `v` is below 118, `player_stat_inc`
sets `current` to `v + 1` if `v < 18`, to
`min (v + r + gain / 2) 117` with `gain = max 1 (((118 - v) / 2 + 3) / 2)` and
`r = randint1(gain)` if `18 ≤ v < 108`, and to 118 if `108 ≤ v < 118`; it then
sets `maximum` to the larger of the old maximum and the new current. -/
theorem player_stat_inc_value (c : Consts) (rnd : Int → Int) (p : player) (stat : Nat)
    (hv : p.stat_cur stat < 118) :
    (player_stat_inc c rnd p stat).2.stat_cur stat =
        increase_stat_spec (p.stat_cur stat) (rnd (gain_spec (p.stat_cur stat))) ∧
    (player_stat_inc c rnd p stat).2.stat_max stat =
        max (p.stat_max stat) ((player_stat_inc c rnd p stat).2.stat_cur stat) := by
  obtain ⟨_, e1, e2, _, _⟩ := stat_inc_of_lt c rnd p stat hv
  rw [e1, e2, Function.update_same, ← inc_value_spec]
  exact ⟨rfl, rfl⟩

/-- Witness of C3: a stat at 18 with the highest roll. -/
theorem player_stat_inc_value_witness :
    (player_stat_inc sample_consts (fun m => m) sample_player 0).2.stat_cur 0 =
        increase_stat_spec 18 (gain_spec 18) ∧
    (player_stat_inc sample_consts (fun m => m) sample_player 0).2.stat_max 0 =
        max 18 ((player_stat_inc sample_consts (fun m => m) sample_player 0).2.stat_cur 0) :=
  player_stat_inc_value sample_consts (fun m => m) sample_player 0 (by decide)

/-- C4: for every stat value in `[3, 118]` and every roll in range,
`player_stat_inc` never decreases `current` and never produces a value above
118. -/
theorem player_stat_inc_monotone_bounded (c : Consts) (rnd : Int → Int) (p : player)
    (stat : Nat) (hr : RandOk rnd)
    (h3 : 3 ≤ p.stat_cur stat) (h118 : p.stat_cur stat ≤ 118) :
    p.stat_cur stat ≤ (player_stat_inc c rnd p stat).2.stat_cur stat ∧
    (player_stat_inc c rnd p stat).2.stat_cur stat ≤ 118 := by
  by_cases hc : p.stat_cur stat ≥ 118
  · rw [stat_inc_of_ge c rnd p stat hc]; exact ⟨le_refl _, h118⟩
  · have hb := inc_value_bounds rnd (p.stat_cur stat) hr (by omega)
    obtain ⟨_, e1, _⟩ := stat_inc_of_lt c rnd p stat (by omega)
    rw [e1, Function.update_same]
    omega

/-- Witness of C4: a stat at 18 with the highest roll. -/
theorem player_stat_inc_monotone_bounded_witness :
    sample_player.stat_cur 0 ≤
        (player_stat_inc sample_consts (fun m => m) sample_player 0).2.stat_cur 0 ∧
    (player_stat_inc sample_consts (fun m => m) sample_player 0).2.stat_cur 0 ≤ 118 :=
  player_stat_inc_monotone_bounded sample_consts (fun m => m) sample_player 0 randOk_id
    (by decide) (by decide)

/-- C5: `player_stat_inc` returns false exactly when `current ≥ 118`, and
then the whole state is unchanged; when it returns true the current value
differs from the old one, `update` is the old word with `PU_BONUS` or-ed in
and `redraw` is unchanged. -/
theorem player_stat_inc_return (c : Consts) (rnd : Int → Int) (p : player) (stat : Nat)
    (hr : RandOk rnd) :
    ((player_stat_inc c rnd p stat).1 = false ↔ p.stat_cur stat ≥ 118) ∧
    ((player_stat_inc c rnd p stat).1 = false → (player_stat_inc c rnd p stat).2 = p) ∧
    ((player_stat_inc c rnd p stat).1 = true →
      (player_stat_inc c rnd p stat).2.stat_cur stat ≠ p.stat_cur stat ∧
      (player_stat_inc c rnd p stat).2.update = p.update ||| c.PU_BONUS ∧
      (player_stat_inc c rnd p stat).2.redraw = p.redraw) := by
  by_cases hc : p.stat_cur stat ≥ 118
  · rw [stat_inc_of_ge c rnd p stat hc]
    exact ⟨⟨fun _ => hc, fun _ => rfl⟩, fun _ => rfl, fun h => by simp at h⟩
  · have hb := inc_value_bounds rnd (p.stat_cur stat) hr (by omega)
    obtain ⟨e0, e1, _, e3, e4⟩ := stat_inc_of_lt c rnd p stat (by omega)
    rw [e0, e1, e3, e4, Function.update_same]
    exact ⟨⟨fun h => by simp at h, fun h => absurd h hc⟩, fun h => by simp at h,
      fun _ => ⟨by omega, rfl, rfl⟩⟩

/-- Witness of C5: a stat at 18 with the highest roll. -/
theorem player_stat_inc_return_witness :
    ((player_stat_inc sample_consts (fun m => m) sample_player 0).1 = false ↔
      sample_player.stat_cur 0 ≥ 118) :=
  (player_stat_inc_return sample_consts (fun m => m) sample_player 0 randOk_id).1

/-- C6: with `permanent = false`, `player_stat_dec` applies the damage step
to `current` only: the new current value is `step current`, the maximum of
every slot is unchanged, and the function returns true iff
`step current ≠ current`. -/
theorem player_stat_dec_temporary (c : Consts) (p : player) (stat : Nat) :
    (player_stat_dec c p stat false).2.stat_cur stat = step (p.stat_cur stat) ∧
    (player_stat_dec c p stat false).2.stat_max = p.stat_max ∧
    ((player_stat_dec c p stat false).1 = true ↔ step (p.stat_cur stat) ≠ p.stat_cur stat) := by
  rw [player_stat_dec_eq]
  simp only [Bool.false_eq_true, if_false, if_true]
  split_ifs with h
  · simp [h]
  · simp only [ne_eq, not_not] at h
    simp [h]

/-- C7: with `permanent = true`, `player_stat_dec` returns true iff
`step maximum ≠ maximum`; when it returns true the maximum becomes
`step maximum` and the current value `step current`; when it returns false
neither value changes (whatever `step current` is). -/
theorem player_stat_dec_permanent (c : Consts) (p : player) (stat : Nat) :
    ((player_stat_dec c p stat true).1 = true ↔ step (p.stat_max stat) ≠ p.stat_max stat) ∧
    ((player_stat_dec c p stat true).1 = true →
      (player_stat_dec c p stat true).2.stat_max stat = step (p.stat_max stat) ∧
      (player_stat_dec c p stat true).2.stat_cur stat = step (p.stat_cur stat)) ∧
    ((player_stat_dec c p stat true).1 = false →
      (player_stat_dec c p stat true).2.stat_max stat = p.stat_max stat ∧
      (player_stat_dec c p stat true).2.stat_cur stat = p.stat_cur stat) := by
  rw [player_stat_dec_eq]
  simp only [Bool.false_eq_true, if_false, if_true]
  split_ifs with h
  · simp [h]
  · simp only [ne_eq, not_not] at h
    simp [h]

/-- C8: `player_stat_dec` or-s `PU_BONUS` into `update` and `PR_STATS` into
`redraw` when it returns true; when it returns false the whole state is
unchanged; in both cases every other stat slot keeps its two values and
every flag that was set stays set. -/
theorem player_stat_dec_frame (c : Consts) (p : player) (stat : Nat) (permanent : Bool) :
    ((player_stat_dec c p stat permanent).1 = true →
      (player_stat_dec c p stat permanent).2.update = p.update ||| c.PU_BONUS ∧
      (player_stat_dec c p stat permanent).2.redraw = p.redraw ||| c.PR_STATS) ∧
    ((player_stat_dec c p stat permanent).1 = false →
      (player_stat_dec c p stat permanent).2 = p) ∧
    (∀ s, s ≠ stat →
      (player_stat_dec c p stat permanent).2.stat_cur s = p.stat_cur s ∧
      (player_stat_dec c p stat permanent).2.stat_max s = p.stat_max s) ∧
    (∀ i, p.update.testBit i = true →
      (player_stat_dec c p stat permanent).2.update.testBit i = true) ∧
    (∀ i, p.redraw.testBit i = true →
      (player_stat_dec c p stat permanent).2.redraw.testBit i = true) := by
  rw [player_stat_dec_eq]
  by_cases h : step (if permanent then p.stat_max stat else p.stat_cur stat) ≠
      (if permanent then p.stat_max stat else p.stat_cur stat)
  · rw [if_pos h]
    refine ⟨fun _ => ⟨rfl, rfl⟩, fun h => by simp at h, fun s hs => ?_, fun i hi => ?_,
      fun i hi => ?_⟩ <;> dsimp only
    · simp [Function.update_noteq hs]
    · simp [Nat.testBit_or, hi]
    · simp [Nat.testBit_or, hi]
  · rw [if_neg h]
    exact ⟨fun h => by simp at h, fun _ => rfl, fun _ _ => ⟨rfl, rfl⟩, fun _ hi => hi,
      fun _ hi => hi⟩

/-! ## Experience: auxiliary lemmas -/

/-- Loop rule for the level-losing loop: a property kept by the loop body
holds on exit, where the loop condition is false. -/
theorem lose_levels_rule (c : Consts) (I : player → Prop)
    (hstep : ∀ p, lose_cond c p → I p → I (perm_shape { p with lev := p.lev - 1 }))
    (p : player) (redraw : Bool) (hp : I p) :
    I (lose_levels c p redraw).1 ∧ ¬ lose_cond c (lose_levels c p redraw).1 := by
  induction p, redraw using lose_levels.induct c with
  | case1 p redraw h ih =>
    rw [lose_levels, dif_pos h]
    exact ih (hstep p h hp)
  | case2 p redraw h =>
    rw [lose_levels, dif_neg h]
    exact ⟨hp, h⟩

/-- Loop rule for the level-gaining loop. -/
theorem gain_levels_rule (c : Consts) (I : player → Prop)
    (hstep : ∀ p, gain_cond c p → I p →
      I (new_max_lev (perm_shape { p with lev := p.lev + 1 })))
    (p : player) (redraw : Bool) (hp : I p) :
    I (gain_levels c p redraw).1 ∧ ¬ gain_cond c (gain_levels c p redraw).1 := by
  induction p, redraw using gain_levels.induct c with
  | case1 p redraw h ih =>
    rw [gain_levels, dif_pos h]
    exact ih (hstep p h hp)
  | case2 p redraw h =>
    rw [gain_levels, dif_neg h]
    exact ⟨hp, h⟩

theorem perm_shape_fields (p : player) :
    (perm_shape p).exp = p.exp ∧ (perm_shape p).max_exp = p.max_exp ∧
    (perm_shape p).lev = p.lev ∧ (perm_shape p).max_lev = p.max_lev ∧
    (perm_shape p).expfact = p.expfact ∧ (perm_shape p).update = p.update ∧
    (perm_shape p).redraw = p.redraw := by
  simp only [perm_shape]
  split_ifs <;> simp only [and_self]

theorem new_max_lev_fields (p : player) :
    (new_max_lev p).exp = p.exp ∧ (new_max_lev p).max_exp = p.max_exp ∧
    (new_max_lev p).lev = p.lev ∧ (new_max_lev p).expfact = p.expfact ∧
    (new_max_lev p).update = p.update ∧ (new_max_lev p).redraw = p.redraw := by
  simp only [new_max_lev]
  split_ifs <;> simp only [and_self]

/-- One pass of the body of the level-losing loop. -/
theorem lose_body_fields (p : player) :
    (perm_shape { p with lev := p.lev - 1 }).exp = p.exp ∧
    (perm_shape { p with lev := p.lev - 1 }).max_exp = p.max_exp ∧
    (perm_shape { p with lev := p.lev - 1 }).lev = p.lev - 1 ∧
    (perm_shape { p with lev := p.lev - 1 }).expfact = p.expfact := by
  obtain ⟨a, b, d, _, e, _, _⟩ := perm_shape_fields { p with lev := p.lev - 1 }
  exact ⟨a, b, d, e⟩

/-- One pass of the body of the level-gaining loop. -/
theorem gain_body_fields (p : player) :
    (new_max_lev (perm_shape { p with lev := p.lev + 1 })).exp = p.exp ∧
    (new_max_lev (perm_shape { p with lev := p.lev + 1 })).max_exp = p.max_exp ∧
    (new_max_lev (perm_shape { p with lev := p.lev + 1 })).lev = p.lev + 1 ∧
    (new_max_lev (perm_shape { p with lev := p.lev + 1 })).expfact = p.expfact := by
  obtain ⟨a, b, d, _, e, _, _⟩ := perm_shape_fields { p with lev := p.lev + 1 }
  obtain ⟨a', b', d', e', _, _⟩ := new_max_lev_fields (perm_shape { p with lev := p.lev + 1 })
  exact ⟨a'.trans a, b'.trans b, d'.trans d, e'.trans e⟩

/-- What the level-losing loop establishes. -/
theorem lose_levels_spec (c : Consts) (p : player) (redraw : Bool) :
    (lose_levels c p redraw).1.exp = p.exp ∧
    (lose_levels c p redraw).1.max_exp = p.max_exp ∧
    (lose_levels c p redraw).1.expfact = p.expfact ∧
    (lose_levels c p redraw).1.lev ≤ p.lev ∧
    (1 ≤ p.lev → 1 ≤ (lose_levels c p redraw).1.lev) ∧
    ¬ lose_cond c (lose_levels c p redraw).1 := by
  have h := lose_levels_rule c
    (fun q => q.exp = p.exp ∧ q.max_exp = p.max_exp ∧ q.expfact = p.expfact ∧
      q.lev ≤ p.lev ∧ (1 ≤ p.lev → 1 ≤ q.lev))
    (fun q hc hq => by
      obtain ⟨a, b, d, e⟩ := lose_body_fields q
      obtain ⟨q1, q2, q3, q4, q5⟩ := hq
      have := hc.1
      refine ⟨a.trans q1, b.trans q2, e.trans q3, ?_, fun _ => ?_⟩ <;> omega)
    p redraw ⟨rfl, rfl, rfl, le_refl _, fun h => h⟩
  obtain ⟨⟨h1, h2, h3, h4, h5⟩, h6⟩ := h
  exact ⟨h1, h2, h3, h4, h5, h6⟩

/-- What the level-gaining loop establishes. -/
theorem gain_levels_spec (c : Consts) (p : player) (redraw : Bool) :
    (gain_levels c p redraw).1.exp = p.exp ∧
    (gain_levels c p redraw).1.max_exp = p.max_exp ∧
    (gain_levels c p redraw).1.expfact = p.expfact ∧
    p.lev ≤ (gain_levels c p redraw).1.lev ∧
    (p.lev ≤ c.PY_MAX_LEVEL → (gain_levels c p redraw).1.lev ≤ c.PY_MAX_LEVEL) ∧
    (¬ lose_cond c p → ¬ lose_cond c (gain_levels c p redraw).1) ∧
    ¬ gain_cond c (gain_levels c p redraw).1 := by
  have h := gain_levels_rule c
    (fun q => q.exp = p.exp ∧ q.max_exp = p.max_exp ∧ q.expfact = p.expfact ∧
      p.lev ≤ q.lev ∧ (p.lev ≤ c.PY_MAX_LEVEL → q.lev ≤ c.PY_MAX_LEVEL) ∧
      (¬ lose_cond c p → ¬ lose_cond c q))
    (fun q hc hq => by
      obtain ⟨a, b, d, e⟩ := gain_body_fields q
      obtain ⟨q1, q2, q3, q4, q5, q6⟩ := hq
      obtain ⟨hc1, hc2⟩ := hc
      refine ⟨a.trans q1, b.trans q2, e.trans q3, by omega, fun _ => by omega, fun _ => ?_⟩
      unfold lose_cond
      rw [a, d, e, add_sub_cancel_right]
      omega)
    p redraw ⟨rfl, rfl, rfl, le_refl _, fun h => h, fun h => h⟩
  obtain ⟨⟨h1, h2, h3, h4, h5, h6⟩, h7⟩ := h
  exact ⟨h1, h2, h3, h4, h5, h6, h7⟩

theorem adjust_level_fields (c : Consts) (p : player) :
    (adjust_level c p).exp = (adjust_loops c p).1.exp ∧
    (adjust_level c p).max_exp = (adjust_loops c p).1.max_exp ∧
    (adjust_level c p).lev = (adjust_loops c p).1.lev ∧
    (adjust_level c p).max_lev = (adjust_loops c p).1.max_lev ∧
    (adjust_level c p).expfact = (adjust_loops c p).1.expfact := by
  simp only [adjust_level, adjust_loops, adjust_start, update_stuff]
  split_ifs <;> simp only [and_self]

theorem clamp_exp_fields (c : Consts) (p : player) :
    (clamp_exp c p).exp =
      (if (if p.exp < 0 then 0 else p.exp) > c.PY_MAX_EXP then c.PY_MAX_EXP
        else (if p.exp < 0 then 0 else p.exp)) ∧
    (clamp_exp c p).max_exp =
      (if (clamp_exp c p).exp >
          (if (if p.max_exp < 0 then 0 else p.max_exp) > c.PY_MAX_EXP then c.PY_MAX_EXP
            else (if p.max_exp < 0 then 0 else p.max_exp))
        then (clamp_exp c p).exp
        else (if (if p.max_exp < 0 then 0 else p.max_exp) > c.PY_MAX_EXP then c.PY_MAX_EXP
            else (if p.max_exp < 0 then 0 else p.max_exp))) ∧
    (clamp_exp c p).lev = p.lev ∧ (clamp_exp c p).max_lev = p.max_lev ∧
    (clamp_exp c p).expfact = p.expfact := by
  unfold clamp_exp
  by_cases h1 : p.exp < 0 <;> by_cases h2 : p.max_exp < 0 <;>
    simp only [h1, h2, if_true, if_false] <;>
    split_ifs <;> simp only [and_self, and_true]

theorem adjust_start_fields (c : Consts) (p : player) :
    (adjust_start c p).exp = (clamp_exp c p).exp ∧
    (adjust_start c p).max_exp = (clamp_exp c p).max_exp ∧
    (adjust_start c p).lev = p.lev ∧ (adjust_start c p).max_lev = p.max_lev ∧
    (adjust_start c p).expfact = p.expfact := by
  obtain ⟨_, _, a, b, d⟩ := clamp_exp_fields c p
  exact ⟨rfl, rfl, a, b, d⟩

/-- The experience fields are decided by the clamping alone; the level ends
where neither loop condition holds. -/
theorem adjust_level_spec (c : Consts) (p : player) :
    (adjust_level c p).exp = (clamp_exp c p).exp ∧
    (adjust_level c p).max_exp = (clamp_exp c p).max_exp ∧
    (adjust_level c p).expfact = p.expfact ∧
    (1 ≤ p.lev → 1 ≤ (adjust_level c p).lev) ∧
    (p.lev ≤ c.PY_MAX_LEVEL → (adjust_level c p).lev ≤ c.PY_MAX_LEVEL) ∧
    ¬ lose_cond c (adjust_level c p) ∧ ¬ gain_cond c (adjust_level c p) := by
  obtain ⟨a1, a2, a3, _, a5⟩ := adjust_level_fields c p
  obtain ⟨s1, s2, s3, _, s5⟩ := adjust_start_fields c p
  obtain ⟨l1, l2, l3, l4, l5, l6⟩ := lose_levels_spec c (adjust_start c p) false
  obtain ⟨g1, g2, g3, g4, g5, g6, g7⟩ := gain_levels_spec c
    (lose_levels c (adjust_start c p) false).1 (lose_levels c (adjust_start c p) false).2
  have g6' := g6 l6
  unfold lose_cond at g6' ⊢
  unfold gain_cond at g7 ⊢
  unfold adjust_loops at a1 a2 a3 a5
  rw [a1, a2, a3, a5]
  refine ⟨by rw [g1, l1, s1], by rw [g2, l2, s2], by rw [g3, l3, s5], fun h => ?_, fun h => ?_,
    g6', g7⟩
  · have := l5 (by omega); omega
  · exact g5 (by omega)

theorem wrap32_eq (x : Int) (h1 : -2147483648 ≤ x) (h2 : x ≤ 2147483647) : wrap32 x = x := by
  unfold wrap32; omega

/-- After `adjust_level` the level satisfies the threshold invariant, and no
other level in range does. -/
theorem adjust_level_level_inv (c : Consts) (p : player)
    (h1 : 1 ≤ p.lev) (h2 : p.lev ≤ c.PY_MAX_LEVEL) (hthr : ThresholdIncreasing c p.expfact) :
    1 ≤ (adjust_level c p).lev ∧ (adjust_level c p).lev ≤ c.PY_MAX_LEVEL ∧
    LevelInv c (adjust_level c p).exp (adjust_level c p).expfact (adjust_level c p).lev ∧
    ∀ L : Int, 1 ≤ L → L ≤ c.PY_MAX_LEVEL →
      LevelInv c (adjust_level c p).exp (adjust_level c p).expfact L →
      L = (adjust_level c p).lev := by
  obtain ⟨_, _, e3, e4, e5, e6, e7⟩ := adjust_level_spec c p
  have b1 := e4 h1
  have b2 := e5 h2
  unfold lose_cond at e6
  unfold gain_cond at e7
  have inv : LevelInv c (adjust_level c p).exp (adjust_level c p).expfact
      (adjust_level c p).lev := by
    constructor
    · by_cases h : (adjust_level c p).lev = 1
      · exact Or.inl h
      · right
        by_contra hlt
        exact e6 ⟨by omega, by omega⟩
    · by_cases h : (adjust_level c p).lev = c.PY_MAX_LEVEL
      · exact Or.inl h
      · right
        by_contra hge
        exact e7 ⟨by omega, by omega⟩
  refine ⟨b1, b2, inv, fun L hL1 hL2 hL => ?_⟩
  rw [e3] at inv hL
  obtain ⟨i1, i2⟩ := inv
  obtain ⟨j1, j2⟩ := hL
  rcases lt_trichotomy L (adjust_level c p).lev with hlt | heq | hgt
  · -- `exp < threshold L ≤ threshold (lev - 1) ≤ exp`
    exfalso
    have k1 : (adjust_level c p).exp < c.adv_exp L p.expfact := by
      rcases j2 with j2 | j2
      · omega
      · exact j2
    have k2 : c.adv_exp ((adjust_level c p).lev - 1) p.expfact ≤ (adjust_level c p).exp := by
      rcases i1 with i1 | i1
      · omega
      · exact i1
    by_cases hL' : L = (adjust_level c p).lev - 1
    · rw [hL'] at k1; omega
    · have := hthr L ((adjust_level c p).lev - 1) hL1 (by omega) (by omega)
      omega
  · exact heq
  · exfalso
    have k1 : (adjust_level c p).exp < c.adv_exp (adjust_level c p).lev p.expfact := by
      rcases i2 with i2 | i2
      · omega
      · exact i2
    have k2 : c.adv_exp (L - 1) p.expfact ≤ (adjust_level c p).exp := by
      rcases j1 with j1 | j1
      · omega
      · exact j1
    by_cases hL' : (adjust_level c p).lev = L - 1
    · rw [hL'] at k1; omega
    · have := hthr (adjust_level c p).lev (L - 1) b1 (by omega) (by omega)
      omega

theorem exp_gain_raw_fields (p : player) (amount : Int) :
    (exp_gain_raw p amount).exp = wrap32 (p.exp + amount) ∧
    (exp_gain_raw p amount).max_exp =
      (if wrap32 (p.exp + amount) < p.max_exp then wrap32 (p.max_exp + amount.tdiv 10)
        else p.max_exp) ∧
    (exp_gain_raw p amount).lev = p.lev ∧ (exp_gain_raw p amount).expfact = p.expfact := by
  simp only [exp_gain_raw]
  split_ifs <;> simp only [and_self]

theorem exp_lose_raw_fields (p : player) (amount : Int) (permanent : Bool) :
    (exp_lose_raw p amount permanent).exp =
      wrap32 (p.exp - (if amount > p.exp then p.exp else amount)) ∧
    (exp_lose_raw p amount permanent).max_exp =
      (if permanent then wrap32 (p.max_exp - (if amount > p.exp then p.exp else amount))
        else p.max_exp) ∧
    (exp_lose_raw p amount permanent).lev = p.lev ∧
    (exp_lose_raw p amount permanent).expfact = p.expfact := by
  simp only [exp_lose_raw]
  cases permanent <;> simp

theorem sample_threshold_increasing (expfact : Int) (h : 0 < expfact) :
    ThresholdIncreasing sample_consts expfact := by
  intro a b _ hab _
  show a * expfact < b * expfact
  exact Int.mul_lt_mul_of_pos_right hab h

theorem lose_levels_exit (c : Consts) (p : player) (redraw : Bool) (h : ¬ lose_cond c p) :
    lose_levels c p redraw = (p, redraw) := by
  rw [lose_levels]; exact dif_neg h

theorem gain_levels_exit (c : Consts) (p : player) (redraw : Bool) (h : ¬ gain_cond c p) :
    gain_levels c p redraw = (p, redraw) := by
  rw [gain_levels]; exact dif_neg h

/-- When neither loop condition holds after the clamping, `adjust_level`
only clamps, marks `PR_EXP` and calls `update_stuff` twice. -/
theorem adjust_level_stable (c : Consts) (p : player)
    (h1 : ¬ lose_cond c (adjust_start c p)) (h2 : ¬ gain_cond c (adjust_start c p)) :
    adjust_level c p = update_stuff (adjust_start c p) := by
  have e : adjust_loops c p = (adjust_start c p, false) := by
    unfold adjust_loops
    rw [lose_levels_exit c _ _ h1, gain_levels_exit c _ _ h2]
  have r : adjust_level c p =
      update_stuff (if (adjust_loops c p).2 then
        { (adjust_loops c p).1 with
          update := (adjust_loops c p).1.update ||| (c.PU_BONUS ||| c.PU_SPELLS ||| c.PU_MONSTERS)
          redraw := (adjust_loops c p).1.redraw |||
            (c.PR_LEV ||| c.PR_TITLE ||| c.PR_EXP ||| c.PR_STATS ||| c.PR_SPELL ||| c.PR_PLUSSES)
          trace := (adjust_loops c p).1.trace ++ [Event.set_redraw_equip] }
        else (adjust_loops c p).1) := rfl
  rw [r, e]
  rfl

theorem maxed_player_start :
    adjust_start sample_consts (exp_gain_raw maxed_player 1) =
      { maxed_player with exp := 10001, max_exp := 10001, redraw := 8,
                          trace := [Event.update_stuff] } := by
  simp [adjust_start, exp_gain_raw, maxed_player, sample_player, sample_consts, wrap32,
    clamp_exp, update_stuff]

theorem maxed_player_gain :
    player_exp_gain sample_consts maxed_player 1 =
      { maxed_player with exp := 10001, max_exp := 10001, redraw := 8,
                          trace := [Event.update_stuff, Event.update_stuff] } := by
  unfold player_exp_gain
  rw [adjust_level_stable, maxed_player_start]
  · rfl
  · rw [maxed_player_start]
    simp [lose_cond, maxed_player, sample_player, sample_consts]
  · rw [maxed_player_start]
    simp [gain_cond, maxed_player, sample_player, sample_consts]

/-! ## Experience: the claims -/

/-- C1 (as amended): for every state with level in `[1, PY_MAX_LEVEL]`, every
experience factor whose threshold function is strictly increasing and every
amount, after `player_exp_gain` and after `player_exp_lose` the level `L` is
in `[1, PY_MAX_LEVEL]`, satisfies `threshold(L-1) ≤ exp` unless `L = 1` and
`exp < threshold(L)` unless `L = PY_MAX_LEVEL`, and is the only level in
range that does. -/
theorem level_invariant_after_exp_change (c : Consts) (p : player) (amount : Int)
    (permanent : Bool) (h1 : 1 ≤ p.lev) (h2 : p.lev ≤ c.PY_MAX_LEVEL)
    (hthr : ThresholdIncreasing c p.expfact) :
    (1 ≤ (player_exp_gain c p amount).lev ∧
      (player_exp_gain c p amount).lev ≤ c.PY_MAX_LEVEL ∧
      LevelInv c (player_exp_gain c p amount).exp (player_exp_gain c p amount).expfact
        (player_exp_gain c p amount).lev ∧
      ∀ L : Int, 1 ≤ L → L ≤ c.PY_MAX_LEVEL →
        LevelInv c (player_exp_gain c p amount).exp (player_exp_gain c p amount).expfact L →
        L = (player_exp_gain c p amount).lev) ∧
    (1 ≤ (player_exp_lose c p amount permanent).lev ∧
      (player_exp_lose c p amount permanent).lev ≤ c.PY_MAX_LEVEL ∧
      LevelInv c (player_exp_lose c p amount permanent).exp
        (player_exp_lose c p amount permanent).expfact
        (player_exp_lose c p amount permanent).lev ∧
      ∀ L : Int, 1 ≤ L → L ≤ c.PY_MAX_LEVEL →
        LevelInv c (player_exp_lose c p amount permanent).exp
          (player_exp_lose c p amount permanent).expfact L →
        L = (player_exp_lose c p amount permanent).lev) := by
  obtain ⟨_, _, g3, g4⟩ := exp_gain_raw_fields p amount
  obtain ⟨_, _, l3, l4⟩ := exp_lose_raw_fields p amount permanent
  constructor
  · exact adjust_level_level_inv c (exp_gain_raw p amount) (by rw [g3]; exact h1)
      (by rw [g3]; exact h2) (by rw [g4]; exact hthr)
  · exact adjust_level_level_inv c (exp_lose_raw p amount permanent) (by rw [l3]; exact h1)
      (by rw [l3]; exact h2) (by rw [l4]; exact hthr)

/-- C1, counterexample: a character at the level cap 50 with 10000
experience (the threshold table is `100 * level`, strictly increasing) gains 1
experience; the level stays 50 and the experience 10001 is not below
`threshold(50) = 5000`, so the invariant as the specification words it fails. -/
theorem level_invariant_counterexample :
    (1 ≤ maxed_player.lev ∧ maxed_player.lev ≤ sample_consts.PY_MAX_LEVEL ∧
      ThresholdIncreasing sample_consts maxed_player.expfact) ∧
    (player_exp_gain sample_consts maxed_player 1).lev = 50 ∧
    (player_exp_gain sample_consts maxed_player 1).exp = 10001 ∧
    sample_consts.adv_exp 50 (player_exp_gain sample_consts maxed_player 1).expfact = 5000 ∧
    ¬ LevelInvSpec sample_consts (player_exp_gain sample_consts maxed_player 1).exp
        (player_exp_gain sample_consts maxed_player 1).expfact
        (player_exp_gain sample_consts maxed_player 1).lev := by
  refine ⟨⟨by decide, by decide, sample_threshold_increasing _ (by decide)⟩, ?_⟩
  rw [maxed_player_gain]
  refine ⟨rfl, rfl, by decide, ?_⟩
  unfold LevelInvSpec
  simp [maxed_player, sample_player, sample_consts]

/-- Witness of C1 on the drained sample character. -/
theorem level_invariant_after_exp_change_witness :
    1 ≤ (player_exp_gain sample_consts drained_player 700).lev ∧
    (player_exp_gain sample_consts drained_player 700).lev ≤ sample_consts.PY_MAX_LEVEL ∧
    LevelInv sample_consts (player_exp_gain sample_consts drained_player 700).exp
      (player_exp_gain sample_consts drained_player 700).expfact
      (player_exp_gain sample_consts drained_player 700).lev :=
  have h := (level_invariant_after_exp_change sample_consts drained_player 700 false
    (by decide) (by decide) (sample_threshold_increasing _ (by decide))).1
  ⟨h.1, h.2.1, h.2.2.1⟩

/-- C9: for `0 ≤ exp ≤ max_exp ≤ PY_MAX_EXP` and `amount ≥ 0` without 32-bit
overflow, `player_exp_gain` adds `amount` to `exp` and, if the sum is still
below `max_exp`, adds `amount / 10` to `max_exp`; after `adjust_level`
`exp = min (old exp + amount) PY_MAX_EXP` and `max_exp` is the larger of
that adjusted peak clamped to `PY_MAX_EXP` and the new `exp`. -/
theorem player_exp_gain_spec (c : Consts) (p : player) (amount : Int)
    (h0 : 0 ≤ p.exp) (h1 : p.exp ≤ p.max_exp) (h2 : p.max_exp ≤ c.PY_MAX_EXP)
    (ha : 0 ≤ amount) (ho1 : p.exp + amount ≤ 2147483647)
    (ho2 : p.max_exp + amount / 10 ≤ 2147483647) :
    (exp_gain_raw p amount).exp = p.exp + amount ∧
    (exp_gain_raw p amount).max_exp =
      (if p.exp + amount < p.max_exp then p.max_exp + amount / 10 else p.max_exp) ∧
    (player_exp_gain c p amount).exp = min (p.exp + amount) c.PY_MAX_EXP ∧
    (player_exp_gain c p amount).max_exp =
      max (min (if p.exp + amount < p.max_exp then p.max_exp + amount / 10 else p.max_exp)
            c.PY_MAX_EXP)
        (player_exp_gain c p amount).exp := by
  obtain ⟨r1, r2, _, _⟩ := exp_gain_raw_fields p amount
  rw [wrap32_eq _ (by omega) ho1, Int.tdiv_eq_ediv ha (by decide),
    wrap32_eq _ (by omega) ho2] at r2
  rw [wrap32_eq _ (by omega) ho1] at r1
  obtain ⟨a1, a2, _⟩ := adjust_level_spec c (exp_gain_raw p amount)
  obtain ⟨k1, k2, _⟩ := clamp_exp_fields c (exp_gain_raw p amount)
  unfold player_exp_gain
  rw [a2, a1, k2, k1, r1, r2]
  refine ⟨rfl, rfl, ?_, ?_⟩ <;> split_ifs <;> omega

/-- Witness of C9: the drained sample character gains 700 experience. -/
theorem player_exp_gain_spec_witness :
    (player_exp_gain sample_consts drained_player 700).exp =
      min (drained_player.exp + 700) sample_consts.PY_MAX_EXP :=
  (player_exp_gain_spec sample_consts drained_player 700 (by decide) (by decide) (by decide)
    (by decide) (by decide) (by decide)).2.2.1

/-- C10: for `0 ≤ exp ≤ max_exp ≤ PY_MAX_EXP` and every `amount ≥ 0`,
`player_exp_lose` leaves `exp = old exp - min amount (old exp)`, which is
never negative and is 0 when `amount ≥ old exp`; `max_exp` becomes
`old max_exp - min amount (old exp)` when `permanent` and is unchanged
otherwise. -/
theorem player_exp_lose_spec (c : Consts) (p : player) (amount : Int) (permanent : Bool)
    (h0 : 0 ≤ p.exp) (h1 : p.exp ≤ p.max_exp) (h2 : p.max_exp ≤ c.PY_MAX_EXP)
    (ha : 0 ≤ amount) (hM : c.PY_MAX_EXP ≤ 2147483647) :
    (player_exp_lose c p amount permanent).exp = p.exp - min amount p.exp ∧
    0 ≤ (player_exp_lose c p amount permanent).exp ∧
    (amount ≥ p.exp → (player_exp_lose c p amount permanent).exp = 0) ∧
    (player_exp_lose c p amount permanent).max_exp =
      (if permanent then p.max_exp - min amount p.exp else p.max_exp) := by
  obtain ⟨r1, r2, _, _⟩ := exp_lose_raw_fields p amount permanent
  have e : (if amount > p.exp then p.exp else amount) = min amount p.exp := by
    split_ifs <;> omega
  rw [e] at r1 r2
  rw [wrap32_eq _ (by omega) (by omega)] at r1
  rw [wrap32_eq _ (by omega) (by omega)] at r2
  obtain ⟨a1, a2, _⟩ := adjust_level_spec c (exp_lose_raw p amount permanent)
  obtain ⟨k1, k2, _⟩ := clamp_exp_fields c (exp_lose_raw p amount permanent)
  unfold player_exp_lose
  rw [a2, a1, k2, k1, r1, r2]
  cases permanent <;> simp only [Bool.false_eq_true, if_false, if_true] <;>
    refine ⟨?_, ?_, fun _ => ?_, ?_⟩ <;> split_ifs <;> omega

/-- Witness of C10: the drained sample character loses far more experience
than it has. -/
theorem player_exp_lose_spec_witness :
    (player_exp_lose sample_consts drained_player 2000000000 false).exp = 0 :=
  (player_exp_lose_spec sample_consts drained_player 2000000000 false (by decide) (by decide)
    (by decide) (by decide) (by decide)).2.2.1 (by decide)

/-! ## Level reconciliation: auxiliary lemmas -/

theorem lose_levels_step (c : Consts) (p : player) (redraw : Bool) (h : lose_cond c p) :
    lose_levels c p redraw = lose_levels c (lose_body p) true := by
  rw [lose_levels]; exact dif_pos h

theorem gain_levels_step (c : Consts) (p : player) (redraw : Bool) (h : gain_cond c p) :
    gain_levels c p redraw = gain_levels c (gain_body p) true := by
  rw [gain_levels]; exact dif_pos h

theorem lose_body_lev (p : player) : (lose_body p).lev = p.lev - 1 :=
  (lose_body_fields p).2.2.1

theorem gain_body_lev (p : player) : (gain_body p).lev = p.lev + 1 :=
  (gain_body_fields p).2.2.1

/-- The level-losing loop runs its body a number of times bounded by
`lev - 1` and stops where its condition is false. -/
theorem lose_levels_iterate (c : Consts) (p : player) (redraw : Bool) :
    ∃ n : Nat, n ≤ (p.lev - 1).toNat ∧ (lose_levels c p redraw).1 = lose_body^[n] p ∧
      ¬ lose_cond c (lose_body^[n] p) := by
  induction p, redraw using lose_levels.induct c with
  | case1 p redraw h ih =>
    obtain ⟨n, hn, e, hx⟩ := ih
    have hl : (perm_shape { p with lev := p.lev - 1 }).lev = p.lev - 1 := lose_body_lev p
    have h1 := h.1
    refine ⟨n + 1, ?_, ?_, ?_⟩
    · rw [hl] at hn; omega
    · rw [lose_levels_step c p redraw h, Function.iterate_succ_apply]; exact e
    · rw [Function.iterate_succ_apply]; exact hx
  | case2 p redraw h =>
    exact ⟨0, Nat.zero_le _, by rw [lose_levels_exit c p redraw h]; rfl, h⟩

/-- The level-gaining loop runs its body a number of times bounded by
`PY_MAX_LEVEL - lev` and stops where its condition is false. -/
theorem gain_levels_iterate (c : Consts) (p : player) (redraw : Bool) :
    ∃ n : Nat, n ≤ (c.PY_MAX_LEVEL - p.lev).toNat ∧
      (gain_levels c p redraw).1 = gain_body^[n] p ∧ ¬ gain_cond c (gain_body^[n] p) := by
  induction p, redraw using gain_levels.induct c with
  | case1 p redraw h ih =>
    obtain ⟨n, hn, e, hx⟩ := ih
    have hl : (new_max_lev (perm_shape { p with lev := p.lev + 1 })).lev = p.lev + 1 :=
      gain_body_lev p
    have h1 := h.1
    refine ⟨n + 1, ?_, ?_, ?_⟩
    · rw [hl] at hn; omega
    · rw [gain_levels_step c p redraw h, Function.iterate_succ_apply]; exact e
    · rw [Function.iterate_succ_apply]; exact hx
  | case2 p redraw h =>
    exact ⟨0, Nat.zero_le _, by rw [gain_levels_exit c p redraw h]; rfl, h⟩

theorem new_max_lev_max_lev (p : player) :
    (new_max_lev p).max_lev = (if p.lev > p.max_lev then p.lev else p.max_lev) := by
  simp only [new_max_lev]
  split_ifs <;> rfl

theorem lose_body_max_lev (p : player) : (lose_body p).max_lev = p.max_lev :=
  (perm_shape_fields { p with lev := p.lev - 1 }).2.2.2.1

theorem gain_body_max_lev (p : player) :
    (gain_body p).max_lev = (if p.lev + 1 > p.max_lev then p.lev + 1 else p.max_lev) := by
  unfold gain_body
  rw [new_max_lev_max_lev]
  obtain ⟨_, _, a, b, _⟩ := perm_shape_fields { p with lev := p.lev + 1 }
  rw [a, b]

theorem adjust_start_max_lev_lev (c : Consts) (p : player) :
    (adjust_start c p).lev = p.lev ∧ (adjust_start c p).max_lev = p.max_lev :=
  ⟨(adjust_start_fields c p).2.2.1, (adjust_start_fields c p).2.2.2.1⟩

/-- The experience values after the clamping statements of `adjust_level`. -/
theorem clamp_exp_range (c : Consts) (p : player) (hM : 0 ≤ c.PY_MAX_EXP) :
    0 ≤ (clamp_exp c p).exp ∧ (clamp_exp c p).exp ≤ c.PY_MAX_EXP ∧
    0 ≤ (clamp_exp c p).max_exp ∧ (clamp_exp c p).max_exp ≤ c.PY_MAX_EXP ∧
    (clamp_exp c p).exp ≤ (clamp_exp c p).max_exp ∧
    (0 ≤ p.exp → p.exp ≤ p.max_exp → p.max_exp ≤ c.PY_MAX_EXP →
      (clamp_exp c p).exp = p.exp ∧ (clamp_exp c p).max_exp = p.max_exp) := by
  obtain ⟨k1, k2, _⟩ := clamp_exp_fields c p
  rw [k2, k1]
  refine ⟨?_, ?_, ?_, ?_, ?_, fun _ _ _ => ⟨?_, ?_⟩⟩ <;> split_ifs <;> omega

/-! ## Level reconciliation: the claims -/

/-- C11: level reconciliation silently clamps: whatever `exp` and `max_exp`
are on entry (negative or over-large included), after `adjust_level` both
lie in `[0, PY_MAX_EXP]` and `max_exp ≥ exp`; values that already satisfy
`0 ≤ exp ≤ max_exp ≤ PY_MAX_EXP` are left unchanged. -/
theorem adjust_level_clamps (c : Consts) (p : player) (hM : 0 ≤ c.PY_MAX_EXP) :
    0 ≤ (adjust_level c p).exp ∧ (adjust_level c p).exp ≤ c.PY_MAX_EXP ∧
    0 ≤ (adjust_level c p).max_exp ∧ (adjust_level c p).max_exp ≤ c.PY_MAX_EXP ∧
    (adjust_level c p).exp ≤ (adjust_level c p).max_exp ∧
    (0 ≤ p.exp → p.exp ≤ p.max_exp → p.max_exp ≤ c.PY_MAX_EXP →
      (adjust_level c p).exp = p.exp ∧ (adjust_level c p).max_exp = p.max_exp) := by
  obtain ⟨a1, a2, _⟩ := adjust_level_spec c p
  rw [a1, a2]
  exact clamp_exp_range c p hM

/-- Witness of C11: a state with negative experience and an over-large
lifetime peak. -/
theorem adjust_level_clamps_witness :
    0 ≤ (adjust_level sample_consts
      { sample_player with exp := -5, max_exp := 2000000000 }).exp ∧
    (adjust_level sample_consts
      { sample_player with exp := -5, max_exp := 2000000000 }).max_exp ≤
        sample_consts.PY_MAX_EXP :=
  have h := adjust_level_clamps sample_consts
    { sample_player with exp := -5, max_exp := 2000000000 } (by decide)
  ⟨h.1, h.2.2.2.1⟩

/-- What the level-losing loop does to `max_lev`: nothing. -/
theorem lose_levels_max_lev (c : Consts) (p : player) (redraw : Bool) :
    (lose_levels c p redraw).1.max_lev = p.max_lev :=
  (lose_levels_rule c (fun q => q.max_lev = p.max_lev)
    (fun q _ hq => (lose_body_max_lev q).trans hq) p redraw rfl).1

/-- What the level-gaining loop does to `max_lev`: it never lowers it and
keeps it at or above the level. -/
theorem gain_levels_max_lev (c : Consts) (p : player) (redraw : Bool)
    (h : p.lev ≤ p.max_lev) :
    (gain_levels c p redraw).1.lev ≤ (gain_levels c p redraw).1.max_lev ∧
    p.max_lev ≤ (gain_levels c p redraw).1.max_lev :=
  (gain_levels_rule c (fun q => q.lev ≤ q.max_lev ∧ p.max_lev ≤ q.max_lev)
    (fun q _ hq => by
      have e1 : (new_max_lev (perm_shape { q with lev := q.lev + 1 })).lev = q.lev + 1 :=
        gain_body_lev q
      have e2 : (new_max_lev (perm_shape { q with lev := q.lev + 1 })).max_lev =
          (if q.lev + 1 > q.max_lev then q.lev + 1 else q.max_lev) := gain_body_max_lev q
      obtain ⟨hq1, hq2⟩ := hq
      show (new_max_lev (perm_shape { q with lev := q.lev + 1 })).lev ≤
          (new_max_lev (perm_shape { q with lev := q.lev + 1 })).max_lev ∧
        p.max_lev ≤ (new_max_lev (perm_shape { q with lev := q.lev + 1 })).max_lev
      rw [e1, e2]
      constructor <;> split_ifs <;> omega)
    p redraw ⟨h, le_refl _⟩).1

/-- C12: level reconciliation keeps the progression range invariant: from
`1 ≤ lev ≤ PY_MAX_LEVEL` and `max_lev ≥ lev`, for every experience value and
threshold function, both loops of `adjust_level` stop after a bounded number
of passes (at most `lev - 1` losses, then at most `PY_MAX_LEVEL - 1` gains)
with their conditions false, and on exit `1 ≤ lev ≤ PY_MAX_LEVEL` and
`max_lev ≥ lev` hold, `max_lev` not having decreased. -/
theorem adjust_level_range (c : Consts) (p : player)
    (h1 : 1 ≤ p.lev) (h2 : p.lev ≤ c.PY_MAX_LEVEL) (h3 : p.lev ≤ p.max_lev) :
    (∃ n m : Nat, n ≤ (p.lev - 1).toNat ∧ m ≤ (c.PY_MAX_LEVEL - 1).toNat ∧
      (adjust_loops c p).1 = gain_body^[m] (lose_body^[n] (adjust_start c p)) ∧
      ¬ lose_cond c (lose_body^[n] (adjust_start c p)) ∧
      ¬ gain_cond c (adjust_loops c p).1) ∧
    1 ≤ (adjust_level c p).lev ∧ (adjust_level c p).lev ≤ c.PY_MAX_LEVEL ∧
    (adjust_level c p).lev ≤ (adjust_level c p).max_lev ∧
    p.max_lev ≤ (adjust_level c p).max_lev := by
  obtain ⟨s1, s2⟩ := adjust_start_max_lev_lev c p
  obtain ⟨_, _, a3, a4, _⟩ := adjust_level_fields c p
  obtain ⟨_, _, _, l4, l5, _⟩ := lose_levels_spec c (adjust_start c p) false
  have lm := lose_levels_max_lev c (adjust_start c p) false
  obtain ⟨n, hn, en, xn⟩ := lose_levels_iterate c (adjust_start c p) false
  obtain ⟨m, hm, em, xm⟩ := gain_levels_iterate c (lose_levels c (adjust_start c p) false).1
    (lose_levels c (adjust_start c p) false).2
  obtain ⟨g1, g2⟩ := gain_levels_max_lev c (lose_levels c (adjust_start c p) false).1
    (lose_levels c (adjust_start c p) false).2 (by omega)
  obtain ⟨_, _, _, e4, e5, _, _⟩ := adjust_level_spec c p
  have l5' := l5 (by omega)
  refine ⟨⟨n, m, by omega, by omega, ?_, xn, ?_⟩, e4 h1, e5 h2, ?_, ?_⟩
  · unfold adjust_loops; rw [em, en]
  · unfold adjust_loops; rw [em]; exact xm
  · rw [a3, a4]; exact g1
  · rw [a4]; unfold adjust_loops; omega

/-- Witness of C12 on the drained sample character. -/
theorem adjust_level_range_witness :
    1 ≤ (adjust_level sample_consts drained_player).lev ∧
    (adjust_level sample_consts drained_player).lev ≤
      (adjust_level sample_consts drained_player).max_lev :=
  have h := adjust_level_range sample_consts drained_player (by decide) (by decide)
    (by decide)
  ⟨h.2.1, h.2.2.2.1⟩

theorem level_range_empty (a b : Int) (h : b ≤ a) : level_range a b = [] := by
  unfold level_range
  rw [show (b - a).toNat = 0 by omega]
  rfl

theorem level_range_succ (a b : Int) (h : a ≤ b) :
    level_range a (b + 1) = level_range a b ++ [b + 1] := by
  unfold level_range
  rw [show (b + 1 - a).toNat = (b - a).toNat + 1 by omega, List.range_succ, List.map_append]
  simp only [List.map_cons, List.map_nil]
  rw [show a + 1 + ((b - a).toNat : Int) = b + 1 by omega]

theorem mem_level_range (a b l : Int) : l ∈ level_range a b ↔ a < l ∧ l ≤ b := by
  unfold level_range
  simp only [List.mem_map, List.mem_range]
  constructor
  · rintro ⟨i, hi, rfl⟩; omega
  · intro h
    exact ⟨(l - a - 1).toNat, by omega, by omega⟩

theorem length_level_range (a b : Int) : (level_range a b).length = (b - a).toNat := by
  unfold level_range
  rw [List.length_map, List.length_range]

theorem nodup_level_range (a b : Int) : (level_range a b).Nodup := by
  unfold level_range
  refine List.Nodup.map ?_ (List.nodup_range _)
  intro i j hij
  have : a + 1 + (i : Int) = a + 1 + (j : Int) := hij
  omega

theorem tmod_five_iff (l : Int) : l.tmod 5 = 0 ↔ l % 5 = 0 :=
  ⟨fun h => Int.emod_eq_zero_of_dvd (Int.dvd_of_tmod_eq_zero h),
   fun h => Int.tmod_eq_zero_of_dvd (Int.dvd_of_emod_eq_zero h)⟩

/-- `perm_shape` announces nothing. -/
theorem perm_shape_levels (p : player) :
    msgt_levels (perm_shape p).trace = msgt_levels p.trace ∧
    broadcast_levels (perm_shape p).trace = broadcast_levels p.trace ∧
    history_levels (perm_shape p).trace = history_levels p.trace := by
  simp only [perm_shape, msgt_levels, broadcast_levels, history_levels]
  split_ifs <;> simp

/-- The announcements of the "save the highest level" block. -/
theorem new_max_lev_levels (p : player) :
    msgt_levels (new_max_lev p).trace =
      msgt_levels p.trace ++ (if p.lev > p.max_lev then [p.lev] else []) ∧
    broadcast_levels (new_max_lev p).trace =
      broadcast_levels p.trace ++ (if p.lev > p.max_lev then [p.lev] else []) ∧
    history_levels (new_max_lev p).trace =
      history_levels p.trace ++
        (if p.lev > p.max_lev then (if p.lev % 5 = 0 then [p.lev] else []) else []) := by
  simp only [new_max_lev, msgt_levels, broadcast_levels, history_levels, tmod_five_iff]
  split_ifs <;> simp

theorem lose_body_levels (p : player) :
    msgt_levels (lose_body p).trace = msgt_levels p.trace ∧
    broadcast_levels (lose_body p).trace = broadcast_levels p.trace ∧
    history_levels (lose_body p).trace = history_levels p.trace :=
  perm_shape_levels { p with lev := p.lev - 1 }

theorem gain_body_levels (p : player) :
    msgt_levels (gain_body p).trace =
      msgt_levels p.trace ++ (if p.lev + 1 > p.max_lev then [p.lev + 1] else []) ∧
    broadcast_levels (gain_body p).trace =
      broadcast_levels p.trace ++ (if p.lev + 1 > p.max_lev then [p.lev + 1] else []) ∧
    history_levels (gain_body p).trace =
      history_levels p.trace ++
        (if p.lev + 1 > p.max_lev then (if (p.lev + 1) % 5 = 0 then [p.lev + 1] else [])
          else []) := by
  obtain ⟨a, b, d⟩ := new_max_lev_levels (perm_shape { p with lev := p.lev + 1 })
  obtain ⟨a', b', d'⟩ := perm_shape_levels { p with lev := p.lev + 1 }
  obtain ⟨_, _, e1, e2, _⟩ := perm_shape_fields { p with lev := p.lev + 1 }
  rw [e1, e2, a'] at a
  rw [e1, e2, b'] at b
  rw [e1, e2, d'] at d
  exact ⟨a, b, d⟩

theorem clamp_exp_trace (c : Consts) (p : player) : (clamp_exp c p).trace = p.trace := by
  unfold clamp_exp
  by_cases h1 : p.exp < 0 <;> by_cases h2 : p.max_exp < 0 <;>
    simp only [h1, h2, if_true, if_false] <;>
    split_ifs <;> rfl

theorem adjust_start_levels (c : Consts) (p : player) :
    msgt_levels (adjust_start c p).trace = msgt_levels p.trace ∧
    broadcast_levels (adjust_start c p).trace = broadcast_levels p.trace ∧
    history_levels (adjust_start c p).trace = history_levels p.trace := by
  have e : (adjust_start c p).trace = p.trace ++ [Event.update_stuff] := by
    show (clamp_exp c p).trace ++ [Event.update_stuff] = _
    rw [clamp_exp_trace]
  rw [e]
  simp [msgt_levels, broadcast_levels, history_levels]

theorem adjust_level_levels (c : Consts) (p : player) :
    msgt_levels (adjust_level c p).trace = msgt_levels (adjust_loops c p).1.trace ∧
    broadcast_levels (adjust_level c p).trace = broadcast_levels (adjust_loops c p).1.trace ∧
    history_levels (adjust_level c p).trace = history_levels (adjust_loops c p).1.trace := by
  simp only [adjust_level, adjust_loops, adjust_start, update_stuff, msgt_levels,
    broadcast_levels, history_levels]
  split_ifs <;> simp

/-- The level-losing loop announces nothing. -/
theorem lose_levels_levels (c : Consts) (p : player) (redraw : Bool) :
    msgt_levels (lose_levels c p redraw).1.trace = msgt_levels p.trace ∧
    broadcast_levels (lose_levels c p redraw).1.trace = broadcast_levels p.trace ∧
    history_levels (lose_levels c p redraw).1.trace = history_levels p.trace :=
  (lose_levels_rule c
    (fun q => msgt_levels q.trace = msgt_levels p.trace ∧
      broadcast_levels q.trace = broadcast_levels p.trace ∧
      history_levels q.trace = history_levels p.trace)
    (fun q _ hq => by
      obtain ⟨a, b, d⟩ := lose_body_levels q
      exact ⟨a.trans hq.1, b.trans hq.2.1, d.trans hq.2.2⟩)
    p redraw ⟨rfl, rfl, rfl⟩).1

/-- The level-gaining loop announces exactly the levels above the `max_lev`
it starts with, up to the level it ends with. -/
theorem gain_levels_levels (c : Consts) (p : player) (redraw : Bool)
    (h : p.lev ≤ p.max_lev) :
    msgt_levels (gain_levels c p redraw).1.trace =
      msgt_levels p.trace ++ level_range p.max_lev (gain_levels c p redraw).1.lev ∧
    broadcast_levels (gain_levels c p redraw).1.trace =
      broadcast_levels p.trace ++ level_range p.max_lev (gain_levels c p redraw).1.lev ∧
    history_levels (gain_levels c p redraw).1.trace =
      history_levels p.trace ++
        (level_range p.max_lev (gain_levels c p redraw).1.lev).filter
          (fun l => decide (l % 5 = 0)) := by
  have key := gain_levels_rule c
    (fun q => q.max_lev = max p.max_lev q.lev ∧
      msgt_levels q.trace = msgt_levels p.trace ++ level_range p.max_lev q.lev ∧
      broadcast_levels q.trace = broadcast_levels p.trace ++ level_range p.max_lev q.lev ∧
      history_levels q.trace = history_levels p.trace ++
        (level_range p.max_lev q.lev).filter (fun l => decide (l % 5 = 0)))
    (fun q _ hq => by
      obtain ⟨hm, ha, hb, hd⟩ := hq
      obtain ⟨a, b, d⟩ := gain_body_levels q
      have e1 : (gain_body q).lev = q.lev + 1 := gain_body_lev q
      have e2 := gain_body_max_lev q
      show (gain_body q).max_lev = max p.max_lev (gain_body q).lev ∧
        msgt_levels (gain_body q).trace =
          msgt_levels p.trace ++ level_range p.max_lev (gain_body q).lev ∧
        broadcast_levels (gain_body q).trace =
          broadcast_levels p.trace ++ level_range p.max_lev (gain_body q).lev ∧
        history_levels (gain_body q).trace = history_levels p.trace ++
          (level_range p.max_lev (gain_body q).lev).filter (fun l => decide (l % 5 = 0))
      rw [e1, e2, a, b, d, ha, hb, hd]
      by_cases hgt : q.lev + 1 > q.max_lev
      · have hle : p.max_lev ≤ q.lev := by omega
        simp only [if_pos hgt]
        rw [level_range_succ _ _ hle, List.filter_append]
        refine ⟨by omega, by rw [List.append_assoc], by rw [List.append_assoc], ?_⟩
        by_cases h5 : (q.lev + 1) % 5 = 0
        · rw [if_pos h5, List.append_assoc]
          simp [Int.dvd_of_emod_eq_zero h5]
        · rw [if_neg h5]
          simp [show ¬ (5 : Int) ∣ q.lev + 1 from fun hd => h5 (Int.emod_eq_zero_of_dvd hd)]
      · have hle : q.lev + 1 ≤ p.max_lev := by omega
        simp only [if_neg hgt]
        rw [level_range_empty _ _ hle, level_range_empty _ _ (by omega)]
        refine ⟨by omega, ?_, ?_, ?_⟩ <;> simp)
    p redraw ⟨by omega, by rw [level_range_empty _ _ h, List.append_nil],
      by rw [level_range_empty _ _ h, List.append_nil],
      by rw [level_range_empty _ _ h]; simp⟩
  exact key.1.2

/-- The announcements of one reconciliation. -/
theorem adjust_level_new_levels (c : Consts) (p : player) (h : p.lev ≤ p.max_lev) :
    msgt_levels (adjust_level c p).trace =
      msgt_levels p.trace ++ level_range p.max_lev (adjust_level c p).lev ∧
    broadcast_levels (adjust_level c p).trace =
      broadcast_levels p.trace ++ level_range p.max_lev (adjust_level c p).lev ∧
    history_levels (adjust_level c p).trace =
      history_levels p.trace ++
        (level_range p.max_lev (adjust_level c p).lev).filter (fun l => decide (l % 5 = 0)) := by
  obtain ⟨s1, s2⟩ := adjust_start_max_lev_lev c p
  obtain ⟨_, _, a3, _, _⟩ := adjust_level_fields c p
  obtain ⟨v1, v2, v3⟩ := adjust_level_levels c p
  obtain ⟨w1, w2, w3⟩ := adjust_start_levels c p
  obtain ⟨_, _, _, l4, _, _⟩ := lose_levels_spec c (adjust_start c p) false
  obtain ⟨u1, u2, u3⟩ := lose_levels_levels c (adjust_start c p) false
  have lm := lose_levels_max_lev c (adjust_start c p) false
  obtain ⟨g1, g2, g3⟩ := gain_levels_levels c (lose_levels c (adjust_start c p) false).1
    (lose_levels c (adjust_start c p) false).2 (by omega)
  rw [lm, s2, u1, w1] at g1
  rw [lm, s2, u2, w2] at g2
  rw [lm, s2, u3, w3] at g3
  rw [v1, v2, v3, a3]
  exact ⟨g1, g2, g3⟩

theorem exp_gain_raw_frame (p : player) (amount : Int) :
    (exp_gain_raw p amount).max_lev = p.max_lev ∧
    (exp_gain_raw p amount).trace = p.trace := by
  simp only [exp_gain_raw]
  split_ifs <;> simp only [and_self]

/-- From level 1 with exactly `threshold(1)` experience the loops end at
level 2. -/
theorem adjust_level_first_level (c : Consts) (r : player)
    (hl : r.lev = 1) (he : r.exp = c.adv_exp 1 r.expfact)
    (hthr : c.adv_exp 1 r.expfact < c.adv_exp 2 r.expfact)
    (h0 : 0 ≤ c.adv_exp 1 r.expfact) (hM : c.adv_exp 1 r.expfact ≤ c.PY_MAX_EXP)
    (hL : 2 ≤ c.PY_MAX_LEVEL) : (adjust_level c r).lev = 2 := by
  obtain ⟨s1, _, s3, _, s5⟩ := adjust_start_fields c r
  obtain ⟨k1, _⟩ := clamp_exp_fields c r
  have se : (adjust_start c r).exp = c.adv_exp 1 r.expfact := by
    rw [s1, k1, he]; split_ifs <;> omega
  have hlose : ¬ lose_cond c (adjust_start c r) := by
    unfold lose_cond; rw [s3, hl]; omega
  have hgain : gain_cond c (adjust_start c r) := by
    unfold gain_cond; rw [s3, hl, se, s5]; omega
  obtain ⟨b1, _, b3, b4⟩ := gain_body_fields (adjust_start c r)
  have hstop : ¬ gain_cond c (gain_body (adjust_start c r)) := by
    unfold gain_cond gain_body; rw [b1, b3, b4, se, s3, hl, s5]
    have : (1 : Int) + 1 = 2 := rfl
    rw [this]; omega
  have e : adjust_loops c r = (gain_body (adjust_start c r), true) := by
    unfold adjust_loops
    rw [lose_levels_exit c _ _ hlose, gain_levels_step c _ _ hgain,
      gain_levels_exit c _ _ hstop]
  rw [(adjust_level_fields c r).2.2.1, e]
  show (gain_body (adjust_start c r)).lev = 2
  rw [gain_body_lev, s3, hl]; rfl

/-! ## Level announcements: the claim -/

/-- C13: in one reconciliation started with `lev ≤ max_lev`, the personal
message (`msgt`) and the broadcast (`msg_broadcast`) are emitted exactly once
for each level above the entry `max_lev` up to the final level, in increasing
order, that is `max 0 (final lev - entry max_lev)` times and never for a level
at or below the entry `max_lev`; `history_add_unique` is called for exactly
those of these levels that are multiples of 5.  In particular from level 1,
`max_lev` 1 and experience 0, gaining `threshold(1)` experience with
`threshold(2) > threshold(1)` yields level 2, one message and one broadcast
(for level 2) and no history entry. -/
theorem adjust_level_announcements (c : Consts) (p : player) (h : p.lev ≤ p.max_lev) :
    (msgt_levels (adjust_level c p).trace =
        msgt_levels p.trace ++ level_range p.max_lev (adjust_level c p).lev ∧
      broadcast_levels (adjust_level c p).trace =
        broadcast_levels p.trace ++ level_range p.max_lev (adjust_level c p).lev ∧
      history_levels (adjust_level c p).trace =
        history_levels p.trace ++
          (level_range p.max_lev (adjust_level c p).lev).filter
            (fun l => decide (l % 5 = 0))) ∧
    ((level_range p.max_lev (adjust_level c p).lev).length =
        ((adjust_level c p).lev - p.max_lev).toNat ∧
      (level_range p.max_lev (adjust_level c p).lev).Nodup ∧
      ∀ l, l ∈ level_range p.max_lev (adjust_level c p).lev ↔
        p.max_lev < l ∧ l ≤ (adjust_level c p).lev) ∧
    (p.lev = 1 → p.max_lev = 1 → p.exp = 0 →
      c.adv_exp 1 p.expfact < c.adv_exp 2 p.expfact →
      0 ≤ c.adv_exp 1 p.expfact → c.adv_exp 1 p.expfact ≤ c.PY_MAX_EXP →
      c.PY_MAX_EXP ≤ 2147483647 → 2 ≤ c.PY_MAX_LEVEL →
      (player_exp_gain c p (c.adv_exp 1 p.expfact)).lev = 2 ∧
      msgt_levels (player_exp_gain c p (c.adv_exp 1 p.expfact)).trace =
        msgt_levels p.trace ++ [2] ∧
      broadcast_levels (player_exp_gain c p (c.adv_exp 1 p.expfact)).trace =
        broadcast_levels p.trace ++ [2] ∧
      history_levels (player_exp_gain c p (c.adv_exp 1 p.expfact)).trace =
        history_levels p.trace) := by
  refine ⟨adjust_level_new_levels c p h,
    ⟨length_level_range _ _, nodup_level_range _ _, fun l => mem_level_range _ _ l⟩, ?_⟩
  intro hl hm he hthr h0 hM hI hL
  obtain ⟨r1, _, r3, r4⟩ := exp_gain_raw_fields p (c.adv_exp 1 p.expfact)
  obtain ⟨r5, r6⟩ := exp_gain_raw_frame p (c.adv_exp 1 p.expfact)
  rw [he, zero_add, wrap32_eq _ (by omega) (by omega)] at r1
  have hlev : (adjust_level c (exp_gain_raw p (c.adv_exp 1 p.expfact))).lev = 2 :=
    adjust_level_first_level c _ (r3.trans hl) (by rw [r1, r4]) (by rw [r4]; exact hthr)
      (by rw [r4]; exact h0) (by rw [r4]; exact hM) hL
  obtain ⟨n1, n2, n3⟩ := adjust_level_new_levels c (exp_gain_raw p (c.adv_exp 1 p.expfact))
    (by rw [r3, r5]; omega)
  rw [hlev, r5, hm, r6] at n1 n2 n3
  have e12 : level_range 1 2 = [2] := by decide
  rw [e12] at n1 n2 n3
  unfold player_exp_gain
  refine ⟨hlev, n1, n2, ?_⟩
  rw [n3, show List.filter (fun l : Int => decide (l % 5 = 0)) [2] = [] by decide,
    List.append_nil]

/-- Witness of C13: the sample starting character gains `threshold(1)`
experience. -/
theorem adjust_level_announcements_witness :
    (player_exp_gain sample_consts sample_player 100).lev = 2 ∧
    msgt_levels (player_exp_gain sample_consts sample_player 100).trace = [2] ∧
    history_levels (player_exp_gain sample_consts sample_player 100).trace = [] :=
  have h := (adjust_level_announcements sample_consts sample_player (by decide)).2.2
    rfl rfl rfl (by decide) (by decide) (by decide) (by decide) (by decide)
  ⟨h.1, h.2.1, h.2.2.2⟩

/-! ## Interning registry: auxiliary lemmas -/

theorem quark_scan_spec (quarks : List (Option String)) (str : String) :
    ∀ (M : List String) (q : Nat), (∀ i, i < M.length → quarks[q + i]? = some M[i]?) →
      quark_scan quarks str M.length q =
        some (if str ∈ M then some (q + M.indexOf str) else none) := by
  intro M
  induction M with
  | nil => intro q _; simp [quark_scan]
  | cons t M ih =>
    intro q h
    have h0 : quarks[q]? = some (some t) := by
      have := h 0 (by simp)
      simpa using this
    have hrest : ∀ i, i < M.length → quarks[q + 1 + i]? = some M[i]? := by
      intro i hi
      have := h (i + 1) (by simp; omega)
      rw [List.getElem?_cons_succ] at this
      rw [← this]; congr 1; omega
    simp only [List.length_cons, quark_scan, h0]
    by_cases e : t = str
    · rw [if_pos e]
      subst e
      simp
    · rw [if_neg e, ih (q + 1) hrest]
      have hne : str ≠ t := fun h => e h.symm
      simp only [List.mem_cons, hne, false_or, List.indexOf_cons_ne _ e]
      split_ifs
      · congr 2; omega
      · rfl

theorem quarkAbs_init : QuarkAbs (quarks_init quark_static) [] := by
  refine ⟨by simp [quarks_init, QUARKS_INIT], ⟨0, by simp [quarks_init, QUARKS_INIT]⟩, rfl,
    by simp [quarks_init, quark_static, QUARKS_INIT], by simp [quarks_init, QUARKS_INIT],
    fun i hi => by simp at hi, List.nodup_nil⟩

theorem quarkAbs_scan (s : quark_state) (L : List String) (str : String) (h : QuarkAbs s L) :
    quark_scan s.quarks str (s.nr_quarks - 1) 1 =
      some (if str ∈ L then some (1 + L.indexOf str) else none) := by
  obtain ⟨_, _, h3, _, _, h6, _⟩ := h
  have e : s.nr_quarks - 1 = L.length := by omega
  rw [e]
  exact quark_scan_spec s.quarks str L 1 (fun i hi => by rw [Nat.add_comm]; exact h6 i hi)

/-- Interning a string that is present returns its handle and changes
nothing. -/
theorem quark_add_old (s : quark_state) (L : List String) (str : String) (h : QuarkAbs s L)
    (hm : str ∈ L) : quark_add s str = some (L.indexOf str + 1, s) := by
  unfold quark_add
  rw [quarkAbs_scan s L str h, if_pos hm, Nat.add_comm]

/-- Interning a new string stores it in the next slot, within the (possibly
doubled) capacity. -/
theorem quark_add_new (s : quark_state) (L : List String) (str : String) (h : QuarkAbs s L)
    (hm : str ∉ L) :
    ∃ t, quark_add s str = some (L.length + 1, t) ∧ QuarkAbs t (L ++ [str]) ∧
      t.nr_quarks = s.nr_quarks + 1 ∧
      (t.alloc_quarks = s.alloc_quarks ∨ t.alloc_quarks = 2 * s.alloc_quarks) := by
  have hscan := quarkAbs_scan s L str h
  obtain ⟨h1, ⟨k, hk⟩, h3, h4, h5, h6, h7⟩ := h
  have hpos : 0 < s.alloc_quarks := by rw [hk]; positivity
  rw [← h3]
  unfold quark_add
  rw [hscan, if_neg hm]
  dsimp only
  by_cases hfull : s.nr_quarks = s.alloc_quarks
  · simp only [hfull, if_true]
    have hre : mem_realloc s.quarks (s.alloc_quarks * 2) =
        s.quarks ++ List.replicate s.alloc_quarks none := by
      unfold mem_realloc
      rw [List.take_of_length_le (by omega), h1]
      congr 2; omega
    have hlen : (mem_realloc s.quarks (s.alloc_quarks * 2)).length = s.alloc_quarks * 2 := by
      rw [hre, List.length_append, List.length_replicate, h1]; omega
    rw [if_pos (by rw [hlen]; omega)]
    refine ⟨_, rfl, ⟨?_, ⟨k + 1, ?_⟩, ?_, ?_, ?_, ?_, ?_⟩, ?_, ?_⟩
    · simp only [List.length_set, hlen]
    · show s.alloc_quarks * 2 = 16 * 2 ^ (k + 1)
      rw [hk, pow_succ]; ring
    · show s.alloc_quarks + 1 = (L ++ [str]).length + 1
      rw [List.length_append, List.length_singleton]; omega
    · show s.alloc_quarks + 1 ≤ s.alloc_quarks * 2
      omega
    · show ((mem_realloc s.quarks (s.alloc_quarks * 2)).set s.alloc_quarks (some str))[0]? = _
      rw [List.getElem?_set_ne (by omega), hre, List.getElem?_append_left (by omega)]
      exact h5
    · intro i hi
      show ((mem_realloc s.quarks (s.alloc_quarks * 2)).set s.alloc_quarks (some str))[i + 1]? = _
      rw [List.length_append, List.length_singleton] at hi
      by_cases hi' : i < L.length
      · rw [List.getElem?_set_ne (by omega), hre, List.getElem?_append_left (by omega),
          List.getElem?_append_left hi']
        exact h6 i hi'
      · have : i = L.length := by omega
        subst this
        rw [show L.length + 1 = s.alloc_quarks by omega,
          List.getElem?_set_self (by rw [hlen]; omega)]
        simp
    · rw [List.nodup_append]
      exact ⟨h7, List.nodup_singleton _, by simpa using hm⟩
    · rfl
    · right; show s.alloc_quarks * 2 = 2 * s.alloc_quarks; omega
  · simp only [hfull, if_false]
    rw [if_pos (by rw [h1]; omega)]
    refine ⟨_, rfl, ⟨?_, ⟨k, hk⟩, ?_, ?_, ?_, ?_, ?_⟩, rfl, Or.inl rfl⟩
    · simp only [List.length_set, h1]
    · show s.nr_quarks + 1 = (L ++ [str]).length + 1
      rw [List.length_append, List.length_singleton]; omega
    · show s.nr_quarks + 1 ≤ s.alloc_quarks
      omega
    · show (s.quarks.set s.nr_quarks (some str))[0]? = _
      rw [List.getElem?_set_ne (by omega)]
      exact h5
    · intro i hi
      show (s.quarks.set s.nr_quarks (some str))[i + 1]? = _
      rw [List.length_append, List.length_singleton] at hi
      by_cases hi' : i < L.length
      · rw [List.getElem?_set_ne (by omega), List.getElem?_append_left hi']
        exact h6 i hi'
      · have : i = L.length := by omega
        subst this
        rw [show L.length + 1 = s.nr_quarks by omega, List.getElem?_set_self (by rw [h1]; omega)]
        simp
    · rw [List.nodup_append]
      exact ⟨h7, List.nodup_singleton _, by simpa using hm⟩

/-- What `quark_str` returns on a state that holds the strings `L`. -/
theorem quark_str_spec (s : quark_state) (L : List String) (q : Nat) (h : QuarkAbs s L) :
    quark_str s q = some (if q = 0 then none else L[q - 1]?) := by
  obtain ⟨_, _, h3, _, h5, h6, _⟩ := h
  unfold quark_str
  by_cases hq : q ≥ s.nr_quarks
  · rw [if_pos hq, if_neg (by omega), List.getElem?_eq_none (by omega)]
  · rw [if_neg hq]
    by_cases h0 : q = 0
    · rw [if_pos h0, h0]; exact h5
    · rw [if_neg h0]
      have := h6 (q - 1) (by omega)
      rwa [show q - 1 + 1 = q by omega] at this

theorem intern_list_prefix (xs : List String) :
    ∀ L : List String, ∃ E, intern_list L xs = L ++ E := by
  induction xs with
  | nil => intro L; exact ⟨[], by simp [intern_list]⟩
  | cons x xs ih =>
    intro L
    unfold intern_list
    by_cases hx : x ∈ L
    · rw [if_pos hx]; exact ih L
    · rw [if_neg hx]
      obtain ⟨E, hE⟩ := ih (L ++ [x])
      exact ⟨[x] ++ E, by rw [hE, List.append_assoc]⟩

theorem mem_intern_list_of_mem (xs : List String) :
    ∀ (L : List String) (x : String), x ∈ L ∨ x ∈ xs → x ∈ intern_list L xs := by
  induction xs with
  | nil => intro L x h; simpa [intern_list] using h
  | cons y ys ih =>
    intro L x h
    unfold intern_list
    apply ih
    by_cases hy : y ∈ L
    · rw [if_pos hy]
      rcases h with h | h
      · exact Or.inl h
      · rcases List.mem_cons.mp h with h | h
        · exact Or.inl (h ▸ hy)
        · exact Or.inr h
    · rw [if_neg hy]
      rcases h with h | h
      · exact Or.inl (List.mem_append_left _ h)
      · rcases List.mem_cons.mp h with h | h
        · exact Or.inl (by rw [h]; simp)
        · exact Or.inr h

theorem mem_of_mem_intern_list (xs : List String) :
    ∀ (L : List String) (x : String), x ∈ intern_list L xs → x ∈ L ∨ x ∈ xs := by
  induction xs with
  | nil => intro L x h; left; simpa [intern_list] using h
  | cons y ys ih =>
    intro L x h
    unfold intern_list at h
    rcases ih _ x h with h | h
    · by_cases hy : y ∈ L
      · rw [if_pos hy] at h; exact Or.inl h
      · rw [if_neg hy] at h
        rcases List.mem_append.mp h with h | h
        · exact Or.inl h
        · right; simp at h; simp [h]
    · exact Or.inr (List.mem_cons_of_mem _ h)

/-- One call of `quark_add` on a state that holds the strings `L`: it never
faults, returns the position of the string in the (possibly extended) list,
and changes nothing when the string was present. -/
theorem quark_add_total (s : quark_state) (L : List String) (str : String)
    (h : QuarkAbs s L) :
    ∃ t, quark_add s str =
        some ((if str ∈ L then L else L ++ [str]).indexOf str + 1, t) ∧
      QuarkAbs t (if str ∈ L then L else L ++ [str]) ∧
      str ∈ (if str ∈ L then L else L ++ [str]) ∧ (str ∈ L → t = s) := by
  by_cases hm : str ∈ L
  · simp only [if_pos hm]
    exact ⟨s, quark_add_old s L str h hm, h, hm, fun _ => rfl⟩
  · simp only [if_neg hm]
    obtain ⟨t, e, ht, _⟩ := quark_add_new s L str h hm
    refine ⟨t, ?_, ht, by simp, fun h' => absurd h' hm⟩
    rw [e, List.indexOf_append_of_not_mem hm]
    simp

/-- A run of `quark_add` calls on a state that holds the strings `L`: it never
faults, and each call returns the position of its string in the final list. -/
theorem quark_adds_spec (strs : List String) :
    ∀ (s : quark_state) (L : List String), QuarkAbs s L →
      ∃ t, quark_adds s strs =
          some (strs.map (fun x => (intern_list L strs).indexOf x + 1), t) ∧
        QuarkAbs t (intern_list L strs) := by
  induction strs with
  | nil => intro s L h; exact ⟨s, rfl, h⟩
  | cons x xs ih =>
    intro s L h
    obtain ⟨t, e, ht, hx, _⟩ := quark_add_total s L x h
    obtain ⟨u, eu, hu⟩ := ih t _ ht
    obtain ⟨E, hE⟩ := intern_list_prefix xs (if x ∈ L then L else L ++ [x])
    refine ⟨u, ?_, hu⟩
    simp only [quark_adds, e, eu, List.map_cons]
    have : intern_list L (x :: xs) = intern_list (if x ∈ L then L else L ++ [x]) xs := rfl
    rw [this, hE, List.indexOf_append_of_mem hx]

/-- The states reachable from `quarks_init` hold a duplicate-free list of
strings. -/
theorem quark_reachable (strs : List String) :
    ∃ s, quark_adds (quarks_init quark_static) strs =
        some (strs.map (fun x => (intern_list [] strs).indexOf x + 1), s) ∧
      QuarkAbs s (intern_list [] strs) :=
  quark_adds_spec strs _ _ quarkAbs_init

/-! ## Interning registry: the claims -/

/-- C14: in every state reached from `quarks_init` by `quark_add` calls
(`strs`), interning `s1`, then any strings `mid`, then `s2` never faults and
returns equal handles iff `s1 = s2`; interning `s1` again, right away or after
`mid`, returns the same handle and leaves the registry unchanged. -/
theorem quark_add_same_iff_equal (strs mid : List String) (s1 s2 : String) :
    ∃ hs s h1 t hm t' h2 u,
      quark_adds (quarks_init quark_static) strs = some (hs, s) ∧
      quark_add s s1 = some (h1, t) ∧
      quark_adds t mid = some (hm, t') ∧
      quark_add t' s2 = some (h2, u) ∧
      (h1 = h2 ↔ s1 = s2) ∧
      quark_add t s1 = some (h1, t) ∧
      quark_add t' s1 = some (h1, t') := by
  obtain ⟨s, e0, a0⟩ := quark_reachable strs
  obtain ⟨t, e1, a1, m1, _⟩ := quark_add_total s _ s1 a0
  obtain ⟨t', e2, a2⟩ := quark_adds_spec mid t _ a1
  obtain ⟨u, e3, _, m3, _⟩ := quark_add_total t' _ s2 a2
  obtain ⟨E, hE⟩ := intern_list_prefix mid
    (if s1 ∈ intern_list [] strs then intern_list [] strs else intern_list [] strs ++ [s1])
  -- abbreviations for the three string lists
  generalize hL1 : (if s1 ∈ intern_list [] strs then intern_list [] strs
    else intern_list [] strs ++ [s1]) = L1 at *
  generalize hL2 : intern_list L1 mid = L2 at *
  have m2 : s1 ∈ L2 := by rw [hE]; exact List.mem_append_left _ m1
  have i12 : L2.indexOf s1 = L1.indexOf s1 := by
    rw [hE]; exact List.indexOf_append_of_mem m1
  refine ⟨_, s, _, t, _, t', _, u, e0, e1, e2, e3, ?_, ?_, ?_⟩
  · by_cases hm2 : s2 ∈ L2
    · simp only [if_pos hm2]
      rw [← i12]
      constructor
      · intro h
        exact (List.indexOf_inj m2 hm2).mp (by omega)
      · intro h; rw [h]
    · simp only [if_neg hm2]
      have i3 : (L2 ++ [s2]).indexOf s1 = L1.indexOf s1 := by
        rw [List.indexOf_append_of_mem m2, i12]
      rw [← i3]
      constructor
      · intro h
        exact (List.indexOf_inj (l := L2 ++ [s2]) (List.mem_append_left _ m2)
          (by simp)).mp (by omega)
      · intro h; rw [h]
  · exact quark_add_old t L1 s1 a1 m1
  · rw [← i12]
    exact quark_add_old t' L2 s1 a2 m2

/-- C15: in every reachable state, `quark_str` of the handle `quark_add`
returns for `str` is `str`; after any further `quark_add` calls (`more`)
`quark_str` of that handle is still `str`, also when the capacity has been
doubled (more than 15 strings held, capacity at least 32); a later call
returns that handle only for `str` itself. -/
theorem quark_str_round_trip (strs more : List String) (str : String) :
    ∃ (hs : List Nat) (s : quark_state) (h : Nat) (t : quark_state) (hm : List Nat)
        (t' : quark_state),
      quark_adds (quarks_init quark_static) strs = some (hs, s) ∧
      quark_add s str = some (h, t) ∧
      quark_str t h = some (some str) ∧
      quark_adds t more = some (hm, t') ∧
      quark_str t' h = some (some str) ∧
      (16 < t'.nr_quarks → 32 ≤ t'.alloc_quarks) ∧
      (∀ (i : Nat) (x : String) (q : Nat),
        more[i]? = some x → hm[i]? = some q → (q = h ↔ x = str)) ∧
      (∀ str2 h2 u, quark_add t' str2 = some (h2, u) → (h2 = h ↔ str2 = str)) := by
  obtain ⟨s, e0, a0⟩ := quark_reachable strs
  obtain ⟨t, e1, a1, m1, _⟩ := quark_add_total s _ str a0
  obtain ⟨t', e2, a2⟩ := quark_adds_spec more t _ a1
  obtain ⟨E, hE⟩ := intern_list_prefix more
    (if str ∈ intern_list [] strs then intern_list [] strs else intern_list [] strs ++ [str])
  generalize hL1 : (if str ∈ intern_list [] strs then intern_list [] strs
    else intern_list [] strs ++ [str]) = L1 at *
  generalize hL2 : intern_list L1 more = L2 at *
  have m2 : str ∈ L2 := by rw [hE]; exact List.mem_append_left _ m1
  have i12 : L2.indexOf str = L1.indexOf str := by
    rw [hE]; exact List.indexOf_append_of_mem m1
  refine ⟨_, s, _, t, _, t', e0, e1, ?_, e2, ?_, ?_, ?_, ?_⟩
  · rw [quark_str_spec t L1 _ a1, if_neg (by omega), Nat.add_sub_cancel,
      List.getElem?_indexOf m1]
  · rw [quark_str_spec t' L2 _ a2, if_neg (by omega), Nat.add_sub_cancel, ← i12,
      List.getElem?_indexOf m2]
  · obtain ⟨_, ⟨k, hk⟩, _, h4, _⟩ := a2
    intro h16
    rcases k with _ | k
    · simp at hk; omega
    · rw [hk, pow_succ]
      have : 1 ≤ 2 ^ k := Nat.one_le_two_pow
      omega
  · intro i x q hx hq
    rw [List.getElem?_map, hx] at hq
    simp only [Option.map_some', Option.some.injEq] at hq
    have mx : x ∈ L2 := by
      rw [← hL2]
      exact mem_intern_list_of_mem more L1 x (Or.inr (List.getElem?_mem hx))
    rw [← hq, ← i12]
    constructor
    · intro h; exact (List.indexOf_inj mx m2).mp (by omega)
    · intro h; rw [h]
  · intro str2 h2 u hadd
    obtain ⟨u', e3, _, m3, _⟩ := quark_add_total t' L2 str2 a2
    rw [e3] at hadd
    simp only [Option.some.injEq, Prod.mk.injEq] at hadd
    rw [← hadd.1, ← i12]
    by_cases hm2 : str2 ∈ L2
    · simp only [if_pos hm2]
      constructor
      · intro h; exact (List.indexOf_inj hm2 m2).mp (by omega)
      · intro h; rw [h]
    · simp only [if_neg hm2]
      rw [← @List.indexOf_append_of_mem String L2 [str2] _ str m2]
      constructor
      · intro h
        exact (List.indexOf_inj (l := L2 ++ [str2]) (by simp)
          (List.mem_append_left _ m2)).mp (by omega)
      · intro h; rw [h]

/-- C16: in every reachable state `quark_str q` returns a string iff `q` is
one of the handles `quark_add` returned; every such handle is at least 1;
`quark_str 0` and `quark_str q` for `q` at or beyond `nr_quarks` (hence also
beyond the capacity) return "no string"; and `quark_str` never reads outside
the array. -/
theorem quark_str_defined_iff (strs : List String) :
    ∃ hs s,
      quark_adds (quarks_init quark_static) strs = some (hs, s) ∧
      (∀ q, (∃ str, quark_str s q = some (some str)) ↔ q ∈ hs) ∧
      (∀ h ∈ hs, 1 ≤ h) ∧
      quark_str s 0 = some none ∧
      (∀ q, s.nr_quarks ≤ q → quark_str s q = some none) ∧
      (∀ q, s.alloc_quarks ≤ q → quark_str s q = some none) ∧
      (∀ q, ∃ r, quark_str s q = some r) := by
  obtain ⟨s, e0, a0⟩ := quark_reachable strs
  have hstr := fun q => quark_str_spec s _ q a0
  obtain ⟨_, _, h3, h4, _, _, h7⟩ := a0
  refine ⟨_, s, e0, fun q => ?_, ?_, ?_, fun q hq => ?_, fun q hq => ?_, fun q => ⟨_, hstr q⟩⟩
  · rw [hstr q, List.mem_map]
    constructor
    · rintro ⟨str, hq⟩
      by_cases h0 : q = 0
      · rw [if_pos h0] at hq; simp at hq
      · rw [if_neg h0] at hq
        simp only [Option.some.injEq] at hq
        obtain ⟨hlt, hget⟩ := List.getElem?_eq_some.mp hq
        have hmem : str ∈ intern_list [] strs := List.getElem?_mem hq
        have hin : str ∈ strs := by
          rcases mem_of_mem_intern_list strs [] str hmem with h | h
          · simp at h
          · exact h
        refine ⟨str, hin, ?_⟩
        rw [← hget, List.indexOf_getElem h7]
        omega
    · rintro ⟨x, hx, rfl⟩
      have mx : x ∈ intern_list [] strs := mem_intern_list_of_mem strs [] x (Or.inr hx)
      exact ⟨x, by rw [if_neg (by omega), Nat.add_sub_cancel, List.getElem?_indexOf mx]⟩
  · intro h hh
    obtain ⟨x, _, rfl⟩ := List.mem_map.mp hh
    omega
  · rw [hstr 0, if_pos rfl]
  · unfold quark_str; rw [if_pos hq]
  · unfold quark_str; rw [if_pos (by omega)]

/-! ## Player registry: auxiliary lemmas -/

theorem player_set_out_of_range {ρ : Type} (M : Int) (r : registry ρ) (id : Int)
    (p : Option ρ) (h : ¬ (id > 0 ∧ id < M)) : player_set M r id p = r := by
  unfold player_set; rw [if_neg h]

theorem player_set_Players {ρ : Type} (M : Int) (r : registry ρ) (id : Int) (p : Option ρ)
    (h : id > 0 ∧ id < M) :
    (player_set M r id p).Players = Function.update r.Players id p := by
  unfold player_set; rw [if_pos h]

theorem player_set_NumPlayers {ρ : Type} (M : Int) (r : registry ρ) (id : Int)
    (p : Option ρ) : (player_set M r id p).NumPlayers = r.NumPlayers := by
  unfold player_set; split_ifs <;> rfl

/-- Slots outside `(0, MAX_PLAYERS)` are never written. -/
theorem player_set_outside {ρ : Type} (M : Int) (r : registry ρ) (id : Int) (p : Option ρ)
    (k : Int) (hk : ¬ (k > 0 ∧ k < M)) : (player_set M r id p).Players k = r.Players k := by
  by_cases h : id > 0 ∧ id < M
  · rw [player_set_Players M r id p h, Function.update_noteq]
    intro e; rw [e] at hk; exact hk h
  · rw [player_set_out_of_range M r id p h]

theorem player_sets_outside {ρ : Type} (M : Int) (ops : List (Int × Option ρ)) :
    ∀ (r : registry ρ) (k : Int), ¬ (k > 0 ∧ k < M) →
      (player_sets M r ops).Players k = r.Players k := by
  induction ops with
  | nil => intro r k _; rfl
  | cons op rest ih =>
    intro r k hk
    show (player_sets M (player_set M r op.1 op.2) rest).Players k = _
    rw [ih _ k hk, player_set_outside M r op.1 op.2 k hk]

/-! ## Player registry: the claims -/

/-- C17: for `1 ≤ id < MAX_PLAYERS` and every player reference `p` (NULL
included), `player_get id` after `player_set id p` returns `p`, and
`player_get j` for `j ≠ id` returns what it returned before; so after setting
the slot to NULL the lookup returns NULL, and after `init_players` the lookup
returns NULL for every id. -/
theorem player_get_set {ρ : Type} (M : Int) (r : registry ρ) (id : Int) (p : Option ρ)
    (h1 : 1 ≤ id) (h2 : id < M) :
    player_get M (player_set M r id p) id = p ∧
    (∀ j, j ≠ id → player_get M (player_set M r id p) j = player_get M r j) ∧
    player_get M (player_set M r id none) id = none ∧
    (∀ j, player_get M (init_players r) j = none) := by
  have h : id > 0 ∧ id < M := ⟨by omega, h2⟩
  refine ⟨?_, fun j hj => ?_, ?_, fun j => ?_⟩
  · unfold player_get
    rw [if_pos h, player_set_Players M r id p h, Function.update_same]
  · unfold player_get
    rw [player_set_Players M r id p h, Function.update_noteq hj]
  · unfold player_get
    rw [if_pos h, player_set_Players M r id none h, Function.update_same]
  · unfold player_get init_players
    split_ifs <;> rfl

/-- Witness of C17: slot 1 of the sample registry. -/
theorem player_get_set_witness :
    player_get 4 (player_set 4 sample_registry 1 (some 42)) 1 = some 42 :=
  (player_get_set 4 sample_registry 1 (some 42) (by decide) (by decide)).1

/-- C18: `player_set id p` with `id` outside `[1, MAX_PLAYERS)` (slot 0
included) leaves the registry unchanged, and `player_get` of such an id
returns NULL in every state; so in every state reached from `init_players` by
`player_set` calls slot 0, like every slot outside `[1, MAX_PLAYERS)`, is
empty. -/
theorem player_set_rejects_slot_zero {ρ : Type} (M : Int) (r : registry ρ) (id : Int)
    (p : Option ρ) (h : id ≤ 0 ∨ M ≤ id) :
    player_set M r id p = r ∧
    (∀ r' : registry ρ, player_get M r' id = none) ∧
    (∀ ops : List (Int × Option ρ),
      (player_sets M (init_players r) ops).Players 0 = none ∧
      (player_sets M (init_players r) ops).Players id = none ∧
      player_get M (player_sets M (init_players r) ops) 0 = none) := by
  have hn : ¬ (id > 0 ∧ id < M) := by omega
  refine ⟨player_set_out_of_range M r id p hn, fun r' => ?_, fun ops => ⟨?_, ?_, ?_⟩⟩
  · unfold player_get; rw [if_neg hn]
  · rw [player_sets_outside M ops _ 0 (by omega)]; rfl
  · rw [player_sets_outside M ops _ id hn]; rfl
  · unfold player_get; rw [if_neg (by omega)]

/-- Witness of C18: slot 0 of the sample registry. -/
theorem player_set_rejects_slot_zero_witness :
    player_set 4 sample_registry 0 (some 42) = sample_registry :=
  (player_set_rejects_slot_zero 4 sample_registry 0 (some 42) (Or.inl (by decide))).1

/-- Counting over `0 .. n-1` two predicates that differ at most at `k`. -/
theorem countP_range_update (f g : Nat → Bool) (k : Nat) (hfg : ∀ i, i ≠ k → g i = f i) :
    ∀ n, k < n →
      (List.range n).countP g + (if f k then 1 else 0) =
        (List.range n).countP f + (if g k then 1 else 0) := by
  intro n
  induction n with
  | zero => intro h; omega
  | succ n ih =>
    intro hk
    rw [List.range_succ, List.countP_append, List.countP_append]
    simp only [List.countP_cons, List.countP_nil, Nat.zero_add]
    by_cases hkn : k = n
    · subst hkn
      have e : (List.range k).countP g = (List.range k).countP f := by
        apply List.countP_congr
        intro i hi
        rw [hfg i (by rw [List.mem_range] at hi; omega)]
      rw [e]; omega
    · have := ih (by omega)
      rw [hfg n (fun e => hkn e.symm)]
      omega

/-- The effect of `player_set` on the number of occupied slots. -/
theorem occupied_player_set {ρ : Type} (M : Int) (r : registry ρ) (id : Int) (p : Option ρ)
    (h1 : 1 ≤ id) (h2 : id < M) :
    occupied M (player_set M r id p) + (if (r.Players id).isSome then 1 else 0) =
      occupied M r + (if p.isSome then 1 else 0) := by
  have h : id > 0 ∧ id < M := ⟨by omega, h2⟩
  unfold occupied
  rw [player_set_Players M r id p h]
  have key := countP_range_update
    (fun i : Nat => (r.Players (i : Int)).isSome)
    (fun i : Nat => (Function.update r.Players id p (i : Int)).isSome)
    id.toNat
    (fun i hi => by
      have : (i : Int) ≠ id := by omega
      simp only [Function.update_noteq this])
    M.toNat (by omega)
  have e : ((id.toNat : Nat) : Int) = id := by omega
  dsimp only at key
  rw [e, Function.update_same] at key
  exact key

/-- C19, counterexample: after `init_players` with `NumPlayers = 0` the
counter equals the number of occupied slots; registering a player in slot 1
with `player_set` makes one slot occupied while `NumPlayers` is still 0; and
clearing the only occupied slot of a registry with `NumPlayers = 1` leaves
`NumPlayers` at 1 with no slot occupied. -/
theorem num_players_counterexample :
    ((occupied 4 sample_registry : Int) = sample_registry.NumPlayers ∧
      (occupied 4 (player_set 4 sample_registry 1 (some 42)) : Int) = 1 ∧
      (player_set 4 sample_registry 1 (some 42)).NumPlayers = 0) ∧
    ((occupied 4 one_player_registry : Int) = one_player_registry.NumPlayers ∧
      (occupied 4 (player_set 4 one_player_registry 1 none) : Int) = 0 ∧
      (player_set 4 one_player_registry 1 none).NumPlayers = 1) := by
  decide

/-- C19 (as amended): `player_set` never changes `NumPlayers`; for
`1 ≤ id < MAX_PLAYERS` it changes the number of occupied slots by the
occupancy of the new value minus the occupancy of the old one, so registering
into an empty slot raises the count by exactly one and clearing an occupied
slot lowers it by exactly one. -/
theorem player_set_occupancy {ρ : Type} (M : Int) (r : registry ρ) (id : Int)
    (p : Option ρ) (h1 : 1 ≤ id) (h2 : id < M) :
    (player_set M r id p).NumPlayers = r.NumPlayers ∧
    occupied M (player_set M r id p) + (if (r.Players id).isSome then 1 else 0) =
      occupied M r + (if p.isSome then 1 else 0) ∧
    (r.Players id = none → ∀ q : ρ,
      occupied M (player_set M r id (some q)) = occupied M r + 1) ∧
    ((r.Players id).isSome = true →
      occupied M (player_set M r id none) + 1 = occupied M r) := by
  refine ⟨player_set_NumPlayers M r id p, occupied_player_set M r id p h1 h2,
    fun he q => ?_, fun he => ?_⟩
  · have := occupied_player_set M r id (some q) h1 h2
    rw [he] at this
    simpa using this
  · have := occupied_player_set M r id none h1 h2
    rw [he] at this
    simpa using this

/-- Witness of C19: clearing slot 1 of the one-player sample registry. -/
theorem player_set_occupancy_witness :
    occupied 4 (player_set 4 one_player_registry 1 none) + 1 =
      occupied 4 one_player_registry :=
  (player_set_occupancy 4 one_player_registry 1 none (by decide) (by decide)).2.2.2
    (by decide)

/-- The loop of `player_from_id` over occupied slots `i .. i + n - 1` below
`MAX_PLAYERS`: it never reads through NULL and returns the player of the
first slot whose id matches, or NULL when there is none. -/
theorem player_from_id_loop_spec {ρ : Type} (M : Int) (id_of : ρ → Int) (r : registry ρ)
    (uid : Int) :
    ∀ (n : Nat) (i : Int), 1 ≤ i → (∀ j, i ≤ j → j < i + n → j < M) →
      (∀ j, i ≤ j → j < i + n → ∃ p, r.Players j = some p) →
      ∃ res, player_from_id_loop M id_of r uid n i = some res ∧
        (∀ p, res = some p →
          ∃ j, i ≤ j ∧ j < i + n ∧ r.Players j = some p ∧ id_of p = uid ∧
            ∀ k, i ≤ k → k < j → ∀ p', r.Players k = some p' → id_of p' ≠ uid) ∧
        (res = none →
          ∀ j, i ≤ j → j < i + n → ∀ p, r.Players j = some p → id_of p ≠ uid) := by
  intro n
  induction n with
  | zero =>
    intro i _ _ _
    refine ⟨none, rfl, fun p h => by simp at h, fun _ j h1 h2 => ?_⟩
    simp only [Nat.cast_zero, add_zero] at h2
    omega
  | succ n ih =>
    intro i hi hM hocc
    obtain ⟨p, hp⟩ := hocc i (le_refl _) (by push_cast; omega)
    have hget : player_get M r i = some p := by
      unfold player_get
      rw [if_pos ⟨by omega, hM i (le_refl _) (by push_cast; omega)⟩, hp]
    simp only [player_from_id_loop, hget]
    by_cases hid : uid = id_of p
    · rw [if_pos hid]
      refine ⟨some p, rfl, fun p' h => ?_, fun h => by simp at h⟩
      simp only [Option.some.injEq] at h
      subst h
      exact ⟨i, le_refl _, by push_cast; omega, hp, hid.symm, fun k h1 h2 => by omega⟩
    · rw [if_neg hid]
      obtain ⟨res, e, r1, r2⟩ := ih (i + 1) (by omega)
        (fun j h1 h2 => hM j (by omega) (by push_cast; omega))
        (fun j h1 h2 => hocc j (by omega) (by push_cast; omega))
      refine ⟨res, e, fun p' h => ?_, fun h j h1 h2 p' hp' => ?_⟩
      · obtain ⟨j, j1, j2, j3, j4, j5⟩ := r1 p' h
        refine ⟨j, by omega, by push_cast; omega, j3, j4, fun k k1 k2 p'' hp'' => ?_⟩
        by_cases hk : k = i
        · rw [hk, hp] at hp''
          simp only [Option.some.injEq] at hp''
          rw [← hp'']
          exact fun e => hid e.symm
        · exact j5 k (by omega) k2 p'' hp''
      · by_cases hj : j = i
        · rw [hj, hp] at hp'
          simp only [Option.some.injEq] at hp'
          rw [← hp']
          exact fun e => hid e.symm
        · exact r2 h j (by omega) (by push_cast at h2; omega) p' hp'

/-! ## Lookup by permanent id: the claim -/

/-- C20: when all slots `1 .. NumPlayers` are occupied and
`NumPlayers < MAX_PLAYERS`, `player_from_id uid` never reads through an
empty slot; it returns a player `p` iff `p` sits in the lowest slot of
`1 .. NumPlayers` whose player has permanent id `uid`, and NULL iff no player
in these slots has that id; whichever slot the only player with that id
occupies, that player is returned. -/
theorem player_from_id_spec {ρ : Type} (M : Int) (id_of : ρ → Int) (r : registry ρ)
    (uid : Int) (hN : r.NumPlayers < M)
    (hocc : ∀ i, 1 ≤ i → i ≤ r.NumPlayers → ∃ p, r.Players i = some p) :
    ∃ res, player_from_id M id_of r uid = some res ∧
      (∀ p, res = some p ↔
        ∃ j, 1 ≤ j ∧ j ≤ r.NumPlayers ∧ r.Players j = some p ∧ id_of p = uid ∧
          ∀ k, 1 ≤ k → k < j → ∀ p', r.Players k = some p' → id_of p' ≠ uid) ∧
      (res = none ↔
        ∀ j, 1 ≤ j → j ≤ r.NumPlayers → ∀ p, r.Players j = some p → id_of p ≠ uid) ∧
      (∀ p j, 1 ≤ j → j ≤ r.NumPlayers → r.Players j = some p → id_of p = uid →
        (∀ k p', 1 ≤ k → k ≤ r.NumPlayers → r.Players k = some p' → id_of p' = uid →
          p' = p) →
        res = some p) := by
  obtain ⟨res, e, r1, r2⟩ := player_from_id_loop_spec M id_of r uid r.NumPlayers.toNat 1
    (le_refl _) (fun j h1 h2 => by omega) (fun j h1 h2 => hocc j h1 (by omega))
  have first : ∀ p, res = some p →
      ∃ j, 1 ≤ j ∧ j ≤ r.NumPlayers ∧ r.Players j = some p ∧ id_of p = uid ∧
        ∀ k, 1 ≤ k → k < j → ∀ p', r.Players k = some p' → id_of p' ≠ uid := by
    intro p h
    obtain ⟨j, j1, j2, j3, j4, j5⟩ := r1 p h
    exact ⟨j, j1, by omega, j3, j4, j5⟩
  have nohit : res = none →
      ∀ j, 1 ≤ j → j ≤ r.NumPlayers → ∀ p, r.Players j = some p → id_of p ≠ uid :=
    fun h j h1 h2 => r2 h j h1 (by omega)
  have found : ∀ p j, 1 ≤ j → j ≤ r.NumPlayers → r.Players j = some p → id_of p = uid →
      ∃ p', res = some p' := by
    intro p j h1 h2 h3 h4
    cases hres : res with
    | none => exact absurd h4 (nohit hres j h1 h2 p h3)
    | some p' => exact ⟨p', rfl⟩
  refine ⟨res, e, fun p => ⟨first p, ?_⟩, ⟨nohit, ?_⟩, ?_⟩
  · rintro ⟨j, j1, j2, j3, j4, j5⟩
    obtain ⟨p', hp'⟩ := found p j j1 j2 j3 j4
    obtain ⟨j', k1, k2, k3, k4, k5⟩ := first p' hp'
    have hjj : j' = j := by
      rcases lt_trichotomy j' j with hlt | heq | hgt
      · exact absurd k4 (j5 j' k1 hlt p' k3)
      · exact heq
      · exact absurd j4 (k5 j j1 hgt p j3)
    rw [hjj, j3] at k3
    rw [hp']; exact k3.symm
  · intro h
    cases hres : res with
    | none => rfl
    | some p' =>
      obtain ⟨j, j1, j2, j3, j4, _⟩ := first p' hres
      exact absurd j4 (h j j1 j2 p' j3)
  · intro p j j1 j2 j3 j4 huniq
    obtain ⟨p', hp'⟩ := found p j j1 j2 j3 j4
    obtain ⟨j', k1, k2, k3, k4, _⟩ := first p' hp'
    rw [hp', huniq j' p' k1 k2 k3 k4]

/-- Witness of C20: looking up the id 42 in the one-player sample registry. -/
theorem player_from_id_spec_witness :
    ∃ res, player_from_id 4 (fun p : Int => p) one_player_registry 42 = some res ∧
      (res = none ↔ ∀ j, 1 ≤ j → j ≤ one_player_registry.NumPlayers →
        ∀ p, one_player_registry.Players j = some p → p ≠ 42) :=
  match player_from_id_spec 4 (fun p : Int => p) one_player_registry 42 (by decide)
    (fun i h1 h2 => ⟨42, by
      have hi : i = 1 := le_antisymm h2 h1
      rw [hi]; rfl⟩) with
  | ⟨res, h1, _, h3, _⟩ => ⟨res, h1, h3⟩

/-! ## Level reconciliation flags: auxiliary lemmas -/

/-- The level-losing loop either does not run, or lowers the level, sets the
local `redraw` and leaves the experience below the threshold of the level it
ends at. -/
theorem lose_levels_flag (c : Consts) (p : player) (redraw : Bool) :
    lose_levels c p redraw = (p, redraw) ∨
    ((lose_levels c p redraw).1.lev < p.lev ∧ (lose_levels c p redraw).2 = true ∧
      (lose_levels c p redraw).1.exp <
        c.adv_exp (lose_levels c p redraw).1.lev (lose_levels c p redraw).1.expfact) := by
  induction p, redraw using lose_levels.induct c with
  | case1 p redraw h ih =>
    right
    obtain ⟨b1, _, b3, b4⟩ := lose_body_fields p
    rw [lose_levels_step c p redraw h]
    rcases ih with e | ⟨e1, e2, e3⟩
    · have e' : lose_levels c (lose_body p) true = (lose_body p, true) := e
      rw [e']
      refine ⟨?_, rfl, ?_⟩
      · show (lose_body p).lev < p.lev
        rw [lose_body_lev]; omega
      · show (lose_body p).exp < c.adv_exp (lose_body p).lev (lose_body p).expfact
        rw [lose_body_lev]
        unfold lose_body
        rw [b1, b4]
        exact h.2
    · refine ⟨?_, e2, e3⟩
      have : (lose_body p).lev = p.lev - 1 := lose_body_lev p
      have e1' : (lose_levels c (lose_body p) true).1.lev < (lose_body p).lev := e1
      omega
  | case2 p redraw h =>
    left
    exact lose_levels_exit c p redraw h

/-- The level-gaining loop either does not run, or raises the level and sets
the local `redraw`. -/
theorem gain_levels_flag (c : Consts) (p : player) (redraw : Bool) :
    gain_levels c p redraw = (p, redraw) ∨
    (p.lev < (gain_levels c p redraw).1.lev ∧ (gain_levels c p redraw).2 = true) := by
  induction p, redraw using gain_levels.induct c with
  | case1 p redraw h ih =>
    right
    rw [gain_levels_step c p redraw h]
    have hl : (gain_body p).lev = p.lev + 1 := gain_body_lev p
    rcases ih with e | ⟨e1, e2⟩
    · have e' : gain_levels c (gain_body p) true = (gain_body p, true) := e
      rw [e']
      exact ⟨by show p.lev < (gain_body p).lev; omega, rfl⟩
    · have e1' : (gain_body p).lev < (gain_levels c (gain_body p) true).1.lev := e1
      exact ⟨by omega, e2⟩
  | case2 p redraw h =>
    left
    exact gain_levels_exit c p redraw h

/-- Neither loop touches the two dirty-flag words. -/
theorem lose_levels_dirty (c : Consts) (p : player) (redraw : Bool) :
    (lose_levels c p redraw).1.update = p.update ∧
    (lose_levels c p redraw).1.redraw = p.redraw :=
  (lose_levels_rule c (fun q => q.update = p.update ∧ q.redraw = p.redraw)
    (fun q _ hq => by
      obtain ⟨_, _, _, _, _, a, b⟩ := perm_shape_fields { q with lev := q.lev - 1 }
      exact ⟨a.trans hq.1, b.trans hq.2⟩)
    p redraw ⟨rfl, rfl⟩).1

theorem gain_levels_dirty (c : Consts) (p : player) (redraw : Bool) :
    (gain_levels c p redraw).1.update = p.update ∧
    (gain_levels c p redraw).1.redraw = p.redraw :=
  (gain_levels_rule c (fun q => q.update = p.update ∧ q.redraw = p.redraw)
    (fun q _ hq => by
      obtain ⟨_, _, _, _, _, a, b⟩ := perm_shape_fields { q with lev := q.lev + 1 }
      obtain ⟨_, _, _, _, a', b'⟩ := new_max_lev_fields (perm_shape { q with lev := q.lev + 1 })
      exact ⟨(a'.trans a).trans hq.1, (b'.trans b).trans hq.2⟩)
    p redraw ⟨rfl, rfl⟩).1

theorem clamp_exp_dirty (c : Consts) (p : player) :
    (clamp_exp c p).update = p.update ∧ (clamp_exp c p).redraw = p.redraw := by
  unfold clamp_exp
  by_cases h1 : p.exp < 0 <;> by_cases h2 : p.max_exp < 0 <;>
    simp only [h1, h2, if_true, if_false] <;>
    split_ifs <;> exact ⟨rfl, rfl⟩

theorem adjust_start_dirty (c : Consts) (p : player) :
    (adjust_start c p).update = p.update ∧
    (adjust_start c p).redraw = p.redraw ||| c.PR_EXP := by
  obtain ⟨a, b⟩ := clamp_exp_dirty c p
  exact ⟨a, by show (clamp_exp c p).redraw ||| c.PR_EXP = _; rw [b]⟩

/-- The dirty-flag words after `adjust_level`, by the local `redraw`. -/
theorem adjust_level_dirty (c : Consts) (p : player) :
    ((adjust_loops c p).2 = true →
      (adjust_level c p).update =
        (adjust_loops c p).1.update ||| (c.PU_BONUS ||| c.PU_SPELLS ||| c.PU_MONSTERS) ∧
      (adjust_level c p).redraw =
        (adjust_loops c p).1.redraw |||
          (c.PR_LEV ||| c.PR_TITLE ||| c.PR_EXP ||| c.PR_STATS ||| c.PR_SPELL |||
            c.PR_PLUSSES)) ∧
    ((adjust_loops c p).2 = false →
      (adjust_level c p).update = (adjust_loops c p).1.update ∧
      (adjust_level c p).redraw = (adjust_loops c p).1.redraw) := by
  have r : adjust_level c p =
      update_stuff (if (adjust_loops c p).2 then
        { (adjust_loops c p).1 with
          update := (adjust_loops c p).1.update ||| (c.PU_BONUS ||| c.PU_SPELLS ||| c.PU_MONSTERS)
          redraw := (adjust_loops c p).1.redraw |||
            (c.PR_LEV ||| c.PR_TITLE ||| c.PR_EXP ||| c.PR_STATS ||| c.PR_SPELL ||| c.PR_PLUSSES)
          trace := (adjust_loops c p).1.trace ++ [Event.set_redraw_equip] }
        else (adjust_loops c p).1) := rfl
  rw [r]
  constructor
  · intro h; rw [h]; exact ⟨rfl, rfl⟩
  · intro h; rw [h]; exact ⟨rfl, rfl⟩

/-- The local `redraw` of `adjust_level` is set exactly when the level
changed; the two loops never both run. -/
theorem adjust_loops_flag (c : Consts) (p : player) :
    ((adjust_loops c p).2 = true ↔ (adjust_loops c p).1.lev ≠ p.lev) ∧
    ((lose_levels c (adjust_start c p) false).2 = true →
      ¬ gain_cond c (lose_levels c (adjust_start c p) false).1 ∧
      adjust_loops c p = lose_levels c (adjust_start c p) false) := by
  have s3 : (adjust_start c p).lev = p.lev := (adjust_start_fields c p).2.2.1
  have hl := lose_levels_flag c (adjust_start c p) false
  have hg := gain_levels_flag c (lose_levels c (adjust_start c p) false).1
    (lose_levels c (adjust_start c p) false).2
  have hran : (lose_levels c (adjust_start c p) false).2 = true →
      ¬ gain_cond c (lose_levels c (adjust_start c p) false).1 := by
    intro hf
    rcases hl with e | ⟨_, _, e3⟩
    · rw [e] at hf; simp at hf
    · unfold gain_cond; omega
  constructor
  · unfold adjust_loops
    rcases hl with e | ⟨e1, e2, e3⟩
    · rw [e] at hg ⊢
      rcases hg with g | ⟨g1, g2⟩
      · rw [g]; simp only [s3]; simp
      · have g1' : (adjust_start c p).lev < (gain_levels c (adjust_start c p) false).1.lev := g1
        have g2' : (gain_levels c (adjust_start c p) false).2 = true := g2
        show (gain_levels c (adjust_start c p) false).2 = true ↔
          (gain_levels c (adjust_start c p) false).1.lev ≠ p.lev
        rw [g2']
        exact ⟨fun _ => by omega, fun _ => rfl⟩
    · have hx : ¬ gain_cond c (lose_levels c (adjust_start c p) false).1 := by
        unfold gain_cond; omega
      rw [gain_levels_exit c _ _ hx]
      show (lose_levels c (adjust_start c p) false).2 = true ↔
        (lose_levels c (adjust_start c p) false).1.lev ≠ p.lev
      rw [e2]
      exact ⟨fun _ => by omega, fun _ => rfl⟩
  · intro hf
    refine ⟨hran hf, ?_⟩
    unfold adjust_loops
    rw [gain_levels_exit c _ _ (hran hf)]

/-! ## Level reconciliation flags: the claim -/

/-- C28: `adjust_level` always or-s `PR_EXP` into `redraw`; it or-s
`PU_BONUS | PU_SPELLS | PU_MONSTERS` into `update` and
`PR_LEV | PR_TITLE | PR_EXP | PR_STATS | PR_SPELL | PR_PLUSSES` into `redraw`
iff the level on exit differs from the level on
entry, and leaves `update` as it was otherwise; when the level-losing loop has
run, the level-gaining loop does not, so the local `redraw` is set exactly
when the level changed. -/
theorem adjust_level_flags (c : Consts) (p : player) :
    (∀ i, c.PR_EXP.testBit i = true → (adjust_level c p).redraw.testBit i = true) ∧
    ((adjust_level c p).lev ≠ p.lev →
      (adjust_level c p).update =
        p.update ||| (c.PU_BONUS ||| c.PU_SPELLS ||| c.PU_MONSTERS) ∧
      (adjust_level c p).redraw =
        (p.redraw ||| c.PR_EXP) |||
          (c.PR_LEV ||| c.PR_TITLE ||| c.PR_EXP ||| c.PR_STATS ||| c.PR_SPELL |||
            c.PR_PLUSSES)) ∧
    ((adjust_level c p).lev = p.lev →
      (adjust_level c p).update = p.update ∧
      (adjust_level c p).redraw = p.redraw ||| c.PR_EXP) ∧
    ((adjust_loops c p).2 = true ↔ (adjust_level c p).lev ≠ p.lev) ∧
    ((lose_levels c (adjust_start c p) false).2 = true →
      ¬ gain_cond c (lose_levels c (adjust_start c p) false).1 ∧
      adjust_loops c p = lose_levels c (adjust_start c p) false) := by
  obtain ⟨f1, f2⟩ := adjust_loops_flag c p
  obtain ⟨d1, d2⟩ := adjust_level_dirty c p
  obtain ⟨s1, s2⟩ := adjust_start_dirty c p
  obtain ⟨l1, l2⟩ := lose_levels_dirty c (adjust_start c p) false
  obtain ⟨g1, g2⟩ := gain_levels_dirty c (lose_levels c (adjust_start c p) false).1
    (lose_levels c (adjust_start c p) false).2
  have u : (adjust_loops c p).1.update = p.update := by
    unfold adjust_loops; rw [g1, l1, s1]
  have r : (adjust_loops c p).1.redraw = p.redraw ||| c.PR_EXP := by
    unfold adjust_loops; rw [g2, l2, s2]
  have a3 : (adjust_level c p).lev = (adjust_loops c p).1.lev := (adjust_level_fields c p).2.2.1
  rw [a3]
  have hchanged : (adjust_loops c p).1.lev ≠ p.lev →
      (adjust_level c p).update =
        p.update ||| (c.PU_BONUS ||| c.PU_SPELLS ||| c.PU_MONSTERS) ∧
      (adjust_level c p).redraw =
        (p.redraw ||| c.PR_EXP) |||
          (c.PR_LEV ||| c.PR_TITLE ||| c.PR_EXP ||| c.PR_STATS ||| c.PR_SPELL |||
            c.PR_PLUSSES) := by
    intro h
    obtain ⟨x1, x2⟩ := d1 (f1.mpr h)
    rw [x1, x2, u, r]
    exact ⟨rfl, rfl⟩
  have hsame : (adjust_loops c p).1.lev = p.lev →
      (adjust_level c p).update = p.update ∧
      (adjust_level c p).redraw = p.redraw ||| c.PR_EXP := by
    intro h
    have hf : (adjust_loops c p).2 = false := by
      cases hb : (adjust_loops c p).2 with
      | false => rfl
      | true => exact absurd h (f1.mp hb)
    obtain ⟨x1, x2⟩ := d2 hf
    rw [x1, x2, u, r]
    exact ⟨rfl, rfl⟩
  refine ⟨fun i hi => ?_, hchanged, hsame, f1, f2⟩
  by_cases h : (adjust_loops c p).1.lev = p.lev
  · rw [(hsame h).2, Nat.testBit_or, hi, Bool.or_true]
  · rw [(hchanged h).2, Nat.testBit_or, Nat.testBit_or, hi, Bool.or_true, Bool.true_or]

/-! ## Randomized stat gain: the claim -/

/-- C29: in the randomized range `18 ≤ v < 108` of `player_stat_inc` the gain
the code computes is `((118 - v) / 2 + 3) / 2`, is at least 4 and is
non-increasing in `v`, so the `gain < 1` guard leaves it unchanged; for every
roll `r` in `[1, gain]` the new value `v + r + gain / 2` lies in
`[v + 3, 113]`, so the clamp to `18+99` does not fire, and `player_stat_inc`
stores exactly that value, which is larger than `v`. -/
theorem stat_gain_bounds (v : Int) (h1 : 18 ≤ v) (h2 : v < 108) :
    (((18 + 100) - v).tdiv 2 + 3).tdiv 2 = ((118 - v) / 2 + 3) / 2 ∧
    gain_spec v = ((118 - v) / 2 + 3) / 2 ∧
    4 ≤ gain_spec v ∧
    (∀ w, v ≤ w → w < 108 → gain_spec w ≤ gain_spec v) ∧
    (if gain_spec v < 1 then 1 else gain_spec v) = gain_spec v ∧
    (∀ r, 1 ≤ r → r ≤ gain_spec v →
      v + 3 ≤ v + r + gain_spec v / 2 ∧ v + r + gain_spec v / 2 ≤ 113 ∧
      ¬ (v + r + gain_spec v / 2 > 18 + 99)) ∧
    (∀ (c : Consts) (rnd : Int → Int) (p : player) (stat : Nat),
      p.stat_cur stat = v → 1 ≤ rnd (gain_spec v) → rnd (gain_spec v) ≤ gain_spec v →
      (player_stat_inc c rnd p stat).2.stat_cur stat =
        v + rnd (gain_spec v) + gain_spec v / 2 ∧
      v < (player_stat_inc c rnd p stat).2.stat_cur stat) := by
  obtain ⟨e, g4, g26⟩ := gain_spec_mid v h1 h2
  have hbound : ∀ r, 1 ≤ r → r ≤ gain_spec v →
      v + 3 ≤ v + r + gain_spec v / 2 ∧ v + r + gain_spec v / 2 ≤ 113 := by
    intro r hr1 hr2
    rw [e] at hr2 ⊢
    omega
  refine ⟨gain_code_eq v (by omega), e, g4, fun w hw1 hw2 => ?_, by rw [if_neg (by omega)],
    fun r hr1 hr2 => ?_, fun c rnd p stat hv hr1 hr2 => ?_⟩
  · obtain ⟨ew, _, _⟩ := gain_spec_mid w (by omega) hw2
    rw [e, ew]; omega
  · obtain ⟨b1, b2⟩ := hbound r hr1 hr2
    exact ⟨b1, b2, by omega⟩
  · obtain ⟨b1, b2⟩ := hbound _ hr1 hr2
    obtain ⟨_, e1, _⟩ := stat_inc_of_lt c rnd p stat (by omega)
    rw [e1, Function.update_same, hv, inc_value_mid rnd v h1 h2]
    constructor <;> omega

/-- Witness of C29: a stat at 18/50. -/
theorem stat_gain_bounds_witness : gain_spec 50 = 18 ∧ 4 ≤ gain_spec 50 :=
  have h := stat_gain_bounds 50 (by decide) (by decide)
  ⟨h.2.1, h.2.2.1⟩

/-! ## Interning registry capacity: auxiliary lemmas -/

theorem mem_intern_list_nil (strs : List String) (x : String) :
    x ∈ intern_list [] strs ↔ x ∈ strs := by
  constructor
  · intro h
    rcases mem_of_mem_intern_list strs [] x h with h | h
    · simp at h
    · exact h
  · intro h
    exact mem_intern_list_of_mem strs [] x (Or.inr h)

/-- The number of strings held after interning `strs` on an empty registry is
the number of distinct strings in `strs`. -/
theorem length_intern_list (strs : List String) :
    (intern_list [] strs).length = strs.toFinset.card := by
  obtain ⟨s, _, a0⟩ := quark_reachable strs
  obtain ⟨_, _, _, _, _, _, hnd⟩ := a0
  rw [← List.toFinset_card_of_nodup hnd]
  congr 1
  ext x
  simp only [List.mem_toFinset]
  exact mem_intern_list_nil strs x

/-! ## Interning registry capacity: the claim -/

/-- C30: after `quarks_init` and any sequence `strs` of `quark_add` calls,
`1 ≤ nr_quarks ≤ alloc_quarks`, `alloc_quarks = 16 * 2^k` is the length of the
array, and `nr_quarks - 1` is the number of distinct strings interned; a
further `quark_add` of a new string returns the next consecutive handle
`nr_quarks`, which is below the capacity in force at the write (doubled just
before when the array was full), and stores the string there; a string
interned before causes no write. -/
theorem quark_capacity (strs : List String) (str : String) :
    ∃ (hs : List Nat) (s : quark_state) (h : Nat) (t : quark_state),
      quark_adds (quarks_init quark_static) strs = some (hs, s) ∧
      (1 ≤ s.nr_quarks ∧ s.nr_quarks ≤ s.alloc_quarks ∧
        (∃ k : Nat, s.alloc_quarks = 16 * 2 ^ k) ∧
        s.quarks.length = s.alloc_quarks ∧
        s.nr_quarks - 1 = strs.toFinset.card) ∧
      quark_add s str = some (h, t) ∧
      (str ∉ strs →
        h = s.nr_quarks ∧ h < t.alloc_quarks ∧ t.quarks.length = t.alloc_quarks ∧
        t.nr_quarks = s.nr_quarks + 1 ∧
        (t.alloc_quarks = s.alloc_quarks ∨ t.alloc_quarks = 2 * s.alloc_quarks) ∧
        t.quarks[h]? = some (some str)) ∧
      (str ∈ strs → t = s) := by
  obtain ⟨s, e0, a0⟩ := quark_reachable strs
  have hlen := length_intern_list strs
  have hmem := mem_intern_list_nil strs str
  by_cases hm : str ∈ strs
  · refine ⟨_, s, _, s, e0, ?_, quark_add_old s _ str a0 (hmem.mpr hm),
      fun h => absurd hm h, fun _ => rfl⟩
    obtain ⟨h1, h2, h3, h4, _⟩ := a0
    exact ⟨by omega, h4, h2, h1, by omega⟩
  · obtain ⟨t, e1, a1, n1, c1⟩ := quark_add_new s _ str a0 (fun h => hm (hmem.mp h))
    refine ⟨_, s, _, t, e0, ?_, e1, fun _ => ?_, fun h => absurd h hm⟩
    · obtain ⟨h1, h2, h3, h4, _⟩ := a0
      exact ⟨by omega, h4, h2, h1, by omega⟩
    · obtain ⟨h1, _, h3, h4, _⟩ := a0
      obtain ⟨k1, _, k3, k4, _, k6, _⟩ := a1
      have hslot := k6 (intern_list [] strs).length (by simp)
      rw [List.getElem?_append_right (le_refl _)] at hslot
      simp only [Nat.sub_self, List.getElem?_cons_zero] at hslot
      refine ⟨by omega, by omega, k1, n1, c1, hslot⟩

/-! ## Knowledge grid: loops over cells -/

theorem foldlM_cons_option {σ ι : Type} (step : σ → ι → Option σ) (s : σ) (c : ι)
    (cs : List ι) :
    (c :: cs).foldlM step s = (step s c).bind (fun t => cs.foldlM step t) := by
  rw [List.foldlM_cons]; rfl

theorem foldlM_nil_option {σ ι : Type} (step : σ → ι → Option σ) (s : σ) :
    ([] : List ι).foldlM step s = some s := rfl

/-- A loop whose body succeeds and keeps `Q` wherever `Q` holds runs to its
end and keeps `Q`. -/
theorem foldlM_total {σ ι : Type} (step : σ → ι → Option σ) (Q : σ → Prop) (cs : List ι)
    (h : ∀ s c, c ∈ cs → Q s → ∃ t, step s c = some t ∧ Q t) :
    ∀ s, Q s → ∃ t, cs.foldlM step s = some t ∧ Q t := by
  induction cs with
  | nil => intro s hs; exact ⟨s, rfl, hs⟩
  | cons c cs ih =>
    intro s hs
    obtain ⟨t, e, ht⟩ := h s c (List.mem_cons_self _ _) hs
    obtain ⟨u, eu, hu⟩ := ih (fun s' c' hc' hq => h s' c' (List.mem_cons_of_mem _ hc') hq) t ht
    exact ⟨u, by rw [foldlM_cons_option, e, Option.some_bind, eu], hu⟩

/-- A loop whose body appends `ev c` to the trace appends the events of all
its passes, in order. -/
theorem foldlM_trace {ι : Type} (step : grid_player → ι → Option grid_player)
    (Q : grid_player → Prop) (ev : ι → List GridEvent) (cs : List ι)
    (h : ∀ s t c, c ∈ cs → Q s → step s c = some t → Q t ∧ t.trace = s.trace ++ ev c) :
    ∀ s t, Q s → cs.foldlM step s = some t → t.trace = s.trace ++ cs.flatMap ev := by
  induction cs with
  | nil =>
    intro s t _ e
    rw [foldlM_nil_option] at e
    simp only [Option.some.injEq] at e
    rw [← e]; simp
  | cons c cs ih =>
    intro s t hq e
    rw [foldlM_cons_option] at e
    obtain ⟨u, e1, e2⟩ := Option.bind_eq_some.mp e
    obtain ⟨hqu, htr⟩ := h s u c (List.mem_cons_self _ _) hq e1
    rw [ih (fun s' t' c' hc' => h s' t' c' (List.mem_cons_of_mem _ hc')) u t hqu e2,
      htr, List.flatMap_cons, List.append_assoc]

/-- A loop whose pass `c` rewrites the elements of a two-dimensional array
in the region `P c` with an idempotent `F` leaves `F` applied in the regions
visited and the other elements as they were. -/
theorem foldlM_region {ι α : Type} (step : grid_player → ι → Option grid_player)
    (Q : grid_player → Prop) (get : grid_player → Option (Int → Int → α))
    (P : ι → Int → Int → Prop) (F : Int → Int → α → α)
    (hF : ∀ y x a, F y x (F y x a) = F y x a) (cs : List ι)
    (h : ∀ s t c g, c ∈ cs → Q s → get s = some g → step s c = some t →
      Q t ∧ ∃ g1, get t = some g1 ∧
        (∀ y x, P c y x → g1 y x = F y x (g y x)) ∧ (∀ y x, ¬ P c y x → g1 y x = g y x)) :
    ∀ s t g, Q s → get s = some g → cs.foldlM step s = some t →
      ∃ gt, get t = some gt ∧
        (∀ y x, (∃ c, c ∈ cs ∧ P c y x) → gt y x = F y x (g y x)) ∧
        (∀ y x, (¬ ∃ c, c ∈ cs ∧ P c y x) → gt y x = g y x) := by
  induction cs with
  | nil =>
    intro s t g _ hg e
    rw [foldlM_nil_option] at e
    simp only [Option.some.injEq] at e
    rw [← e]
    refine ⟨g, hg, ?_, fun _ _ _ => rfl⟩
    rintro y x ⟨c, hc, _⟩
    cases hc
  | cons c cs ih =>
    intro s t g hq hg e
    rw [foldlM_cons_option] at e
    obtain ⟨u, e1, e2⟩ := Option.bind_eq_some.mp e
    obtain ⟨hqu, g1, hu, hin, hout⟩ := h s u c g (List.mem_cons_self _ _) hq hg e1
    obtain ⟨gt, hgt, hvin, hvout⟩ :=
      ih (fun s' t' c' g' hc' => h s' t' c' g' (List.mem_cons_of_mem _ hc')) u t g1 hqu hu e2
    refine ⟨gt, hgt, fun y x hex => ?_, fun y x hex => ?_⟩
    · by_cases hcs : ∃ c', c' ∈ cs ∧ P c' y x
      · rw [hvin y x hcs]
        by_cases hp : P c y x
        · rw [hin y x hp, hF]
        · rw [hout y x hp]
      · rw [hvout y x hcs]
        obtain ⟨c', hc', hp'⟩ := hex
        rcases List.mem_cons.mp hc' with hc' | hc'
        · rw [hc'] at hp'; exact hin y x hp'
        · exact absurd ⟨c', hc', hp'⟩ hcs
    · have hcs : ¬ ∃ c', c' ∈ cs ∧ P c' y x := by
        rintro ⟨c', hc', hp'⟩
        exact hex ⟨c', List.mem_cons_of_mem _ hc', hp'⟩
      have hp : ¬ P c y x := fun hp => hex ⟨c, List.mem_cons_self _ _, hp⟩
      rw [hvout y x hcs, hout y x hp]

theorem grid_set_same {α : Type} (g : Int → Int → α) (y x : Int) (v : α) :
    grid_set g y x v y x = v := by
  unfold grid_set; rw [if_pos ⟨rfl, rfl⟩]

theorem grid_set_set {α : Type} (g : Int → Int → α) (y x : Int) (v w : α) :
    grid_set (grid_set g y x v) y x w = grid_set g y x w := by
  funext y' x'
  unfold grid_set
  split_ifs <;> rfl

theorem square_modify_some (s : grid_player) (g : Int → Int → player_square) (y x : Int)
    (f : player_square → Option player_square) (c : player_square)
    (hg : s.cave.squares = some g) (he : in_extent s y x) (hf : f (g y x) = some c) :
    square_modify s y x f = some (with_squares s (grid_set g y x c)) := by
  unfold square_modify
  rw [hg]
  simp only [if_pos he, hf]
  rfl

/-- What one pass of the inner loop of `player_cave_free` does. -/
theorem cave_free_cell_spec (s : grid_player) (g : Int → Int → player_square) (y : Int)
    (x : Nat) (hg : s.cave.squares = some g) (he : in_extent s y x) :
    cave_free_cell y s x =
      some (add_trace (with_squares s (grid_set g y x (free_square (g y x))))
        (free_cell_events y x)) := by
  obtain ⟨h1, h2, h3, h4⟩ := he
  simp [cave_free_cell, square_forget_pile, square_forget_trap, square_modify, in_extent, hg,
    h1, h2, h3, h4, add_trace, with_squares, free_square, free_cell_events, grid_set_same,
    grid_set_set]

/-! ## Knowledge grid: `player_cave_free` -/

theorem grid_frame_refl (s : grid_player) : grid_frame s s :=
  ⟨rfl, rfl, rfl, rfl, rfl, rfl, rfl⟩

theorem grid_frame_trans (s t u : grid_player) (h1 : grid_frame s t) (h2 : grid_frame t u) :
    grid_frame s u := by
  obtain ⟨a1, a2, a3, a4, a5, a6, a7⟩ := h1
  obtain ⟨b1, b2, b3, b4, b5, b6, b7⟩ := h2
  exact ⟨b1.trans a1, b2.trans a2, b3.trans a3, b4.trans a4, b5.trans a5, b6.trans a6,
    b7.trans a7⟩

theorem mem_range_toNat (W : Int) (x : Nat) (h : x ∈ List.range W.toNat) :
    (0 : Int) ≤ x ∧ (x : Int) < W := by
  rw [List.mem_range] at h
  omega

theorem mem_range_toNat_of (W x : Int) (h0 : 0 ≤ x) (h1 : x < W) :
    x.toNat ∈ List.range W.toNat ∧ (x.toNat : Int) = x := by
  rw [List.mem_range]
  omega

/-- The inner loop of `player_cave_free` on row `y`. -/
theorem cave_free_cells_spec (s : grid_player) (y : Nat)
    (hy : (y : Int) < s.cave.height) (hsq : s.cave.squares.isSome = true) :
    ∃ t, (List.range s.cave.width.toNat).foldlM (cave_free_cell y) s = some t ∧
      grid_frame s t ∧ t.cave.squares.isSome = true ∧
      t.trace = s.trace ++ (List.range s.cave.width.toNat).flatMap (free_cell_events y) := by
  have hstep : ∀ u t c, c ∈ List.range s.cave.width.toNat →
      (grid_frame s u ∧ u.cave.squares.isSome = true) → cave_free_cell y u c = some t →
      (grid_frame s t ∧ t.cave.squares.isSome = true) ∧
        t.trace = u.trace ++ free_cell_events y c := by
    intro u t c hc hq e
    obtain ⟨hfr, hsome⟩ := hq
    obtain ⟨g, hg⟩ := Option.isSome_iff_exists.mp hsome
    obtain ⟨c0, c1⟩ := mem_range_toNat _ _ hc
    have he : in_extent u y c := ⟨Int.natCast_nonneg y, by rw [hfr.2.1]; exact hy, c0,
      by rw [hfr.2.2.1]; exact c1⟩
    rw [cave_free_cell_spec u g y c hg he] at e
    simp only [Option.some.injEq] at e
    subst e
    exact ⟨⟨grid_frame_trans s u _ hfr ⟨rfl, rfl, rfl, rfl, rfl, rfl, rfl⟩, rfl⟩, rfl⟩
  obtain ⟨t, e, hq⟩ := foldlM_total (cave_free_cell y)
    (fun u => grid_frame s u ∧ u.cave.squares.isSome = true) (List.range s.cave.width.toNat)
    (fun u c hc hq => by
      obtain ⟨g, hg⟩ := Option.isSome_iff_exists.mp hq.2
      obtain ⟨c0, c1⟩ := mem_range_toNat _ _ hc
      have he : in_extent u y c := ⟨Int.natCast_nonneg y, by rw [hq.1.2.1]; exact hy, c0,
        by rw [hq.1.2.2.1]; exact c1⟩
      exact ⟨_, cave_free_cell_spec u g y c hg he,
        (hstep u _ c hc hq (cave_free_cell_spec u g y c hg he)).1⟩)
    s ⟨grid_frame_refl s, hsq⟩
  exact ⟨t, e, hq.1, hq.2,
    foldlM_trace (cave_free_cell y) _ (free_cell_events y) _ hstep s t
      ⟨grid_frame_refl s, hsq⟩ e⟩

/-- One pass of the outer loop of `player_cave_free`. -/
theorem cave_free_row_spec (s : grid_player) (y : Nat)
    (hy : (y : Int) < s.cave.height) (hsq : s.cave.squares.isSome = true)
    (hn : s.cave.noise.isSome = true) (hsc : s.cave.scent.isSome = true) :
    ∃ t, cave_free_row s y = some t ∧ grid_frame s t ∧ t.cave.squares.isSome = true ∧
      t.trace = s.trace ++ free_row_events s.cave.width y := by
  obtain ⟨t, e, hfr, hsome, htr⟩ := cave_free_cells_spec s y hy hsq
  obtain ⟨g, hg⟩ := Option.isSome_iff_exists.mp hsome
  obtain ⟨n, hn'⟩ := Option.isSome_iff_exists.mp hn
  obtain ⟨sc, hsc'⟩ := Option.isSome_iff_exists.mp hsc
  have htn : t.cave.noise = some n := by rw [hfr.2.2.2.2.1, hn']
  have htsc : t.cave.scent = some sc := by rw [hfr.2.2.2.2.2.1, hsc']
  refine ⟨{ t with trace := t.trace ++
      [GridEvent.free_squares_row y, GridEvent.free_noise_row y, GridEvent.free_scent_row y] },
    ?_, hfr, hsome, ?_⟩
  · unfold cave_free_row
    rw [e]
    simp only [Option.bind_eq_bind, Option.some_bind, hg, htn, htsc]
  · show t.trace ++ _ = _
    rw [htr, free_row_events, List.append_assoc]

/-- The outer loop of `player_cave_free`. -/
theorem cave_free_rows_spec (s : grid_player) (hsq : s.cave.squares.isSome = true)
    (hn : s.cave.noise.isSome = true) (hsc : s.cave.scent.isSome = true) :
    ∃ t, (List.range s.cave.height.toNat).foldlM cave_free_row s = some t ∧
      grid_frame s t ∧
      t.trace = s.trace ++
        (List.range s.cave.height.toNat).flatMap (free_row_events s.cave.width) := by
  have hstep : ∀ u t c, c ∈ List.range s.cave.height.toNat →
      (grid_frame s u ∧ u.cave.squares.isSome = true) → cave_free_row u c = some t →
      (grid_frame s t ∧ t.cave.squares.isSome = true) ∧
        t.trace = u.trace ++ free_row_events s.cave.width c := by
    intro u t c hc hq e
    obtain ⟨hfr, hsome⟩ := hq
    obtain ⟨_, c1⟩ := mem_range_toNat _ _ hc
    obtain ⟨t', e', hfr', hsome', htr'⟩ := cave_free_row_spec u c (by rw [hfr.2.1]; exact c1)
      hsome (by rw [hfr.2.2.2.2.1]; exact hn) (by rw [hfr.2.2.2.2.2.1]; exact hsc)
    rw [e'] at e
    simp only [Option.some.injEq] at e
    subst e
    exact ⟨⟨grid_frame_trans s u _ hfr hfr', hsome'⟩, by rw [htr', hfr.2.2.1]⟩
  obtain ⟨t, e, hq⟩ := foldlM_total cave_free_row
    (fun u => grid_frame s u ∧ u.cave.squares.isSome = true) (List.range s.cave.height.toNat)
    (fun u c hc hq => by
      obtain ⟨_, c1⟩ := mem_range_toNat _ _ hc
      obtain ⟨t', e', _⟩ := cave_free_row_spec u c (by rw [hq.1.2.1]; exact c1)
        hq.2 (by rw [hq.1.2.2.2.2.1]; exact hn) (by rw [hq.1.2.2.2.2.2.1]; exact hsc)
      exact ⟨t', e', (hstep u t' c hc hq e').1⟩)
    s ⟨grid_frame_refl s, hsq⟩
  exact ⟨t, e, hq.1,
    foldlM_trace cave_free_row _ (free_row_events s.cave.width) _ hstep s t
      ⟨grid_frame_refl s, hsq⟩ e⟩

theorem player_cave_free_unallocated (s : grid_player) (h : s.cave.allocated = false) :
    player_cave_free s = some s := by
  unfold player_cave_free
  rw [if_pos (by rw [h]; simp)]

/-- What `player_cave_free` does to an allocated grid. -/
theorem player_cave_free_allocated (s : grid_player) (h : s.cave.allocated = true)
    (hsq : s.cave.squares.isSome = true) (hn : s.cave.noise.isSome = true)
    (hsc : s.cave.scent.isSome = true) :
    ∃ t, player_cave_free s = some t ∧ t.cave.allocated = false ∧
      t.cave.squares = none ∧ t.cave.noise = none ∧ t.cave.scent = none ∧
      t.cave.height = s.cave.height ∧ t.cave.width = s.cave.width ∧
      t.feeling = s.feeling ∧ t.cave.feeling_squares = s.cave.feeling_squares ∧
      t.trace = s.trace ++ free_events s.cave.height s.cave.width := by
  obtain ⟨t, e, hfr, htr⟩ := cave_free_rows_spec s hsq hn hsc
  refine ⟨{ t with
      cave := { t.cave with squares := none, noise := none, scent := none, allocated := false }
      trace := t.trace ++
        [GridEvent.free_squares, GridEvent.free_noise, GridEvent.free_scent] },
    ?_, rfl, rfl, rfl, rfl, hfr.2.1, hfr.2.2.1, hfr.1, hfr.2.2.2.1, ?_⟩
  · unfold player_cave_free
    rw [if_neg (by rw [h]; simp), e]
    rfl
  · show t.trace ++ _ = _
    rw [htr, free_events, List.append_assoc]

theorem mem_free_events_cell (h w y x : Int) (hy0 : 0 ≤ y) (hy : y < h) (hx0 : 0 ≤ x)
    (hx : x < w) (e : GridEvent)
    (he : e = GridEvent.free_info y x ∨ e = GridEvent.forget_pile y x ∨
      e = GridEvent.forget_trap y x) :
    e ∈ free_events h w := by
  obtain ⟨my, cy⟩ := mem_range_toNat_of h y hy0 hy
  obtain ⟨mx, cx⟩ := mem_range_toNat_of w x hx0 hx
  unfold free_events
  refine List.mem_append_left _ (List.mem_flatMap.mpr ⟨y.toNat, my, ?_⟩)
  unfold free_row_events
  refine List.mem_append_left _ (List.mem_flatMap.mpr ⟨x.toNat, mx, ?_⟩)
  unfold free_cell_events
  rw [cy, cx]
  rcases he with he | he | he <;> rw [he] <;> simp

theorem mem_free_events_row (h w y : Int) (hy0 : 0 ≤ y) (hy : y < h) (e : GridEvent)
    (he : e = GridEvent.free_squares_row y ∨ e = GridEvent.free_noise_row y ∨
      e = GridEvent.free_scent_row y) :
    e ∈ free_events h w := by
  obtain ⟨my, cy⟩ := mem_range_toNat_of h y hy0 hy
  unfold free_events
  refine List.mem_append_left _ (List.mem_flatMap.mpr ⟨y.toNat, my, ?_⟩)
  unfold free_row_events
  refine List.mem_append_right _ ?_
  rw [cy]
  rcases he with he | he | he <;> rw [he] <;> simp

/-- C22: `player_cave_free` is idempotent.  On a grid that is not allocated
it returns the state unchanged.  On an allocated grid it runs to its end,
calls the release of the flag set, of the object pile and of the trap of
every cell in range and of every row of the three arrays and of the three
arrays themselves, leaves the three arrays NULL and `allocated = false`,
and keeps the dimensions and the feeling fields.  In both cases a second
call returns the state of the first call unchanged, releasing nothing. -/
theorem player_cave_free_idempotent (s : grid_player) (hwf : CaveWF s) :
    ∃ t, player_cave_free s = some t ∧ player_cave_free t = some t ∧
      t.cave.allocated = false ∧
      (s.cave.allocated = false → t = s) ∧
      (s.cave.allocated = true →
        t.cave.squares = none ∧ t.cave.noise = none ∧ t.cave.scent = none ∧
        t.cave.height = s.cave.height ∧ t.cave.width = s.cave.width ∧
        t.feeling = s.feeling ∧ t.cave.feeling_squares = s.cave.feeling_squares ∧
        t.trace = s.trace ++ free_events s.cave.height s.cave.width ∧
        (∀ y x : Int, 0 ≤ y → y < s.cave.height → 0 ≤ x → x < s.cave.width →
          GridEvent.free_info y x ∈ t.trace ∧ GridEvent.forget_pile y x ∈ t.trace ∧
            GridEvent.forget_trap y x ∈ t.trace) ∧
        (∀ y : Int, 0 ≤ y → y < s.cave.height →
          GridEvent.free_squares_row y ∈ t.trace ∧ GridEvent.free_noise_row y ∈ t.trace ∧
            GridEvent.free_scent_row y ∈ t.trace) ∧
        GridEvent.free_squares ∈ t.trace ∧ GridEvent.free_noise ∈ t.trace ∧
          GridEvent.free_scent ∈ t.trace) := by
  cases ha : s.cave.allocated with
  | false =>
    exact ⟨s, player_cave_free_unallocated s ha, player_cave_free_unallocated s ha, ha,
      fun _ => rfl, fun h => by cases h⟩
  | true =>
    obtain ⟨hsq, hn, hsc⟩ := hwf ha
    obtain ⟨t, e, h1, h2, h3, h4, h5, h6, h7, h8, h9⟩ :=
      player_cave_free_allocated s ha hsq hn hsc
    refine ⟨t, e, player_cave_free_unallocated t h1, h1, (fun h => by cases h),
      fun _ => ⟨h2, h3, h4, h5, h6, h7, h8, h9, ?_, ?_, ?_⟩⟩
    · intro y x hy0 hy hx0 hx
      rw [h9]
      exact ⟨List.mem_append_right _ (mem_free_events_cell _ _ y x hy0 hy hx0 hx _ (Or.inl rfl)),
        List.mem_append_right _
          (mem_free_events_cell _ _ y x hy0 hy hx0 hx _ (Or.inr (Or.inl rfl))),
        List.mem_append_right _
          (mem_free_events_cell _ _ y x hy0 hy hx0 hx _ (Or.inr (Or.inr rfl)))⟩
    · intro y hy0 hy
      rw [h9]
      exact ⟨List.mem_append_right _ (mem_free_events_row _ _ y hy0 hy _ (Or.inl rfl)),
        List.mem_append_right _ (mem_free_events_row _ _ y hy0 hy _ (Or.inr (Or.inl rfl))),
        List.mem_append_right _ (mem_free_events_row _ _ y hy0 hy _ (Or.inr (Or.inr rfl)))⟩
    · rw [h9]
      unfold free_events
      refine ⟨List.mem_append_right _ (List.mem_append_right _ ?_),
        List.mem_append_right _ (List.mem_append_right _ ?_),
        List.mem_append_right _ (List.mem_append_right _ ?_)⟩ <;> simp

/-- C22 at the sample allocated grid of height 2 and width 3. -/
theorem player_cave_free_idempotent_witness :
    CaveWF sample_grid_player ∧
      ∃ t, player_cave_free sample_grid_player = some t ∧ player_cave_free t = some t ∧
        t.cave.allocated = false :=
  ⟨fun _ => ⟨rfl, rfl, rfl⟩,
    match player_cave_free_idempotent sample_grid_player (fun _ => ⟨rfl, rfl, rfl⟩) with
    | ⟨t, h1, h2, h3, _⟩ => ⟨t, h1, h2, h3⟩⟩

/-! ## Knowledge grid: bounds tests -/

/-- C26: `player_square_in_bounds` holds exactly when `0 ≤ x < width` and
`0 ≤ y < height`; `player_square_in_bounds_fully` holds exactly when
`0 < x < width - 1` and `0 < y < height - 1`; and the latter holds exactly
when the coordinate and its eight neighbours `(x + dx, y + dy)`,
`dx, dy ∈ {-1, 0, 1}`, all pass `player_square_in_bounds`. -/
theorem player_square_in_bounds_spec (s : grid_player) (x y : Int) :
    (player_square_in_bounds s ⟨x, y⟩ = true ↔
      (0 ≤ x ∧ x < s.cave.width) ∧ (0 ≤ y ∧ y < s.cave.height)) ∧
    (player_square_in_bounds_fully s ⟨x, y⟩ = true ↔
      (0 < x ∧ x < s.cave.width - 1) ∧ (0 < y ∧ y < s.cave.height - 1)) ∧
    (player_square_in_bounds_fully s ⟨x, y⟩ = true ↔
      ∀ dx dy : Int, -1 ≤ dx → dx ≤ 1 → -1 ≤ dy → dy ≤ 1 →
        player_square_in_bounds s ⟨x + dx, y + dy⟩ = true) := by
  have hb : ∀ a b : Int, player_square_in_bounds s ⟨a, b⟩ = true ↔
      (0 ≤ a ∧ a < s.cave.width) ∧ (0 ≤ b ∧ b < s.cave.height) := by
    intro a b
    unfold player_square_in_bounds
    rw [decide_eq_true_iff]
    constructor
    · rintro ⟨h1, h2, h3, h4⟩; exact ⟨⟨h1, h2⟩, h3, h4⟩
    · rintro ⟨⟨h1, h2⟩, h3, h4⟩; exact ⟨h1, h2, h3, h4⟩
  have hf : player_square_in_bounds_fully s ⟨x, y⟩ = true ↔
      (0 < x ∧ x < s.cave.width - 1) ∧ (0 < y ∧ y < s.cave.height - 1) := by
    unfold player_square_in_bounds_fully
    rw [decide_eq_true_iff]
    constructor
    · rintro ⟨h1, h2, h3, h4⟩; exact ⟨⟨h1, h2⟩, h3, h4⟩
    · rintro ⟨⟨h1, h2⟩, h3, h4⟩; exact ⟨h1, h2, h3, h4⟩
  refine ⟨hb x y, hf, ?_⟩
  rw [hf]
  constructor
  · rintro ⟨⟨h1, h2⟩, h3, h4⟩ dx dy d1 d2 d3 d4
    rw [hb]
    omega
  · intro h
    have hlo := (hb _ _).mp (h (-1) (-1) (by omega) (by omega) (by omega) (by omega))
    have hhi := (hb _ _).mp (h 1 1 (by omega) (by omega) (by omega) (by omega))
    omega

/-! ## Knowledge grid: `player_cave_new` -/

theorem cave_frame_refl (s : grid_player) : cave_frame s s := ⟨rfl, rfl, rfl, rfl, rfl⟩

theorem cave_frame_trans (s t u : grid_player) (h1 : cave_frame s t) (h2 : cave_frame t u) :
    cave_frame s u := by
  obtain ⟨a1, a2, a3, a4, a5⟩ := h1
  obtain ⟨b1, b2, b3, b4, b5⟩ := h2
  exact ⟨b1.trans a1, b2.trans a2, b3.trans a3, b4.trans a4, b5.trans a5⟩

theorem cave_new_cell_spec (s : grid_player) (g : Int → Int → player_square) (y : Int)
    (x : Nat) (hg : s.cave.squares = some g) (he : in_extent s y x) :
    cave_new_cell y s x =
      some (with_squares s (grid_set g y x { g y x with info := some (fun _ => false) })) :=
  square_modify_some s g y x _ _ hg he rfl

/-- The inner loop of `player_cave_new` on row `y`. -/
theorem cave_new_cells_spec (s : grid_player) (g : Int → Int → player_square) (y : Nat)
    (hy : (y : Int) < s.cave.height) (hg : s.cave.squares = some g) :
    ∃ t gt, (List.range s.cave.width.toNat).foldlM (cave_new_cell y) s = some t ∧
      grid_frame s t ∧ t.trace = s.trace ∧ t.cave.squares = some gt ∧
      (∀ y1 x1 : Int, y1 = y → 0 ≤ x1 → x1 < s.cave.width →
        gt y1 x1 = { g y1 x1 with info := some (fun _ => false) }) ∧
      (∀ y1 x1 : Int, ¬ (y1 = y ∧ 0 ≤ x1 ∧ x1 < s.cave.width) → gt y1 x1 = g y1 x1) := by
  have hstep : ∀ u t c g0, c ∈ List.range s.cave.width.toNat →
      (grid_frame s u ∧ u.trace = s.trace ∧ u.cave.squares.isSome = true) →
      u.cave.squares = some g0 → cave_new_cell y u c = some t →
      (grid_frame s t ∧ t.trace = s.trace ∧ t.cave.squares.isSome = true) ∧
        ∃ g1, t.cave.squares = some g1 ∧
          (∀ y1 x1, (y1 = (y : Int) ∧ x1 = (c : Int)) → g1 y1 x1 =
            (fun _ _ (a : player_square) => { a with info := some (fun _ => false) })
              y1 x1 (g0 y1 x1)) ∧
          (∀ y1 x1, ¬ (y1 = (y : Int) ∧ x1 = (c : Int)) → g1 y1 x1 = g0 y1 x1) := by
    intro u t c g0 hc hq hg0 e
    obtain ⟨hfr, htr, _⟩ := hq
    obtain ⟨c0, c1⟩ := mem_range_toNat _ _ hc
    have he : in_extent u y c := ⟨Int.natCast_nonneg y, by rw [hfr.2.1]; exact hy, c0,
      by rw [hfr.2.2.1]; exact c1⟩
    rw [cave_new_cell_spec u g0 y c hg0 he] at e
    simp only [Option.some.injEq] at e
    subst e
    refine ⟨⟨grid_frame_trans s u _ hfr ⟨rfl, rfl, rfl, rfl, rfl, rfl, rfl⟩, htr, rfl⟩,
      _, rfl, fun y1 x1 h => ?_, fun y1 x1 h => ?_⟩
    · unfold grid_set; rw [if_pos h, h.1, h.2]
    · unfold grid_set; rw [if_neg h]
  have hq0 : grid_frame s s ∧ s.trace = s.trace ∧ s.cave.squares.isSome = true :=
    ⟨grid_frame_refl s, rfl, by rw [hg]; rfl⟩
  obtain ⟨t, e, hq⟩ := foldlM_total (cave_new_cell y)
    (fun u => grid_frame s u ∧ u.trace = s.trace ∧ u.cave.squares.isSome = true)
    (List.range s.cave.width.toNat)
    (fun u c hc hq => by
      obtain ⟨g0, hg0⟩ := Option.isSome_iff_exists.mp hq.2.2
      obtain ⟨c0, c1⟩ := mem_range_toNat _ _ hc
      have he : in_extent u y c := ⟨Int.natCast_nonneg y, by rw [hq.1.2.1]; exact hy, c0,
        by rw [hq.1.2.2.1]; exact c1⟩
      exact ⟨_, cave_new_cell_spec u g0 y c hg0 he,
        (hstep u _ c g0 hc hq hg0 (cave_new_cell_spec u g0 y c hg0 he)).1⟩)
    s hq0
  obtain ⟨gt, hgt, hin, hout⟩ := foldlM_region (cave_new_cell y) _
    (fun u => u.cave.squares) (fun (c : Nat) y1 x1 => y1 = (y : Int) ∧ x1 = (c : Int))
    (fun _ _ (a : player_square) => { a with info := some (fun _ => false) })
    (fun _ _ _ => rfl) _ hstep s t g hq0 hg e
  refine ⟨t, gt, e, hq.1, hq.2.1, hgt, fun y1 x1 h1 h2 h3 => ?_, fun y1 x1 h => ?_⟩
  · obtain ⟨mx, cx⟩ := mem_range_toNat_of _ x1 h2 h3
    exact hin y1 x1 ⟨x1.toNat, mx, h1, cx.symm⟩
  · refine hout y1 x1 ?_
    rintro ⟨c, hc, h1, h2⟩
    obtain ⟨c0, c1⟩ := mem_range_toNat _ _ hc
    exact h ⟨h1, by rw [h2]; exact c0, by rw [h2]; exact c1⟩

theorem cave_new_row_unfold (s : grid_player) (g : Int → Int → player_square)
    (n sc : Int → Int → Nat) (y : Nat) (hg : s.cave.squares = some g)
    (hn : s.cave.noise = some n) (hsc : s.cave.scent = some sc) (hw : 0 ≤ s.cave.width) :
    cave_new_row s y =
      ((List.range s.cave.width.toNat).foldlM (cave_new_cell y)
        (with_squares s (grid_zero_row g y zero_square))).bind
        (fun v => some (with_flow v (grid_zero_row n y 0) (grid_zero_row sc y 0))) := by
  unfold cave_new_row
  simp only [hg, hn, hsc, if_neg (not_lt.mpr hw)]
  rw [← hn, ← hsc]
  rfl

/-- One pass of the outer loop of `player_cave_new`. -/
theorem cave_new_row_spec (s : grid_player) (g : Int → Int → player_square)
    (n sc : Int → Int → Nat) (y : Nat) (hy : (y : Int) < s.cave.height)
    (hg : s.cave.squares = some g) (hn : s.cave.noise = some n)
    (hsc : s.cave.scent = some sc) (hw : 0 ≤ s.cave.width) :
    ∃ t gt, cave_new_row s y = some t ∧ cave_frame s t ∧ t.trace = s.trace ∧
      t.cave.squares = some gt ∧
      t.cave.noise = some (grid_zero_row n y 0) ∧ t.cave.scent = some (grid_zero_row sc y 0) ∧
      (∀ y1 x1 : Int, y1 = y →
        gt y1 x1 = if 0 ≤ x1 ∧ x1 < s.cave.width then new_square else zero_square) ∧
      (∀ y1 x1 : Int, ¬ y1 = y → gt y1 x1 = g y1 x1) := by
  obtain ⟨t, gt, e, hfr, htr, hgt, hin, hout⟩ :=
    cave_new_cells_spec (with_squares s (grid_zero_row g y zero_square))
      (grid_zero_row g y zero_square) y hy rfl
  refine ⟨with_flow t (grid_zero_row n y 0) (grid_zero_row sc y 0), gt, ?_, ?_, htr, hgt,
    rfl, rfl, fun y1 x1 h1 => ?_, fun y1 x1 h1 => ?_⟩
  · rw [cave_new_row_unfold s g n sc y hg hn hsc hw]
    exact (congrArg (fun o => Option.bind o _) e).trans rfl
  · exact ⟨hfr.1, hfr.2.1, hfr.2.2.1, hfr.2.2.2.1, hfr.2.2.2.2.2.2⟩
  · by_cases hx : 0 ≤ x1 ∧ x1 < s.cave.width
    · rw [if_pos hx, hin y1 x1 h1 hx.1 hx.2]
      unfold grid_zero_row
      rw [if_pos h1]
      rfl
    · rw [if_neg hx, hout y1 x1 (fun h => hx ⟨h.2.1, h.2.2⟩)]
      unfold grid_zero_row
      rw [if_pos h1]
  · rw [hout y1 x1 (fun h => h1 h.1)]
    unfold grid_zero_row
    rw [if_neg h1]

/-- The outer loop of `player_cave_new`. -/
theorem cave_new_rows_spec (s : grid_player) (g : Int → Int → player_square)
    (n sc : Int → Int → Nat) (hg : s.cave.squares = some g) (hn : s.cave.noise = some n)
    (hsc : s.cave.scent = some sc) (hz : ∀ y x, n y x = 0 ∧ sc y x = 0)
    (hw : 0 ≤ s.cave.width) :
    ∃ t gt nt sct, (List.range s.cave.height.toNat).foldlM cave_new_row s = some t ∧
      cave_frame s t ∧ t.trace = s.trace ∧ t.cave.squares = some gt ∧
      t.cave.noise = some nt ∧ t.cave.scent = some sct ∧
      (∀ y x, nt y x = 0 ∧ sct y x = 0) ∧
      (∀ y1 x1 : Int, 0 ≤ y1 → y1 < s.cave.height →
        gt y1 x1 = if 0 ≤ x1 ∧ x1 < s.cave.width then new_square else zero_square) ∧
      (∀ y1 x1 : Int, ¬ (0 ≤ y1 ∧ y1 < s.cave.height) → gt y1 x1 = g y1 x1) := by
  have hstep : ∀ u t c g0, c ∈ List.range s.cave.height.toNat →
      (cave_frame s u ∧ u.trace = s.trace ∧ u.cave.squares.isSome = true ∧
        ∃ n0 sc0, u.cave.noise = some n0 ∧ u.cave.scent = some sc0 ∧
          ∀ y x, n0 y x = 0 ∧ sc0 y x = 0) →
      u.cave.squares = some g0 → cave_new_row u c = some t →
      (cave_frame s t ∧ t.trace = s.trace ∧ t.cave.squares.isSome = true ∧
        ∃ n0 sc0, t.cave.noise = some n0 ∧ t.cave.scent = some sc0 ∧
          ∀ y x, n0 y x = 0 ∧ sc0 y x = 0) ∧
        ∃ g1, t.cave.squares = some g1 ∧
          (∀ y1 x1, y1 = (c : Int) → g1 y1 x1 =
            (fun (_ x : Int) (_ : player_square) =>
              if 0 ≤ x ∧ x < s.cave.width then new_square else zero_square)
              y1 x1 (g0 y1 x1)) ∧
          (∀ y1 x1, ¬ y1 = (c : Int) → g1 y1 x1 = g0 y1 x1) := by
    intro u t c g0 hc hq hg0 e
    obtain ⟨hfr, htr, _, n0, sc0, hn0, hsc0, hz0⟩ := hq
    obtain ⟨_, c1⟩ := mem_range_toNat _ _ hc
    obtain ⟨t', g1, e', hfr', htr', hg1, hn1, hsc1, hin, hout⟩ :=
      cave_new_row_spec u g0 n0 sc0 c (by rw [hfr.2.1]; exact c1) hg0 hn0 hsc0
        (by rw [hfr.2.2.1]; exact hw)
    rw [e'] at e
    simp only [Option.some.injEq] at e
    subst e
    refine ⟨⟨cave_frame_trans s u _ hfr hfr', htr'.trans htr, by rw [hg1]; rfl,
      _, _, hn1, hsc1, fun y x => ?_⟩, g1, hg1, fun y1 x1 h => ?_, hout⟩
    · unfold grid_zero_row
      constructor <;> split_ifs <;> first | rfl | exact (hz0 y x).1 | exact (hz0 y x).2
    · rw [hin y1 x1 h, hfr.2.2.1]
  have hq0 : cave_frame s s ∧ s.trace = s.trace ∧ s.cave.squares.isSome = true ∧
      ∃ n0 sc0, s.cave.noise = some n0 ∧ s.cave.scent = some sc0 ∧
        ∀ y x, n0 y x = 0 ∧ sc0 y x = 0 :=
    ⟨cave_frame_refl s, rfl, by rw [hg]; rfl, n, sc, hn, hsc, hz⟩
  obtain ⟨t, e, hq⟩ := foldlM_total cave_new_row
    (fun u => cave_frame s u ∧ u.trace = s.trace ∧ u.cave.squares.isSome = true ∧
      ∃ n0 sc0, u.cave.noise = some n0 ∧ u.cave.scent = some sc0 ∧
        ∀ y x, n0 y x = 0 ∧ sc0 y x = 0)
    (List.range s.cave.height.toNat)
    (fun u c hc hq => by
      obtain ⟨g0, hg0⟩ := Option.isSome_iff_exists.mp hq.2.2.1
      obtain ⟨n0, sc0, hn0, hsc0, _⟩ := hq.2.2.2
      obtain ⟨_, c1⟩ := mem_range_toNat _ _ hc
      obtain ⟨t', g1, e', _⟩ :=
        cave_new_row_spec u g0 n0 sc0 c (by rw [hq.1.2.1]; exact c1) hg0 hn0 hsc0
          (by rw [hq.1.2.2.1]; exact hw)
      exact ⟨t', e', (hstep u t' c g0 hc hq hg0 e').1⟩)
    s hq0
  obtain ⟨gt, hgt, hin, hout⟩ := foldlM_region cave_new_row _
    (fun u => u.cave.squares) (fun (c : Nat) y1 _ => y1 = (c : Int))
    (fun (_ x : Int) (_ : player_square) =>
      if 0 ≤ x ∧ x < s.cave.width then new_square else zero_square)
    (fun _ _ _ => rfl) _ hstep s t g hq0 hg e
  obtain ⟨hfr, htr, _, nt, sct, hnt, hsct, hzt⟩ := hq
  refine ⟨t, gt, nt, sct, e, hfr, htr, hgt, hnt, hsct, hzt, fun y1 x1 h1 h2 => ?_,
    fun y1 x1 h => ?_⟩
  · obtain ⟨my, cy⟩ := mem_range_toNat_of _ y1 h1 h2
    exact hin y1 x1 ⟨y1.toNat, my, cy.symm⟩
  · refine hout y1 x1 ?_
    rintro ⟨c, hc, h1⟩
    obtain ⟨c0, c1⟩ := mem_range_toNat _ _ hc
    exact h ⟨by rw [h1]; exact c0, by rw [h1]; exact c1⟩

theorem player_cave_new_unfold (s : grid_player) (height width : Int) (hh : 0 ≤ height) :
    player_cave_new s height width =
      (if s.cave.allocated then player_cave_free s else some s).bind (fun s1 =>
        ((List.range height.toNat).foldlM cave_new_row (new_init s1 height width)).bind
          (fun v => some { v with cave := { v.cave with allocated := true } })) := by
  unfold player_cave_new
  simp only [if_neg (not_lt.mpr hh)]
  by_cases ha : s.cave.allocated = true
  · rw [if_pos ha, if_pos ha]; rfl
  · rw [if_neg ha, if_neg ha]; rfl

/-- What `player_cave_new` builds, in closed form. -/
theorem player_cave_new_closed (s : grid_player) (height width : Int) (hwf : CaveWF s)
    (hh : 0 ≤ height) (hw : 0 ≤ width) :
    ∃ t, player_cave_new s height width = some t ∧ t.cave.allocated = true ∧
      t.cave.height = height ∧ t.cave.width = width ∧
      t.cave.squares = some (new_squares height width) ∧
      t.cave.noise = some (fun _ _ => 0) ∧ t.cave.scent = some (fun _ _ => 0) ∧
      t.feeling = s.feeling ∧ t.cave.feeling_squares = s.cave.feeling_squares := by
  have hpre : ∃ s1, (if s.cave.allocated then player_cave_free s else some s) = some s1 ∧
      s1.feeling = s.feeling ∧ s1.cave.feeling_squares = s.cave.feeling_squares := by
    cases ha : s.cave.allocated with
    | false => exact ⟨s, by simp, rfl, rfl⟩
    | true =>
      obtain ⟨hsq, hn, hsc⟩ := hwf ha
      obtain ⟨t, e, _, _, _, _, _, _, h7, h8, _⟩ := player_cave_free_allocated s ha hsq hn hsc
      exact ⟨t, by simpa using e, h7, h8⟩
  obtain ⟨s1, e1, hf1, hf2⟩ := hpre
  obtain ⟨t, gt, nt, sct, e, hfr, _, hgt, hnt, hsct, hz, hin, hout⟩ :=
    cave_new_rows_spec (new_init s1 height width) (fun _ _ => zero_square) (fun _ _ => 0)
      (fun _ _ => 0) rfl rfl rfl (fun _ _ => ⟨rfl, rfl⟩) hw
  change ∀ y1 x1 : Int, 0 ≤ y1 → y1 < height →
    gt y1 x1 = if 0 ≤ x1 ∧ x1 < width then new_square else zero_square at hin
  change ∀ y1 x1 : Int, ¬ (0 ≤ y1 ∧ y1 < height) → gt y1 x1 = zero_square at hout
  refine ⟨{ t with cave := { t.cave with allocated := true } }, ?_, rfl, hfr.2.1, hfr.2.2.1,
    ?_, ?_, ?_, hfr.1.trans hf1, hfr.2.2.2.1.trans hf2⟩
  · rw [player_cave_new_unfold s height width hh, e1, Option.some_bind]
    exact (congrArg (fun o => Option.bind o _) e).trans rfl
  · show t.cave.squares = _
    rw [hgt]
    congr 1
    funext y x
    unfold new_squares
    by_cases hy : 0 ≤ y ∧ y < height
    · rw [hin y x hy.1 hy.2]
      by_cases hx : 0 ≤ x ∧ x < width
      · rw [if_pos hx, if_pos ⟨hy.1, hy.2, hx.1, hx.2⟩]
      · rw [if_neg hx, if_neg (fun h => hx ⟨h.2.2.1, h.2.2.2⟩)]
    · rw [hout y x hy, if_neg (fun h => hy ⟨h.1, h.2.1⟩)]
  · show t.cave.noise = _
    rw [hnt]
    congr 1
    funext y x
    exact (hz y x).1
  · show t.cave.scent = _
    rw [hsct]
    congr 1
    funext y x
    exact (hz y x).2

/-- One pass of the loop of `player_cave_clear` with `full = true`. -/
theorem cave_clear_cell_full (F : SquareFlags) (s : grid_player)
    (g : Int → Int → player_square) (n sc : Int → Int → Nat) (y x : Int)
    (fl : Nat → Bool) (hg : s.cave.squares = some g) (hn : s.cave.noise = some n)
    (hsc : s.cave.scent = some sc) (he : in_extent s y x) (hi : (g y x).info = some fl) :
    cave_clear_cell F true s (y, x) =
      some (add_trace
        (with_flow (with_squares s (grid_set g y x (clear_square F true (g y x))))
          (grid_set n y x 0) (grid_set sc y x 0))
        [GridEvent.forget_pile y x, GridEvent.forget_trap y x]) := by
  obtain ⟨h1, h2, h3, h4⟩ := he
  simp [cave_clear_cell, square_forget, square_forget_pile, square_forget_trap, square_modify,
    sqinfo_wipe, erase_flow, in_extent, hg, hn, hsc, hi, h1, h2, h3, h4, add_trace,
    with_squares, with_flow, clear_square, grid_set_same, grid_set_set]

/-- One pass of the loop of `player_cave_clear` with `full = false`. -/
theorem cave_clear_cell_partial (F : SquareFlags) (s : grid_player)
    (g : Int → Int → player_square) (y x : Int)
    (fl : Nat → Bool) (hg : s.cave.squares = some g) (he : in_extent s y x)
    (hi : (g y x).info = some fl) :
    cave_clear_cell F false s (y, x) =
      some (add_trace (with_squares s (grid_set g y x (clear_square F false (g y x))))
        [GridEvent.forget_pile y x, GridEvent.forget_trap y x]) := by
  obtain ⟨h1, h2, h3, h4⟩ := he
  simp [cave_clear_cell, square_forget, square_forget_pile, square_forget_trap, square_modify,
    sqinfo_off, in_extent, hg, hi, h1, h2, h3, h4, add_trace,
    with_squares, clear_square, grid_set_same, grid_set_set]

theorem clear_square_idem (F : SquareFlags) (full : Bool) (a : player_square) :
    clear_square F full (clear_square F full a) = clear_square F full a := by
  unfold clear_square
  cases a.info with
  | none => rfl
  | some fl =>
    cases full with
    | true => rfl
    | false =>
      simp only [Option.map_some', Bool.false_eq_true, if_false]
      congr 2
      funext i
      split_ifs <;> rfl

theorem clear_square_info (F : SquareFlags) (full : Bool) (a : player_square)
    (h : a.info.isSome = true) : (clear_square F full a).info.isSome = true := by
  obtain ⟨fl, hfl⟩ := Option.isSome_iff_exists.mp h
  unfold clear_square
  rw [hfl]
  rfl

/-- One pass of the loop of `player_cave_clear`. -/
theorem cave_clear_cell_spec (F : SquareFlags) (full : Bool) (s : grid_player)
    (g : Int → Int → player_square) (n sc : Int → Int → Nat) (c : Int × Int)
    (hg : s.cave.squares = some g) (hn : s.cave.noise = some n)
    (hsc : s.cave.scent = some sc) (he : in_extent s c.1 c.2)
    (hi : (g c.1 c.2).info.isSome = true) :
    ∃ t, cave_clear_cell F full s c = some t ∧ cave_frame s t ∧
      t.cave.squares = some (grid_set g c.1 c.2 (clear_square F full (g c.1 c.2))) ∧
      t.cave.noise = some (grid_set n c.1 c.2 (if full then 0 else n c.1 c.2)) ∧
      t.cave.scent = some (grid_set sc c.1 c.2 (if full then 0 else sc c.1 c.2)) ∧
      (full = false → t.cave.noise = s.cave.noise ∧ t.cave.scent = s.cave.scent) ∧
      t.trace = s.trace ++ clear_cell_events c := by
  obtain ⟨fl, hfl⟩ := Option.isSome_iff_exists.mp hi
  obtain ⟨y, x⟩ := c
  have hself : ∀ m : Int → Int → Nat, grid_set m y x (m y x) = m := by
    intro m
    funext y1 x1
    unfold grid_set
    split_ifs with h
    · rw [h.1, h.2]
    · rfl
  cases full with
  | true =>
    exact ⟨_, cave_clear_cell_full F s g n sc y x fl hg hn hsc he hfl,
      ⟨rfl, rfl, rfl, rfl, rfl⟩, rfl, rfl, rfl, (fun h => Bool.noConfusion h), rfl⟩
  | false =>
    refine ⟨_, cave_clear_cell_partial F s g y x fl hg he hfl,
      ⟨rfl, rfl, rfl, rfl, rfl⟩, rfl, ?_, ?_, fun _ => ⟨rfl, rfl⟩, rfl⟩
    · simp only [Bool.false_eq_true, if_false]
      rw [hself n]
      exact hn
    · simp only [Bool.false_eq_true, if_false]
      rw [hself sc]
      exact hsc

/-- One pass of the loop of `player_cave_clear` keeps the loop invariant. -/
theorem cave_clear_cell_inv (F : SquareFlags) (full : Bool) (s u : grid_player)
    (c : Int × Int) (he : in_extent s c.1 c.2) (hq : clear_inv full s u) :
    ∃ t g n sc, cave_clear_cell F full u c = some t ∧ clear_inv full s t ∧
      u.cave.squares = some g ∧ u.cave.noise = some n ∧ u.cave.scent = some sc ∧
      t.cave.squares = some (grid_set g c.1 c.2 (clear_square F full (g c.1 c.2))) ∧
      t.cave.noise = some (grid_set n c.1 c.2 (if full then 0 else n c.1 c.2)) ∧
      t.cave.scent = some (grid_set sc c.1 c.2 (if full then 0 else sc c.1 c.2)) ∧
      t.trace = u.trace ++ clear_cell_events c := by
  obtain ⟨hfr, ⟨g, hg, hinfo⟩, hn, hsc, hkeep⟩ := hq
  obtain ⟨n, hn⟩ := Option.isSome_iff_exists.mp hn
  obtain ⟨sc, hsc⟩ := Option.isSome_iff_exists.mp hsc
  have heu : in_extent u c.1 c.2 :=
    ⟨he.1, by rw [hfr.2.1]; exact he.2.1, he.2.2.1, by rw [hfr.2.2.1]; exact he.2.2.2⟩
  obtain ⟨t, e, hfr', hg', hn', hsc', hkeep', htr⟩ :=
    cave_clear_cell_spec F full u g n sc c hg hn hsc heu (hinfo _ _ he)
  refine ⟨t, g, n, sc, e, ⟨cave_frame_trans s u t hfr hfr', ⟨_, hg', fun y x hyx => ?_⟩,
    by rw [hn']; rfl, by rw [hsc']; rfl, fun hf => ?_⟩, hg, hn, hsc, hg', hn', hsc', htr⟩
  · unfold grid_set
    split_ifs with h
    · exact clear_square_info F full _ (hinfo _ _ he)
    · exact hinfo y x hyx
  · exact ⟨(hkeep' hf).1.trans (hkeep hf).1, (hkeep' hf).2.trans (hkeep hf).2⟩

/-- The loop of `player_cave_clear` over coordinates `cs` inside the grid. -/
theorem cave_clear_cells_spec (F : SquareFlags) (full : Bool) (s : grid_player)
    (cs : List (Int × Int)) (g : Int → Int → player_square) (n sc : Int → Int → Nat)
    (hcs : ∀ c, c ∈ cs → in_extent s c.1 c.2)
    (hg : s.cave.squares = some g) (hn : s.cave.noise = some n)
    (hsc : s.cave.scent = some sc)
    (hinfo : ∀ y x, in_extent s y x → (g y x).info.isSome = true) :
    ∃ t gt nt sct, cs.foldlM (cave_clear_cell F full) s = some t ∧ cave_frame s t ∧
      t.cave.squares = some gt ∧ t.cave.noise = some nt ∧ t.cave.scent = some sct ∧
      (∀ y x, (y, x) ∈ cs → gt y x = clear_square F full (g y x)) ∧
      (∀ y x, (y, x) ∉ cs → gt y x = g y x) ∧
      (∀ y x, (y, x) ∈ cs → nt y x = (if full then 0 else n y x) ∧
        sct y x = (if full then 0 else sc y x)) ∧
      (full = false → nt = n ∧ sct = sc) ∧
      t.trace = s.trace ++ cs.flatMap clear_cell_events := by
  have hq0 : clear_inv full s s :=
    ⟨cave_frame_refl s, ⟨g, hg, hinfo⟩, by rw [hn]; rfl, by rw [hsc]; rfl, fun _ => ⟨rfl, rfl⟩⟩
  have hmem : ∀ y x : Int, (∃ c, c ∈ cs ∧ (y = c.1 ∧ x = c.2)) ↔ (y, x) ∈ cs := by
    intro y x
    constructor
    · rintro ⟨⟨cy, cx⟩, hc, h1, h2⟩
      rw [h1, h2]; exact hc
    · intro h
      exact ⟨(y, x), h, rfl, rfl⟩
  obtain ⟨t, e, hq⟩ := foldlM_total (cave_clear_cell F full) (clear_inv full s) cs
    (fun u c hc hq => by
      obtain ⟨t, _, _, _, e, hq', _⟩ := cave_clear_cell_inv F full s u c (hcs c hc) hq
      exact ⟨t, e, hq'⟩)
    s hq0
  obtain ⟨gt, hgt, hgin, hgout⟩ := foldlM_region (cave_clear_cell F full) (clear_inv full s)
    (fun u => u.cave.squares) (fun (c : Int × Int) y x => y = c.1 ∧ x = c.2)
    (fun _ _ a => clear_square F full a) (fun _ _ a => clear_square_idem F full a) cs
    (fun u t c g0 hc hq hg0 e => by
      obtain ⟨t', g1, _, _, e', hq', hg1, _, _, hg', _⟩ :=
        cave_clear_cell_inv F full s u c (hcs c hc) hq
      rw [e'] at e
      simp only [Option.some.injEq] at e
      subst e
      replace hg0 : u.cave.squares = some g0 := hg0
      rw [hg0] at hg1
      simp only [Option.some.injEq] at hg1
      subst hg1
      refine ⟨hq', _, hg', fun y x h => ?_, fun y x h => ?_⟩
      · replace h : y = c.1 ∧ x = c.2 := h
        show grid_set _ c.1 c.2 _ y x = _
        unfold grid_set; rw [if_pos h, h.1, h.2]
      · replace h : ¬ (y = c.1 ∧ x = c.2) := h
        unfold grid_set; rw [if_neg h])
    s t g hq0 hg e
  obtain ⟨nt, hnt, hnin, _⟩ := foldlM_region (cave_clear_cell F full) (clear_inv full s)
    (fun u => u.cave.noise) (fun (c : Int × Int) y x => y = c.1 ∧ x = c.2)
    (fun _ _ (a : Nat) => if full then 0 else a)
    (fun _ _ a => by cases full <;> rfl) cs
    (fun u t c n0 hc hq hn0 e => by
      obtain ⟨t', _, n1, _, e', hq', _, hn1, _, _, hn', _⟩ :=
        cave_clear_cell_inv F full s u c (hcs c hc) hq
      rw [e'] at e
      simp only [Option.some.injEq] at e
      subst e
      replace hn0 : u.cave.noise = some n0 := hn0
      rw [hn0] at hn1
      simp only [Option.some.injEq] at hn1
      subst hn1
      refine ⟨hq', _, hn', fun y x h => ?_, fun y x h => ?_⟩
      · replace h : y = c.1 ∧ x = c.2 := h
        show grid_set _ c.1 c.2 _ y x = _
        unfold grid_set; rw [if_pos h, h.1, h.2]
      · replace h : ¬ (y = c.1 ∧ x = c.2) := h
        unfold grid_set; rw [if_neg h])
    s t n hq0 hn e
  obtain ⟨sct, hsct, hsin, _⟩ := foldlM_region (cave_clear_cell F full) (clear_inv full s)
    (fun u => u.cave.scent) (fun (c : Int × Int) y x => y = c.1 ∧ x = c.2)
    (fun _ _ (a : Nat) => if full then 0 else a)
    (fun _ _ a => by cases full <;> rfl) cs
    (fun u t c sc0 hc hq hsc0 e => by
      obtain ⟨t', _, _, sc1, e', hq', _, _, hsc1, _, _, hsc', _⟩ :=
        cave_clear_cell_inv F full s u c (hcs c hc) hq
      rw [e'] at e
      simp only [Option.some.injEq] at e
      subst e
      replace hsc0 : u.cave.scent = some sc0 := hsc0
      rw [hsc0] at hsc1
      simp only [Option.some.injEq] at hsc1
      subst hsc1
      refine ⟨hq', _, hsc', fun y x h => ?_, fun y x h => ?_⟩
      · replace h : y = c.1 ∧ x = c.2 := h
        show grid_set _ c.1 c.2 _ y x = _
        unfold grid_set; rw [if_pos h, h.1, h.2]
      · replace h : ¬ (y = c.1 ∧ x = c.2) := h
        unfold grid_set; rw [if_neg h])
    s t sc hq0 hsc e
  have htr := foldlM_trace (cave_clear_cell F full) (clear_inv full s) clear_cell_events cs
    (fun u t c hc hq e => by
      obtain ⟨t', _, _, _, e', hq', _, _, _, _, _, _, htr⟩ :=
        cave_clear_cell_inv F full s u c (hcs c hc) hq
      rw [e'] at e
      simp only [Option.some.injEq] at e
      subst e
      exact ⟨hq', htr⟩)
    s t hq0 e
  refine ⟨t, gt, nt, sct, e, hq.1, hgt, hnt, hsct,
    fun y x h => hgin y x ((hmem y x).mpr h),
    fun y x h => hgout y x (fun h' => h ((hmem y x).mp h')),
    fun y x h => ⟨hnin y x ((hmem y x).mpr h), hsin y x ((hmem y x).mpr h)⟩,
    fun hf => ?_, htr⟩
  obtain ⟨k1, k2⟩ := hq.2.2.2.2 hf
  rw [hnt, hn] at k1
  rw [hsct, hsc] at k2
  exact ⟨Option.some.inj k1, Option.some.inj k2⟩

theorem mem_box_cells (w h y x : Int) :
    (y, x) ∈ box_cells w h ↔ 0 ≤ y ∧ y < h ∧ 0 ≤ x ∧ x < w := by
  unfold box_cells
  rw [List.mem_flatMap]
  constructor
  · rintro ⟨a, ha, hm⟩
    obtain ⟨b, hb, hab⟩ := List.mem_map.mp hm
    obtain ⟨a0, a1⟩ := mem_range_toNat _ _ ha
    obtain ⟨b0, b1⟩ := mem_range_toNat _ _ hb
    have hy : (a : Int) = y := congrArg Prod.fst hab
    have hx : (b : Int) = x := congrArg Prod.snd hab
    rw [← hy, ← hx]
    exact ⟨a0, a1, b0, b1⟩
  · rintro ⟨h1, h2, h3, h4⟩
    obtain ⟨my, cy⟩ := mem_range_toNat_of h y h1 h2
    obtain ⟨mx, cx⟩ := mem_range_toNat_of w x h3 h4
    exact ⟨y.toNat, my, List.mem_map.mpr ⟨x.toNat, mx, by rw [cy, cx]⟩⟩

theorem loc_iterator_cells_eq (w h : Int) (hw : 0 < w) (hh : 0 < h) :
    loc_iterator_cells w h = box_cells w h := by
  have hm : (0, 0) ∈ box_cells w h := (mem_box_cells w h 0 0).mpr ⟨le_refl _, hh, le_refl _, hw⟩
  unfold loc_iterator_cells
  cases hb : box_cells w h with
  | nil => rw [hb] at hm; cases hm
  | cons c cs => rfl

/-- The walk of `player_cave_clear` over an allocated grid of positive
width and height, for either value of `full`. -/
theorem player_cave_clear_walk_spec (F : SquareFlags) (full : Bool) (s : grid_player)
    (g : Int → Int → player_square) (n sc : Int → Int → Nat)
    (hg : s.cave.squares = some g) (hn : s.cave.noise = some n)
    (hsc : s.cave.scent = some sc)
    (hinfo : ∀ y x, in_extent s y x → (g y x).info.isSome = true)
    (hw : 0 < s.cave.width) (hh : 0 < s.cave.height) :
    ∃ t gt nt sct, player_cave_clear_walk F full s = some t ∧
      t.feeling = (if full then -1 else s.feeling) ∧
      t.cave.feeling_squares = (if full then 0 else s.cave.feeling_squares) ∧
      t.cave.height = s.cave.height ∧ t.cave.width = s.cave.width ∧
      t.cave.allocated = s.cave.allocated ∧
      t.cave.squares = some gt ∧ t.cave.noise = some nt ∧ t.cave.scent = some sct ∧
      (∀ y x, in_extent s y x → gt y x = clear_square F full (g y x)) ∧
      (∀ y x, ¬ in_extent s y x → gt y x = g y x) ∧
      (∀ y x, in_extent s y x → nt y x = (if full then 0 else n y x) ∧
        sct y x = (if full then 0 else sc y x)) ∧
      (full = false → nt = n ∧ sct = sc) ∧
      t.trace = s.trace ++ (box_cells s.cave.width s.cave.height).flatMap clear_cell_events := by
  have key : ∀ s0 : grid_player, s0.cave.height = s.cave.height →
      s0.cave.width = s.cave.width → s0.cave.squares = some g → s0.cave.noise = some n →
      s0.cave.scent = some sc → s0.trace = s.trace → s0.cave.allocated = s.cave.allocated →
      ∃ t gt nt sct,
        (loc_iterator_cells s0.cave.width s0.cave.height).foldlM (cave_clear_cell F full) s0 =
          some t ∧
        t.feeling = s0.feeling ∧ t.cave.feeling_squares = s0.cave.feeling_squares ∧
        t.cave.height = s.cave.height ∧ t.cave.width = s.cave.width ∧
        t.cave.allocated = s.cave.allocated ∧
        t.cave.squares = some gt ∧ t.cave.noise = some nt ∧ t.cave.scent = some sct ∧
        (∀ y x, in_extent s y x → gt y x = clear_square F full (g y x)) ∧
        (∀ y x, ¬ in_extent s y x → gt y x = g y x) ∧
        (∀ y x, in_extent s y x → nt y x = (if full then 0 else n y x) ∧
          sct y x = (if full then 0 else sc y x)) ∧
        (full = false → nt = n ∧ sct = sc) ∧
        t.trace = s.trace ++
          (box_cells s.cave.width s.cave.height).flatMap clear_cell_events := by
    intro s0 e1 e2 hg0 hn0 hsc0 etr eal
    have hext : ∀ y x, in_extent s0 y x ↔ in_extent s y x := by
      intro y x
      unfold in_extent
      rw [e1, e2]
    have hbox : ∀ y x, (y, x) ∈ box_cells s.cave.width s.cave.height ↔ in_extent s y x :=
      fun y x => mem_box_cells _ _ y x
    rw [e1, e2, loc_iterator_cells_eq _ _ hw hh]
    obtain ⟨t, gt, nt, sct, e, hfr, hgt, hnt, hsct, k1, k2, k3, k4, k5⟩ :=
      cave_clear_cells_spec F full s0 (box_cells s.cave.width s.cave.height) g n sc
        (fun c hc => (hext c.1 c.2).mpr ((hbox c.1 c.2).mp hc)) hg0 hn0 hsc0
        (fun y x h => hinfo y x ((hext y x).mp h))
    exact ⟨t, gt, nt, sct, e, hfr.1, hfr.2.2.2.1, hfr.2.1.trans e1, hfr.2.2.1.trans e2,
      hfr.2.2.2.2.trans eal, hgt, hnt, hsct,
      fun y x h => k1 y x ((hbox y x).mpr h),
      fun y x h => k2 y x (fun h' => h ((hbox y x).mp h')),
      fun y x h => k3 y x ((hbox y x).mpr h), k4, by rw [k5, etr]⟩
  cases full with
  | true =>
    exact key { feeling := -1, cave := { s.cave with feeling_squares := 0 }, trace := s.trace }
      rfl rfl hg hn hsc rfl rfl
  | false => exact key s rfl rfl hg hn hsc rfl rfl

/-- C23: on a grid whose three arrays are present and whose cells in range
have their flag sets, as an allocated grid has, of width > 0 and height > 0,
`player_cave_clear` with `full = true` runs to its end; before
`memorize_houses` runs, every cell in range has an empty flag set, no
remembered terrain, no object pile and no trap, noise and scent are zero at
every coordinate in range, `feeling` is -1, `feeling_squares` is 0, and width
and height are unchanged.  In particular this holds for the grid
`player_cave_new` builds from any prior state `s0` with dimensions
`height, width > 0`. -/
theorem player_cave_clear_full (memorize_houses : grid_player → grid_player)
    (F : SquareFlags) (s s0 : grid_player) (height width : Int)
    (g : Int → Int → player_square) (n sc : Int → Int → Nat)
    (hg : s.cave.squares = some g) (hn : s.cave.noise = some n)
    (hsc : s.cave.scent = some sc)
    (hinfo : ∀ y x, in_extent s y x → (g y x).info.isSome = true)
    (hw : 0 < s.cave.width) (hh : 0 < s.cave.height)
    (hwf0 : CaveWF s0) (hh0 : 0 < height) (hw0 : 0 < width) :
    (∃ t gt nt sct, player_cave_clear_walk F true s = some t ∧
      player_cave_clear memorize_houses F true s = some (memorize_houses t) ∧
      t.feeling = -1 ∧ t.cave.feeling_squares = 0 ∧
      t.cave.width = s.cave.width ∧ t.cave.height = s.cave.height ∧
      t.cave.squares = some gt ∧ t.cave.noise = some nt ∧ t.cave.scent = some sct ∧
      ∀ y x : Int, 0 ≤ y → y < s.cave.height → 0 ≤ x → x < s.cave.width →
        (gt y x).info = some (fun _ => false) ∧ (gt y x).feat = 0 ∧ (gt y x).obj = none ∧
          (gt y x).trap = none ∧ nt y x = 0 ∧ sct y x = 0) ∧
    (∃ t1 t gt nt sct, player_cave_new s0 height width = some t1 ∧
      player_cave_clear_walk F true t1 = some t ∧
      t.feeling = -1 ∧ t.cave.feeling_squares = 0 ∧
      t.cave.width = width ∧ t.cave.height = height ∧
      t.cave.squares = some gt ∧ t.cave.noise = some nt ∧ t.cave.scent = some sct ∧
      ∀ y x : Int, 0 ≤ y → y < height → 0 ≤ x → x < width →
        (gt y x).info = some (fun _ => false) ∧ (gt y x).feat = 0 ∧ (gt y x).obj = none ∧
          (gt y x).trap = none ∧ nt y x = 0 ∧ sct y x = 0) := by
  have cell : ∀ a : player_square, a.info.isSome = true →
      (clear_square F true a).info = some (fun _ => false) ∧ (clear_square F true a).feat = 0 ∧
        (clear_square F true a).obj = none ∧ (clear_square F true a).trap = none := by
    intro a ha
    obtain ⟨fl, hfl⟩ := Option.isSome_iff_exists.mp ha
    unfold clear_square
    rw [hfl]
    exact ⟨rfl, rfl, rfl, rfl⟩
  constructor
  · obtain ⟨t, gt, nt, sct, e, h1, h2, h3, h4, _, h6, h7, h8, h9, _, h11, _⟩ :=
      player_cave_clear_walk_spec F true s g n sc hg hn hsc hinfo hw hh
    refine ⟨t, gt, nt, sct, e, ?_, h1, h2, h4, h3, h6, h7, h8, fun y x hy0 hy hx0 hx => ?_⟩
    · unfold player_cave_clear
      rw [e]
      rfl
    · have he : in_extent s y x := ⟨hy0, hy, hx0, hx⟩
      obtain ⟨c1, c2, c3, c4⟩ := cell (g y x) (hinfo y x he)
      rw [h9 y x he]
      exact ⟨c1, c2, c3, c4, (h11 y x he).1, (h11 y x he).2⟩
  · obtain ⟨t1, e1, _, k2, k3, k4, k5, k6, _⟩ :=
      player_cave_new_closed s0 height width hwf0 (le_of_lt hh0) (le_of_lt hw0)
    have hinfo1 : ∀ y x, in_extent t1 y x → (new_squares height width y x).info.isSome = true := by
      intro y x he
      have he' : 0 ≤ y ∧ y < height ∧ 0 ≤ x ∧ x < width := by
        obtain ⟨a, b, c, d⟩ := he
        rw [k2] at b
        rw [k3] at d
        exact ⟨a, b, c, d⟩
      unfold new_squares
      rw [if_pos he']
      rfl
    obtain ⟨t, gt, nt, sct, e, h1, h2, h3, h4, _, h6, h7, h8, h9, _, h11, _⟩ :=
      player_cave_clear_walk_spec F true t1 (new_squares height width) (fun _ _ => 0)
        (fun _ _ => 0) k4 k5 k6 hinfo1 (by rw [k3]; exact hw0) (by rw [k2]; exact hh0)
    refine ⟨t1, t, gt, nt, sct, e1, e, h1, h2, h4.trans k3, h3.trans k2, h6, h7, h8,
      fun y x hy0 hy hx0 hx => ?_⟩
    have he : in_extent t1 y x := ⟨hy0, by rw [k2]; exact hy, hx0, by rw [k3]; exact hx⟩
    obtain ⟨c1, c2, c3, c4⟩ := cell (new_squares height width y x) (hinfo1 y x he)
    rw [h9 y x he]
    exact ⟨c1, c2, c3, c4, (h11 y x he).1, (h11 y x he).2⟩

/-- C23 at the sample allocated grid of height 2 and width 3 and, for the
second part, at a never-allocated grid given height 2 and width 3. -/
theorem player_cave_clear_full_witness :
    (0 : Int) < sample_grid_player.cave.width ∧ (0 : Int) < sample_grid_player.cave.height ∧
      CaveWF fresh_grid_player ∧
      ∃ t, player_cave_clear_walk sample_flags true sample_grid_player = some t ∧
        t.feeling = -1 ∧ t.cave.feeling_squares = 0 :=
  ⟨(by decide), (by decide), (fun h => Bool.noConfusion h),
    match (player_cave_clear_full id sample_flags sample_grid_player fresh_grid_player 2 3
      (fun y x => { feat := (y + x + 5).toNat, info := some (fun i => i % 2 = 1),
                    obj := some 8, trap := some 2 })
      (fun _ _ => 77) (fun _ _ => 5) rfl rfl rfl (fun _ _ _ => rfl) (by decide) (by decide)
      (fun h => Bool.noConfusion h) (by decide) (by decide)).1 with
    | ⟨t, _, _, _, e, _, h1, h2, _⟩ => ⟨t, e, h1, h2⟩⟩

/-- C24: on a grid whose three arrays are present and whose cells in range
have their flag sets, of width > 0 and height > 0, `player_cave_clear` with
`full = false` runs to its end; before `memorize_houses` runs, in every cell
in range the flags `SQUARE_SEEN`, `SQUARE_VIEW` and `SQUARE_DTRAP` are off
and every other flag has its previous value, and the noise and scent arrays,
`feeling`, `feeling_squares`, width and height are unchanged. -/
theorem player_cave_clear_partial_flags (memorize_houses : grid_player → grid_player)
    (F : SquareFlags) (s : grid_player)
    (g : Int → Int → player_square) (n sc : Int → Int → Nat)
    (hg : s.cave.squares = some g) (hn : s.cave.noise = some n)
    (hsc : s.cave.scent = some sc)
    (hinfo : ∀ y x, in_extent s y x → (g y x).info.isSome = true)
    (hw : 0 < s.cave.width) (hh : 0 < s.cave.height) :
    ∃ t gt, player_cave_clear_walk F false s = some t ∧
      player_cave_clear memorize_houses F false s = some (memorize_houses t) ∧
      t.cave.squares = some gt ∧
      (∀ y x : Int, 0 ≤ y → y < s.cave.height → 0 ≤ x → x < s.cave.width →
        ∃ fl fl1, (g y x).info = some fl ∧ (gt y x).info = some fl1 ∧
          fl1 F.SQUARE_SEEN = false ∧ fl1 F.SQUARE_VIEW = false ∧
          fl1 F.SQUARE_DTRAP = false ∧
          ∀ i, i ≠ F.SQUARE_SEEN → i ≠ F.SQUARE_VIEW → i ≠ F.SQUARE_DTRAP → fl1 i = fl i) ∧
      t.cave.noise = s.cave.noise ∧ t.cave.scent = s.cave.scent ∧
      t.feeling = s.feeling ∧ t.cave.feeling_squares = s.cave.feeling_squares ∧
      t.cave.width = s.cave.width ∧ t.cave.height = s.cave.height := by
  obtain ⟨t, gt, nt, sct, e, h1, h2, h3, h4, _, h6, h7, h8, h9, _, _, h12, _⟩ :=
    player_cave_clear_walk_spec F false s g n sc hg hn hsc hinfo hw hh
  obtain ⟨k1, k2⟩ := h12 rfl
  refine ⟨t, gt, e, ?_, h6, fun y x hy0 hy hx0 hx => ?_, by rw [h7, hn, k1],
    by rw [h8, hsc, k2], by simpa using h1, by simpa using h2, h4, h3⟩
  · unfold player_cave_clear
    rw [e]
    rfl
  · have he : in_extent s y x := ⟨hy0, hy, hx0, hx⟩
    obtain ⟨fl, hfl⟩ := Option.isSome_iff_exists.mp (hinfo y x he)
    refine ⟨fl, (fun i => if i = F.SQUARE_DTRAP then false else if i = F.SQUARE_VIEW then false
      else if i = F.SQUARE_SEEN then false else fl i), hfl, ?_, ?_, ?_, ?_, ?_⟩
    · rw [h9 y x he]
      unfold clear_square
      rw [hfl]
      rfl
    · show (if _ then _ else _) = false
      split_ifs <;> first | rfl | contradiction
    · show (if _ then _ else _) = false
      split_ifs <;> first | rfl | contradiction
    · show (if _ then _ else _) = false
      split_ifs <;> first | rfl | contradiction
    · intro i i1 i2 i3
      show (if _ then _ else _) = fl i
      rw [if_neg i3, if_neg i2, if_neg i1]

/-- C24 at the sample allocated grid of height 2 and width 3. -/
theorem player_cave_clear_partial_flags_witness :
    (0 : Int) < sample_grid_player.cave.width ∧ (0 : Int) < sample_grid_player.cave.height ∧
      ∃ t, player_cave_clear_walk sample_flags false sample_grid_player = some t ∧
        t.cave.noise = sample_grid_player.cave.noise ∧ t.feeling = 7 :=
  ⟨(by decide), (by decide),
    match player_cave_clear_partial_flags id sample_flags sample_grid_player
      (fun y x => { feat := (y + x + 5).toNat, info := some (fun i => i % 2 = 1),
                    obj := some 8, trap := some 2 })
      (fun _ _ => 77) (fun _ _ => 5) rfl rfl rfl (fun _ _ _ => rfl) (by decide) (by decide) with
    | ⟨t, _, e, _, _, _, h1, _, h2, _⟩ => ⟨t, e, h1, h2⟩⟩

/-- What the walk of `player_cave_clear` with `full = false` does to the
remembered terrain, object pile and trap of the cells in range. -/
theorem player_cave_clear_walk_partial_cells (F : SquareFlags) (s : grid_player)
    (g : Int → Int → player_square) (n sc : Int → Int → Nat)
    (hg : s.cave.squares = some g) (hn : s.cave.noise = some n)
    (hsc : s.cave.scent = some sc)
    (hinfo : ∀ y x, in_extent s y x → (g y x).info.isSome = true)
    (hw : 0 < s.cave.width) (hh : 0 < s.cave.height) :
    ∃ t gt, player_cave_clear_walk F false s = some t ∧ t.cave.squares = some gt ∧
      ∀ y x : Int, 0 ≤ y → y < s.cave.height → 0 ≤ x → x < s.cave.width →
        (gt y x).feat = 0 ∧ (gt y x).obj = none ∧ (gt y x).trap = none := by
  obtain ⟨t, gt, nt, sct, e, _, _, _, _, _, h6, _, _, h9, _⟩ :=
    player_cave_clear_walk_spec F false s g n sc hg hn hsc hinfo hw hh
  refine ⟨t, gt, e, h6, fun y x hy0 hy hx0 hx => ?_⟩
  rw [h9 y x ⟨hy0, hy, hx0, hx⟩]
  exact ⟨rfl, rfl, rfl⟩

/-- C25 as stated fails: on the sample allocated grid of height 2 and width
3, whose cell (0, 0) remembers terrain 5, object pile 8 and trap 2, the walk
of `player_cave_clear` with `full = false` leaves that cell with terrain 0,
no object pile and no trap. -/
theorem player_cave_clear_partial_counterexample :
    ∃ t g gt, player_cave_clear_walk sample_flags false sample_grid_player = some t ∧
      sample_grid_player.cave.squares = some g ∧ t.cave.squares = some gt ∧
      (g 0 0).feat = 5 ∧ (gt 0 0).feat = 0 ∧ (gt 0 0).feat ≠ (g 0 0).feat ∧
      (g 0 0).obj = some 8 ∧ (gt 0 0).obj = none ∧ (gt 0 0).obj ≠ (g 0 0).obj ∧
      (g 0 0).trap = some 2 ∧ (gt 0 0).trap = none ∧ (gt 0 0).trap ≠ (g 0 0).trap :=
  match player_cave_clear_walk_partial_cells sample_flags sample_grid_player
      (fun y x => { feat := (y + x + 5).toNat, info := some (fun i => i % 2 = 1),
                    obj := some 8, trap := some 2 })
      (fun _ _ => 77) (fun _ _ => 5) rfl rfl rfl (fun _ _ _ => rfl) (by decide) (by decide) with
  | ⟨t, gt, e, hgt, hc⟩ =>
    match hc 0 0 (by decide) (by decide) (by decide) (by decide) with
    | ⟨c1, c2, c3⟩ =>
      ⟨t, _, gt, e, rfl, hgt, rfl, c1, (by rw [c1]; decide), rfl, c2, (by rw [c2]; decide),
        rfl, c3, (by rw [c3]; decide)⟩

/-- C25, amended: on a grid whose three arrays are present and whose cells
in range have their flag sets, of width > 0 and height > 0, the walk of
`player_cave_clear` with `full = false` runs to its end and forgets the
remembered terrain, object pile and trap of every cell in range, as it does
with `full = true`: afterwards the terrain is 0 and the object-pile and trap
references are empty, and `square_forget_pile` and `square_forget_trap` have
been called for the cell. -/
theorem player_cave_clear_partial_forgets (F : SquareFlags) (s : grid_player)
    (g : Int → Int → player_square) (n sc : Int → Int → Nat)
    (hg : s.cave.squares = some g) (hn : s.cave.noise = some n)
    (hsc : s.cave.scent = some sc)
    (hinfo : ∀ y x, in_extent s y x → (g y x).info.isSome = true)
    (hw : 0 < s.cave.width) (hh : 0 < s.cave.height) :
    ∃ t gt, player_cave_clear_walk F false s = some t ∧ t.cave.squares = some gt ∧
      ∀ y x : Int, 0 ≤ y → y < s.cave.height → 0 ≤ x → x < s.cave.width →
        (gt y x).feat = 0 ∧ (gt y x).obj = none ∧ (gt y x).trap = none ∧
          GridEvent.forget_pile y x ∈ t.trace ∧ GridEvent.forget_trap y x ∈ t.trace := by
  obtain ⟨t, gt, nt, sct, e, _, _, _, _, _, h6, _, _, h9, _, _, _, htr⟩ :=
    player_cave_clear_walk_spec F false s g n sc hg hn hsc hinfo hw hh
  refine ⟨t, gt, e, h6, fun y x hy0 hy hx0 hx => ?_⟩
  have hm : (y, x) ∈ box_cells s.cave.width s.cave.height :=
    (mem_box_cells _ _ y x).mpr ⟨hy0, hy, hx0, hx⟩
  rw [h9 y x ⟨hy0, hy, hx0, hx⟩, htr]
  refine ⟨rfl, rfl, rfl, List.mem_append_right _ (List.mem_flatMap.mpr ⟨(y, x), hm, ?_⟩),
    List.mem_append_right _ (List.mem_flatMap.mpr ⟨(y, x), hm, ?_⟩)⟩ <;>
  simp [clear_cell_events]

/-- C25, amended, at the sample allocated grid of height 2 and width 3. -/
theorem player_cave_clear_partial_forgets_witness :
    (0 : Int) < sample_grid_player.cave.width ∧ (0 : Int) < sample_grid_player.cave.height ∧
      ∃ t gt, player_cave_clear_walk sample_flags false sample_grid_player = some t ∧
        t.cave.squares = some gt ∧ (gt 1 2).feat = 0 :=
  ⟨(by decide), (by decide),
    match player_cave_clear_partial_forgets sample_flags sample_grid_player
      (fun y x => { feat := (y + x + 5).toNat, info := some (fun i => i % 2 = 1),
                    obj := some 8, trap := some 2 })
      (fun _ _ => 77) (fun _ _ => 5) rfl rfl rfl (fun _ _ _ => rfl) (by decide) (by decide) with
    | ⟨t, gt, e, hgt, hc⟩ =>
      ⟨t, gt, e, hgt, (hc 1 2 (by decide) (by decide) (by decide) (by decide)).1⟩⟩

/-! ## Teardown -/

/-- C27 at a fully constructed player: the first `cleanup_player` runs to
its end, releases the `gear` pile and leaves `p->gear` dangling, not NULL,
while the sibling `p->home` is NULL; the second `cleanup_player` on the
resulting state hands the dangling `gear` pile to `object_pile_free` again. -/
theorem cleanup_player_gear_dangling :
    (cleanup_player (some sample_player_mem)).map
        (Option.map (fun m => (m.heap Field.gear, m.heap Field.home,
          decide (Field.gear ∈ m.released)))) =
      some (some (pointer.freed, pointer.NULL, true)) ∧
    ((cleanup_player (some sample_player_mem)).bind cleanup_player).isNone = true := by
  constructor
  · decide
  · decide

/-! ## Safe names: auxiliary lemmas -/

theorem buf_write_writes (b : safe_buffer) (i : Nat) (c : Char) :
    (buf_write b i c).writes = b.writes ++ [i] := rfl

theorem buf_write_mem (b : safe_buffer) (i : Nat) (c : Char) (j : Nat) :
    (buf_write b i c).mem j = if j = i then c else b.mem j := rfl

theorem apply_writes_nil (b : safe_buffer) : apply_writes b [] = b := rfl

theorem apply_writes_cons (b : safe_buffer) (w : Nat × Char) (ws : List (Nat × Char)) :
    apply_writes b (w :: ws) = apply_writes (buf_write b w.1 w.2) ws := rfl

theorem apply_writes_append (b : safe_buffer) (ws vs : List (Nat × Char)) :
    apply_writes b (ws ++ vs) = apply_writes (apply_writes b ws) vs := by
  unfold apply_writes
  rw [List.foldl_append]

theorem apply_writes_writes (ws : List (Nat × Char)) :
    ∀ b : safe_buffer, (apply_writes b ws).writes = b.writes ++ ws.map Prod.fst := by
  induction ws with
  | nil => intro b; simp [apply_writes_nil]
  | cons w ws ih =>
    intro b
    rw [apply_writes_cons, ih, buf_write_writes, List.map_cons, List.append_assoc]
    rfl

theorem safe_name_loop_succ (name : List Char) (b : safe_buffer) (limit : Nat) :
    (List.range (limit + 1)).foldl (safe_name_body name) b =
      safe_name_body name ((List.range limit).foldl (safe_name_body name) b) limit := by
  rw [List.range_succ, List.foldl_append]
  rfl

/-- The indexes the loop of `player_safe_name` writes. -/
theorem safe_name_loop_writes (name : List Char) (b : safe_buffer) (limit : Nat) :
    ((List.range limit).foldl (safe_name_body name) b).writes =
      b.writes ++ List.range limit := by
  induction limit with
  | zero => simp
  | succ k ih =>
    rw [safe_name_loop_succ]
    show (buf_write _ k _).writes = _
    rw [buf_write_writes, ih, List.range_succ, List.append_assoc]

/-- The characters the loop of `player_safe_name` leaves. -/
theorem safe_name_loop_mem (name : List Char) (b : safe_buffer) (limit : Nat) (j : Nat) :
    ((List.range limit).foldl (safe_name_body name) b).mem j =
      if j < limit then safe_char (name.getD j NUL) else b.mem j := by
  induction limit with
  | zero => simp
  | succ k ih =>
    rw [safe_name_loop_succ]
    show (buf_write _ k (safe_char (name.getD k NUL))).mem j = _
    rw [buf_write_mem]
    by_cases hjk : j = k
    · rw [if_pos hjk, if_pos (by omega), hjk]
    · rw [if_neg hjk, ih]
      by_cases hlt : j < k
      · rw [if_pos hlt, if_pos (by omega)]
      · rw [if_neg hlt, if_neg (by omega)]

theorem isalpha_NUL : isalpha NUL = false := by decide

theorem isdigit_NUL : isdigit NUL = false := by decide

/-- A converted character is never the terminator. -/
theorem safe_char_ne_NUL (c : Char) : safe_char c ≠ NUL := by
  unfold safe_char
  by_cases h : (!isalpha c && !isdigit c) = true
  · rw [if_pos h]; decide
  · rw [if_neg h]
    intro hc
    rw [hc, isalpha_NUL, isdigit_NUL] at h
    exact h rfl

/-- A converted character is a letter, a digit or the underscore. -/
theorem safe_char_ok (c : Char) :
    isalpha (safe_char c) = true ∨ isdigit (safe_char c) = true ∨ safe_char c = '_' := by
  unfold safe_char
  by_cases h : (!isalpha c && !isdigit c) = true
  · rw [if_pos h]; exact Or.inr (Or.inr rfl)
  · rw [if_neg h]
    cases ha : isalpha c with
    | true => exact Or.inl rfl
    | false =>
      cases hd : isdigit c with
      | true => exact Or.inr (Or.inl rfl)
      | false => rw [ha, hd] at h; exact absurd rfl h

/-- The prefix `takeWhile` returns agrees with the list, satisfies the test
throughout, and stops at an element that fails it. -/
theorem takeWhile_spec {α : Type} (p : α → Bool) (d : α) (l : List α) :
    (l.takeWhile p).length ≤ l.length ∧
    (∀ i, i < (l.takeWhile p).length →
      (l.takeWhile p).getD i d = l.getD i d ∧ p (l.getD i d) = true) ∧
    ((l.takeWhile p).length < l.length → p (l.getD (l.takeWhile p).length d) = false) := by
  induction l with
  | nil => simp
  | cons a l ih =>
    cases hp : p a with
    | false =>
      rw [List.takeWhile_cons_of_neg (by rw [hp]; simp)]
      refine ⟨Nat.zero_le _, fun i hi => absurd hi (Nat.not_lt_zero _), fun _ => ?_⟩
      simpa using hp
    | true =>
      rw [List.takeWhile_cons_of_pos hp]
      obtain ⟨h1, h2, h3⟩ := ih
      refine ⟨by simpa using h1, fun i hi => ?_, fun hlt => ?_⟩
      · cases i with
        | zero => simpa using hp
        | succ i =>
          have := h2 i (by simpa using hi)
          simpa using this
      · have := h3 (by simpa using hlt)
        simpa using this

theorem getD_map_range (mem : Nat → Char) (n i : Nat) (h : i < n) :
    ((List.range n).map mem).getD i NUL = mem i := by
  simp [List.getD_eq_getElem?_getD, h]

/-- The string read from the buffer agrees with the buffer, holds no
terminator, and is followed by one when it is shorter than the bound. -/
theorem c_string_spec (mem : Nat → Char) (n : Nat) :
    (c_string mem n).length ≤ n ∧
    (∀ i, i < (c_string mem n).length →
      (c_string mem n).getD i NUL = mem i ∧ mem i ≠ NUL) ∧
    ((c_string mem n).length < n → mem (c_string mem n).length = NUL) := by
  obtain ⟨h1, h2, h3⟩ :=
    takeWhile_spec (fun c => decide (c ≠ NUL)) NUL ((List.range n).map mem)
  have hlen : ((List.range n).map mem).length = n := by simp
  rw [hlen] at h1 h3
  refine ⟨h1, fun i hi => ?_, fun hlt => ?_⟩
  · obtain ⟨a, b⟩ := h2 i hi
    have hin : i < n := lt_of_lt_of_le hi h1
    rw [getD_map_range mem n i hin] at a b
    exact ⟨a, by simpa using b⟩
  · have := h3 hlt
    change decide (((List.range n).map mem).getD (c_string mem n).length NUL ≠ NUL) = false
      at this
    rw [getD_map_range mem n _ hlt] at this
    simpa using this

/-- A buffer with a terminator at `k` and none before it holds the string of
its first `k` characters. -/
theorem c_string_of_terminator (mem : Nat → Char) (n k : Nat) (hk : k < n)
    (hnul : mem k = NUL) (hbefore : ∀ i, i < k → mem i ≠ NUL) :
    c_string mem n = (List.range k).map mem := by
  obtain ⟨h1, h2, h3⟩ := c_string_spec mem n
  have hlen : (c_string mem n).length = k := by
    rcases Nat.lt_trichotomy (c_string mem n).length k with h | h | h
    · exact absurd (h3 (lt_trans h hk)) (hbefore _ h)
    · exact h
    · exact absurd hnul (h2 k h).2
  apply List.ext_getElem
  · rw [hlen]; simp
  · intro i hi1 hi2
    have := (h2 i hi1).1
    rw [List.getD_eq_getElem _ _ hi1] at this
    rw [this]
    simp

theorem PLAYER_no_NUL : NUL ∉ PLAYER := by decide

theorem PLAYER_alpha : ∀ c, c ∈ PLAYER → isalpha c = true := by decide

/-- With no name or an empty name `player_safe_name` writes the terminator
at index 0 and then calls `my_strcpy(safe, "PLAYER", safelen)`. -/
theorem player_safe_name_fallback (my_strcpy : List Char → Nat → List (Nat × Char))
    (b : safe_buffer) (safelen : Nat) (name : Option (List Char))
    (hname : name = none ∨ name = some []) :
    player_safe_name my_strcpy b safelen name =
      apply_writes (buf_write b 0 NUL) (my_strcpy PLAYER safelen) := by
  rcases hname with h | h <;> subst h <;> simp [player_safe_name, buf_write]

/-- With a name of at least one character and `safelen ≥ 1`,
`player_safe_name` runs its loop over `min (strlen name) safelen` characters
and writes the terminator at that index; `my_strcpy` is not called. -/
theorem player_safe_name_named (my_strcpy : List Char → Nat → List (Nat × Char))
    (b : safe_buffer) (safelen : Nat) (n : List Char) (hn : 0 < n.length)
    (hlen : 0 < safelen) :
    player_safe_name my_strcpy b safelen (some n) =
      buf_write ((List.range (min n.length safelen)).foldl (safe_name_body n) b)
        (min n.length safelen) NUL := by
  have hpos : 0 < min n.length safelen := lt_min hn hlen
  have h0 : (buf_write ((List.range (min n.length safelen)).foldl (safe_name_body n) b)
      (min n.length safelen) NUL).mem 0 ≠ NUL := by
    rw [buf_write_mem, if_neg (by omega), safe_name_loop_mem, if_pos hpos]
    exact safe_char_ne_NUL _
  unfold player_safe_name
  simp only [Option.getD_some]
  rw [if_neg h0]

/-- The write past the end: when the name has at least `safelen`
characters, `player_safe_name` writes the indexes `0 .. safelen - 1` in its
loop and then the terminator at index `safelen`, one past the last element of
a buffer of `safelen` characters. -/
theorem player_safe_name_terminator_index (my_strcpy : List Char → Nat → List (Nat × Char))
    (b : safe_buffer) (safelen : Nat) (n : List Char) (hlen : 0 < safelen)
    (hn : safelen ≤ n.length) :
    (player_safe_name my_strcpy b safelen (some n)).writes =
        b.writes ++ List.range safelen ++ [safelen] ∧
      (player_safe_name my_strcpy b safelen (some n)).mem safelen = NUL := by
  rw [player_safe_name_named my_strcpy b safelen n (lt_of_lt_of_le hlen hn) hlen,
    min_eq_right hn, buf_write_writes, safe_name_loop_writes, buf_write_mem, if_pos rfl]
  exact ⟨rfl, rfl⟩

/-- The write past the end at the name `abcd` and a buffer of 3 characters:
the indexes written are 0, 1, 2 and 3. -/
theorem player_safe_name_terminator_index_witness :
    (0 : Nat) < 3 ∧ 3 ≤ ['a', 'b', 'c', 'd'].length ∧
      (player_safe_name my_strcpy_bounded sample_safe_buffer 3
        (some ['a', 'b', 'c', 'd'])).writes = [0, 1, 2, 3] :=
  ⟨(by decide), (by decide),
    (player_safe_name_terminator_index my_strcpy_bounded sample_safe_buffer 3
      ['a', 'b', 'c', 'd'] (by decide) (by decide)).1⟩

/-- A buffer that holds the terminator-free string `S` followed by a
terminator, within the bound, reads as `S`. -/
theorem c_string_eq_of (mem : Nat → Char) (n : Nat) (S : List Char) (hS : S.length < n)
    (hnul : mem S.length = NUL) (hget : ∀ i, i < S.length → mem i = S.getD i NUL)
    (hno : NUL ∉ S) : c_string mem n = S := by
  have hbefore : ∀ i, i < S.length → mem i ≠ NUL := by
    intro i hi hc
    rw [hget i hi, List.getD_eq_getElem _ _ hi] at hc
    exact hno (hc ▸ List.getElem_mem hi)
  rw [c_string_of_terminator mem n S.length hS hnul hbefore]
  apply List.ext_getElem
  · simp
  · intro i hi1 hi2
    have hi : i < S.length := by simpa using hi1
    rw [List.getElem_map, List.getElem_range, hget i hi, List.getD_eq_getElem _ _ hi]

/-- The characters a run of assignments `safe[i] = g i` for `i < L` leaves. -/
theorem apply_writes_range_mem (g : Nat → Char) (b : safe_buffer) (L : Nat) (j : Nat) :
    (apply_writes b ((List.range L).map (fun (i : Nat) => (i, g i)))).mem j =
      if j < L then g j else b.mem j := by
  induction L with
  | zero => simp [apply_writes_nil]
  | succ k ih =>
    rw [List.range_succ, List.map_append, apply_writes_append]
    show (buf_write _ k (g k)).mem j = _
    rw [buf_write_mem]
    by_cases hjk : j = k
    · rw [if_pos hjk, if_pos (by omega), hjk]
    · rw [if_neg hjk, ih]
      by_cases hlt : j < k
      · rw [if_pos hlt, if_pos (by omega)]
      · rw [if_neg hlt, if_neg (by omega)]

/-- The bounded copy meets the contract `StrcpyOk`. -/
theorem my_strcpy_bounded_ok : StrcpyOk my_strcpy_bounded := by
  intro src bufsize hpos hno
  have hdef : my_strcpy_bounded src bufsize =
      (List.range (min src.length (bufsize - 1))).map (fun (i : Nat) => (i, src.getD i NUL)) ++
        [(min src.length (bufsize - 1), NUL)] := by
    unfold my_strcpy_bounded
    rw [if_neg (by omega)]
  have hL : min src.length (bufsize - 1) < bufsize := by
    have := min_le_right src.length (bufsize - 1)
    omega
  constructor
  · intro w hw
    rw [hdef, List.mem_append] at hw
    rcases hw with hw | hw
    · obtain ⟨i, hi, rfl⟩ := List.mem_map.mp hw
      rw [List.mem_range] at hi
      exact lt_trans hi hL
    · rw [List.mem_singleton] at hw
      rw [hw]
      exact hL
  · intro b
    have hlen : (src.take (bufsize - 1)).length = min src.length (bufsize - 1) := by
      rw [List.length_take, min_comm]
    apply c_string_eq_of
    · rw [hlen]; exact hL
    · rw [hdef, apply_writes_append, hlen]
      show (buf_write _ _ NUL).mem _ = NUL
      rw [buf_write_mem, if_pos rfl]
    · intro i hi
      rw [hlen] at hi
      rw [hdef, apply_writes_append]
      show (buf_write _ _ NUL).mem i = _
      rw [buf_write_mem, if_neg (by omega), apply_writes_range_mem, if_pos hi]
      have h1 : i < src.length := lt_of_lt_of_le hi (min_le_left _ _)
      have h2 : i < (src.take (bufsize - 1)).length := by rw [hlen]; exact hi
      rw [List.getD_eq_getElem _ _ h1, List.getD_eq_getElem _ _ h2, List.getElem_take]
    · intro hmem
      exact hno (List.mem_of_mem_take hmem)

/-- A string that ends inside the bound is followed by its terminator
there. -/
theorem c_string_terminated (mem : Nat → Char) (n : Nat) (h : (c_string mem n).length < n) :
    ∃ k, k < n ∧ mem k = NUL ∧ c_string mem n = (List.range k).map mem := by
  obtain ⟨_, h2, h3⟩ := c_string_spec mem n
  exact ⟨(c_string mem n).length, h, h3 h,
    c_string_of_terminator mem n _ h (h3 h) (fun i hi => (h2 i hi).2)⟩

/-! ## Safe names: names shorter than the buffer -/

/-- The behaviour for names that fit: for a bounded copy `my_strcpy` and every name, absent or
empty included, that is shorter than the buffer (`strlen name < safelen`,
hence `safelen ≥ 1`), every index `player_safe_name` writes, the terminator
included, is below `safelen`; the buffer then holds a terminated string whose
characters are letters, digits or `_`; when the name is absent or empty that
string is `PLAYER` cut to at most `safelen - 1` characters, hence `PLAYER`
itself when `safelen ≥ 7`; otherwise it is the name with every other
character replaced by `_`. -/
theorem player_safe_name_spec (my_strcpy : List Char → Nat → List (Nat × Char))
    (b : safe_buffer) (safelen : Nat) (name : Option (List Char))
    (hcpy : StrcpyOk my_strcpy) (hfit : (name.getD []).length < safelen) :
    (∃ ws, (player_safe_name my_strcpy b safelen name).writes = b.writes ++ ws ∧
      ∀ i, i ∈ ws → i < safelen) ∧
    (∃ k, k < safelen ∧ (player_safe_name my_strcpy b safelen name).mem k = NUL ∧
      c_string (player_safe_name my_strcpy b safelen name).mem safelen =
        (List.range k).map (player_safe_name my_strcpy b safelen name).mem) ∧
    (∀ c, c ∈ c_string (player_safe_name my_strcpy b safelen name).mem safelen →
      isalpha c = true ∨ isdigit c = true ∨ c = '_') ∧
    ((name = none ∨ name = some []) →
      c_string (player_safe_name my_strcpy b safelen name).mem safelen =
          PLAYER.take (safelen - 1) ∧
        (7 ≤ safelen →
          c_string (player_safe_name my_strcpy b safelen name).mem safelen = PLAYER)) ∧
    (∀ n, name = some n → n ≠ [] →
      c_string (player_safe_name my_strcpy b safelen name).mem safelen = n.map safe_char) := by
  have hpos : 0 < safelen := lt_of_le_of_lt (Nat.zero_le _) hfit
  by_cases hname : name = none ∨ name = some []
  · obtain ⟨hw, hstr⟩ := hcpy PLAYER safelen hpos PLAYER_no_NUL
    have hs := hstr (buf_write b 0 NUL)
    rw [player_safe_name_fallback my_strcpy b safelen name hname]
    have hlen : (c_string (apply_writes (buf_write b 0 NUL) (my_strcpy PLAYER safelen)).mem
        safelen).length < safelen := by
      rw [hs, List.length_take]
      have := min_le_left (safelen - 1) PLAYER.length
      omega
    refine ⟨⟨0 :: (my_strcpy PLAYER safelen).map Prod.fst, ?_, ?_⟩,
      c_string_terminated _ _ hlen, ?_, fun _ => ⟨hs, fun h7 => ?_⟩, ?_⟩
    · rw [apply_writes_writes, buf_write_writes, List.append_assoc]
      rfl
    · intro i hi
      rcases List.mem_cons.mp hi with hi | hi
      · rw [hi]; exact hpos
      · obtain ⟨w, hwm, rfl⟩ := List.mem_map.mp hi
        exact hw w hwm
    · intro c hc
      rw [hs] at hc
      exact Or.inl (PLAYER_alpha c (List.mem_of_mem_take hc))
    · rw [hs]
      exact List.take_of_length_le (by
        have : PLAYER.length = 6 := rfl
        omega)
    · intro n hn hne
      rcases hname with h | h
      · rw [h] at hn; cases hn
      · rw [h] at hn
        exact absurd (Option.some.inj hn).symm hne
  · obtain ⟨n, rfl, hne⟩ : ∃ n, name = some n ∧ n ≠ [] := by
      cases name with
      | none => exact absurd (Or.inl rfl) hname
      | some n => exact ⟨n, rfl, fun h => hname (Or.inr (by rw [h]))⟩
    have hn : 0 < n.length := List.length_pos.mpr hne
    have hfit' : n.length < safelen := hfit
    rw [player_safe_name_named my_strcpy b safelen n hn hpos, min_eq_left (le_of_lt hfit')]
    have hs : c_string (buf_write ((List.range n.length).foldl (safe_name_body n) b)
        n.length NUL).mem safelen = n.map safe_char := by
      apply c_string_eq_of
      · rw [List.length_map]; exact hfit'
      · rw [List.length_map, buf_write_mem, if_pos rfl]
      · intro i hi
        rw [List.length_map] at hi
        rw [buf_write_mem, if_neg (by omega), safe_name_loop_mem, if_pos hi,
          List.getD_eq_getElem _ _ hi,
          List.getD_eq_getElem _ _ (by rw [List.length_map]; exact hi), List.getElem_map]
      · intro hmem
        obtain ⟨c, _, hc⟩ := List.mem_map.mp hmem
        exact safe_char_ne_NUL c hc
    have hlen : (c_string (buf_write ((List.range n.length).foldl (safe_name_body n) b)
        n.length NUL).mem safelen).length < safelen := by
      rw [hs, List.length_map]; exact hfit'
    refine ⟨⟨List.range n.length ++ [n.length], ?_, ?_⟩,
      c_string_terminated _ _ hlen, ?_, fun h => absurd h hname, ?_⟩
    · rw [buf_write_writes, safe_name_loop_writes, List.append_assoc]
    · intro i hi
      rcases List.mem_append.mp hi with hi | hi
      · rw [List.mem_range] at hi; omega
      · rw [List.mem_singleton] at hi; omega
    · intro c hc
      rw [hs] at hc
      obtain ⟨c0, _, rfl⟩ := List.mem_map.mp hc
      exact safe_char_ok c0
    · intro n' hn' _
      rw [← Option.some.inj hn']
      exact hs

/-- The behaviour for names that fit, at the name `ab c!9` and a buffer of 10
characters, with the bounded copy. -/
theorem player_safe_name_spec_witness :
    StrcpyOk my_strcpy_bounded ∧
      ((some ['a', 'b', ' ', 'c', '!', '9'] : Option (List Char)).getD []).length < 10 ∧
      c_string (player_safe_name my_strcpy_bounded sample_safe_buffer 10
        (some ['a', 'b', ' ', 'c', '!', '9'])).mem 10 =
          ['a', 'b', ' ', 'c', '!', '9'].map safe_char :=
  ⟨my_strcpy_bounded_ok, (by decide),
    (player_safe_name_spec my_strcpy_bounded sample_safe_buffer 10
      (some ['a', 'b', ' ', 'c', '!', '9']) my_strcpy_bounded_ok (by decide)).2.2.2.2
        _ rfl (by decide)⟩

/-! ## Safe names: the claim -/

/-- C31 fails on the code: for the name `abcd` and a buffer of 3 characters
(`safelen = 3`), whatever `my_strcpy` does, `player_safe_name` writes the
indexes 0, 1, 2 in its loop and then the terminator at index 3, which is not
below `safelen`; the three characters of the buffer hold `abc` and no
terminator, and `my_strcpy` is not called.  The line
`limit = MIN(limit, safelen)` keeps the loop inside the buffer but not the
terminator `safe[limit]`. -/
theorem player_safe_name_overflow (my_strcpy : List Char → Nat → List (Nat × Char)) :
    (player_safe_name my_strcpy sample_safe_buffer 3 (some ['a', 'b', 'c', 'd'])).writes =
        [0, 1, 2, 3] ∧
      (player_safe_name my_strcpy sample_safe_buffer 3 (some ['a', 'b', 'c', 'd'])).mem 3 =
        NUL ∧
      (¬ ∀ i, i ∈
          (player_safe_name my_strcpy sample_safe_buffer 3 (some ['a', 'b', 'c', 'd'])).writes →
        i < 3) ∧
      (List.range 3).map
          (player_safe_name my_strcpy sample_safe_buffer 3 (some ['a', 'b', 'c', 'd'])).mem =
        ['a', 'b', 'c'] ∧
      c_string
          (player_safe_name my_strcpy sample_safe_buffer 3 (some ['a', 'b', 'c', 'd'])).mem 3 =
        ['a', 'b', 'c'] := by
  rw [player_safe_name_named my_strcpy sample_safe_buffer 3 ['a', 'b', 'c', 'd']
    (by decide) (by decide)]
  refine ⟨by decide, by decide, ?_, by decide, by decide⟩
  intro h
  exact absurd (h 3 (by decide)) (by decide)

end PWMAngband
